import Mathlib

/-!
# socow_vector: small-object, copy-on-write vector

A shallow embedding of `src/src/socow-vector.h`.

* Element storage is a block of slots (`Slots T`); a slot is `none` while no
  object is constructed in it.  Reading or destroying an empty slot, and any
  access outside the block, is undefined behaviour in the source and a fault
  (`none`) here.
* The free store is a list of cells indexed by address: `some b` is a live
  `buffer`, `none` a freed one.  `new` appends a cell, so a fresh address is the
  current length of the store; dereferencing `nullptr`, a freed or an unknown
  address is a fault.
* Every member function takes the store and the object(s) it works on and
  returns the new store and object(s), inside `Option`.
* `size_t` arithmetic matters in one place: the byte count
  `sizeof(buffer) + sizeof(T) * capacity` of `get_buf_initialized` wraps modulo
  `SIZE_MAX + 1`, which a capacity chosen by the caller of `reserve` can reach.
  A `Machine` gives `SIZE_MAX + 1`, `sizeof(buffer)` and `sizeof(T)`; `lp64` is
  the 64-bit one, and `fits` says that a capacity is allocated without
  wrapping.  The capacities the container computes itself (`capacity()`,
  `size()`, `size() * 2`) are bounded by the memory it already holds and do not
  wrap; the statements on those operations are made on `ideal_machine`, whose
  `size_t` is unbounded.
* The template parameter `SMALL_SIZE` is an explicit argument; iterators are
  indices relative to `begin()`, and a position passed to `insert` or `erase`
  is a `const_iterator`: obtaining it through the non-const `begin()` is a call
  of `data()` before the operation.
* Copy construction of an element and allocation always succeed, except in the
  failure-injecting model of the growing branch of `insert`
  (`insert_growth_throwing`); exceptions elsewhere are outside this model.
  Addresses are never reused.
* A program is a `world`: the store and its containers, driven by `Command`s.
-/

namespace SocowVector

/-- Raw storage for elements: slot `i` holds `some x` when an object `x` is alive in it. -/
abbrev Slots (T : Type) := List (Option T)

/-- The heap block `struct buffer`: capacity, reference count and the flexible array `_data`. -/
structure buffer (T : Type) where
  _capacity : Nat
  _ref_count : Nat
  _data : Slots T
deriving DecidableEq

/-- The free store: cell `p` is `some b` for a live buffer at address `p`, `none` once freed. -/
abbrev heap (T : Type) := List (Option (buffer T))

/-- The object `socow_vector<T, SMALL_SIZE>`: `_size`, `is_small` and the two members of the
anonymous union, `_buf` (`none` is `nullptr`) and `static_data`. -/
structure socow_vector (T : Type) where
  _size : Nat
  is_small : Bool
  _buf : Option Nat
  static_data : Slots T
deriving DecidableEq

variable {T : Type}

/-! ## Standard-library primitives on raw storage -/

/-- Lvalue-to-rvalue read of slot `i`: the object must be alive. -/
def slot_read (m : Slots T) (i : Nat) : Option T :=
  match m[i]? with
  | some (some x) => some x
  | _ => none

/-- Model of `std::construct_at(p + i, v)`: the slot must lie inside the block. -/
def construct_at (m : Slots T) (i : Nat) (v : T) : Option (Slots T) :=
  if i < m.length then some (m.set i (some v)) else none

/-- Model of `std::destroy_at(p + i)`: the slot must hold a live object. -/
def destroy_at (m : Slots T) (i : Nat) : Option (Slots T) :=
  match m[i]? with
  | some (some _) => some (m.set i none)
  | _ => none

/-- Model of `std::destroy_n(p + first, n)`. -/
def destroy_n (m : Slots T) (first : Nat) : Nat → Option (Slots T)
  | 0 => some m
  | n + 1 => (destroy_at m first).bind fun m1 => destroy_n m1 (first + 1) n

/-- Model of `std::uninitialized_copy_n(src + sfirst, n, dst + dfirst)`, returning the
destination block (source and destination never overlap in this program). -/
def uninitialized_copy_n (src : Slots T) (sfirst : Nat) :
    Nat → Slots T → Nat → Option (Slots T)
  | 0, dst, _ => some dst
  | n + 1, dst, dfirst =>
    (slot_read src sfirst).bind fun x =>
    (construct_at dst dfirst x).bind fun dst1 =>
    uninitialized_copy_n src (sfirst + 1) n dst1 (dfirst + 1)

/-- Model of `std::swap(p[i], p[j])` inside one block: both objects must be alive. -/
def swap_slots (m : Slots T) (i j : Nat) : Option (Slots T) :=
  (slot_read m i).bind fun x =>
  (slot_read m j).bind fun y =>
  some ((m.set i (some y)).set j (some x))

/-- Model of `std::swap_ranges(a + first, a + first + n, b + first)` between two blocks. -/
def swap_ranges (a b : Slots T) (first : Nat) : Nat → Option (Slots T × Slots T)
  | 0 => some (a, b)
  | n + 1 =>
    (slot_read a first).bind fun x =>
    (slot_read b first).bind fun y =>
    swap_ranges (a.set first (some y)) (b.set first (some x)) (first + 1) n

/-- Read `n` consecutive live objects starting at slot `first`. -/
def read_n (m : Slots T) (first : Nat) : Nat → Option (List T)
  | 0 => some []
  | n + 1 =>
    (slot_read m first).bind fun x =>
    (read_n m (first + 1) n).bind fun xs => some (x :: xs)

/-! ## The free store -/

/-- Dereference `p->`: `p` must be a non-null pointer to a live buffer. -/
def deref (h : heap T) (p : Option Nat) : Option (buffer T) :=
  match p with
  | none => none
  | some a =>
    match h[a]? with
    | some (some b) => some b
    | _ => none

/-- The state of the union after an assignment to `_buf`: no object lives in `static_data`. -/
def clobbered (SMALL_SIZE : Nat) : Slots T := List.replicate SMALL_SIZE none

/-! ## Member functions -/

/-- The default constructor `socow_vector() noexcept : _buf(nullptr) {}`. -/
def socow_vector.default (SMALL_SIZE : Nat) : socow_vector T :=
  { _size := 0, is_small := true, _buf := none, static_data := clobbered SMALL_SIZE }

/-- The member `size()`. -/
def size (v : socow_vector T) : Nat := v._size

/-- The member `empty()`. -/
def empty (v : socow_vector T) : Bool := size v == 0

/-- The member `capacity()`: `is_small ? SMALL_SIZE : _buf->_capacity`. -/
def capacity (SMALL_SIZE : Nat) (h : heap T) (v : socow_vector T) : Option Nat :=
  if v.is_small then some SMALL_SIZE else (deref h v._buf).map fun b => b._capacity

/-- The member `is_shared()`: `!is_small && _buf->_ref_count > 1`. -/
def is_shared (h : heap T) (v : socow_vector T) : Option Bool :=
  if v.is_small then some false else (deref h v._buf).map fun b => decide (b._ref_count > 1)

/-- The const member `data()`: the block the returned pointer addresses,
`is_small ? static_data : _buf->_data`. -/
def cdata (h : heap T) (v : socow_vector T) : Option (Slots T) :=
  if v.is_small then some v.static_data else (deref h v._buf).map fun b => b._data

/-- Store a block back through the pointer that `data()` returned. -/
def set_data (h : heap T) (v : socow_vector T) (m : Slots T) :
    Option (heap T × socow_vector T) :=
  if v.is_small then some (h, { v with static_data := m })
  else
    match v._buf with
    | none => none
    | some a =>
      (deref h (some a)).bind fun b => some (h.set a (some { b with _data := m }), v)

/-- The const `operator[]`. -/
def const_index (h : heap T) (v : socow_vector T) (index : Nat) : Option T :=
  (cdata h v).bind fun m => slot_read m index

/-- The platform and the element type as far as the allocation of a buffer sees them:
`SIZE_MAX + 1` (`none` on the idealised machine whose `size_t` is unbounded),
`sizeof(buffer)` and `sizeof(T)`. -/
class Machine (T : Type) where
  size_modulus : Option Nat
  sizeof_buffer : Nat
  sizeof_T : Nat

/-- The value of `sizeof(buffer) + sizeof(T) * capacity` as the source computes it, in
`size_t`: it wraps modulo `SIZE_MAX + 1`. -/
def alloc_bytes (m : Machine T) (capacity : Nat) : Nat :=
  match m.size_modulus with
  | none => m.sizeof_buffer + m.sizeof_T * capacity
  | some M => (m.sizeof_buffer + m.sizeof_T * capacity) % M

/-- The number of element slots behind the header in a block of `bytes` bytes; `none` when
the block cannot hold the header `buffer{capacity, 1, {}}`. -/
def block_slots (m : Machine T) (bytes : Nat) : Option Nat :=
  if m.sizeof_buffer ≤ bytes then some ((bytes - m.sizeof_buffer) / m.sizeof_T) else none

/-- Whether the allocation size of a buffer for `capacity` elements is computed without
wrapping, so that the block has room for `capacity` elements. -/
def fits (m : Machine T) (capacity : Nat) : Bool :=
  block_slots m (alloc_bytes m capacity) == some capacity

/-- A machine with a 64-bit `size_t`, a 16-byte `buffer` header (two `size_t` members) and
elements of the given size. -/
def lp64 (sizeof_T : Nat) : Machine T :=
  { size_modulus := some (2 ^ 64), sizeof_buffer := 16, sizeof_T := sizeof_T }

/-- The private member `get_buf_initialized(capacity)`: a block of
`sizeof(buffer) + sizeof(T) * capacity` bytes, the byte count computed in `size_t`, in which
the header `{capacity, 1, {}}` is constructed and which receives copies of the first
`min(capacity, size())` elements; returns its address.  When the byte count wraps, the
block has fewer slots than the header says, and a copy past the block is a fault. -/
def get_buf_initialized [m : Machine T] (h : heap T) (v : socow_vector T) (capacity : Nat) :
    Option (heap T × Nat) :=
  (block_slots m (alloc_bytes m capacity)).bind fun slots =>
  (cdata h v).bind fun src =>
  (uninitialized_copy_n src 0 (min capacity (size v)) (List.replicate slots none) 0).bind
    fun d => some (h ++ [some { _capacity := capacity, _ref_count := 1, _data := d }], h.length)

/-- The private member `delete_buf(other_buf)`: destroys `size()` elements of the buffer
and frees it. -/
def delete_buf (h : heap T) (v : socow_vector T) (other_buf : Option Nat) : Option (heap T) :=
  match other_buf with
  | none => none
  | some a =>
    (deref h (some a)).bind fun b =>
    (destroy_n b._data 0 (size v)).bind fun _ => some (h.set a none)

/-- The private member `add_ref()`: `++_buf->_ref_count`. -/
def add_ref (h : heap T) (v : socow_vector T) : Option (heap T × socow_vector T) :=
  match v._buf with
  | none => none
  | some a =>
    (deref h (some a)).bind fun b =>
    some (h.set a (some { b with _ref_count := b._ref_count + 1 }), v)

/-- The private member `release_ref()`.  The `assert(!is_small)` is a fault when it fails;
a reference count of `0` on a live buffer (which `--` would wrap) is a fault too. -/
def release_ref (h : heap T) (v : socow_vector T) : Option (heap T × socow_vector T) :=
  if v.is_small then none
  else
    match v._buf with
    | none => some (h, v)
    | some a =>
      (deref h (some a)).bind fun b =>
      if b._ref_count = 1 then
        (delete_buf h v (some a)).bind fun h1 => some (h1, { v with _buf := none })
      else if b._ref_count = 0 then none
      else
        some (h.set a (some { b with _ref_count := b._ref_count - 1 }), { v with _buf := none })

/-- The private member `unshare(new_capacity)`. -/
def unshare_to [Machine T] (h : heap T) (v : socow_vector T) (new_capacity : Nat) :
    Option (heap T × socow_vector T) :=
  (is_shared h v).bind fun sh =>
  if !sh then some (h, v)
  else
    (get_buf_initialized h v new_capacity).bind fun r =>
    (release_ref r.1 v).bind fun s =>
    some (s.1, { s.2 with _buf := some r.2 })

/-- The private member `unshare()`: `unshare(capacity())`. -/
def unshare [Machine T] (SMALL_SIZE : Nat) (h : heap T) (v : socow_vector T) :
    Option (heap T × socow_vector T) :=
  (capacity SMALL_SIZE h v).bind fun c => unshare_to h v c

/-- The non-const member `data()`: unshares a buffer before handing out the pointer; the
pointer itself is read through `cdata` and written through `set_data`. -/
def data [Machine T] (SMALL_SIZE : Nat) (h : heap T) (v : socow_vector T) :
    Option (heap T × socow_vector T) :=
  if !v.is_small then unshare SMALL_SIZE h v else some (h, v)

/-- The private member `destructive_clear()`: `std::destroy_n(begin(), size())`. -/
def destructive_clear [Machine T] (SMALL_SIZE : Nat) (h : heap T) (v : socow_vector T) :
    Option (heap T × socow_vector T) :=
  (data SMALL_SIZE h v).bind fun s =>
  (cdata s.1 s.2).bind fun m =>
  (destroy_n m 0 (size s.2)).bind fun m1 => set_data s.1 s.2 m1

/-- The private member `copy_to_small(first, last)`, the range being `n` slots of the block
`src` from `first` on.  Constructing into `static_data` overwrites the union member `_buf`,
whose old value the function keeps in `_buf_copy`. -/
def copy_to_small (SMALL_SIZE : Nat) (h : heap T) (v : socow_vector T)
    (src : Slots T) (first n : Nat) : Option (heap T × socow_vector T) :=
  if n ≤ SMALL_SIZE ∧ v.is_small = false then
    match v._buf with
    | none => none
    | some a =>
      (uninitialized_copy_n src first n v.static_data 0).bind fun sd =>
      (deref h (some a)).bind fun b =>
      if b._ref_count = 0 then none
      else
        let h1 := h.set a (some { b with _ref_count := b._ref_count - 1 })
        (if b._ref_count - 1 = 0 then delete_buf h1 v (some a) else some h1).bind fun h2 =>
        some (h2, { v with static_data := sd, _buf := none, is_small := true })
  else none

/-- The private member `make_small()`. -/
def make_small (SMALL_SIZE : Nat) (h : heap T) (v : socow_vector T) :
    Option (heap T × socow_vector T) :=
  (cdata h v).bind fun src => copy_to_small SMALL_SIZE h v src 0 (size v)

/-- The private member `set_capacity(new_capacity)`. -/
def set_capacity [Machine T] (SMALL_SIZE : Nat) (h : heap T) (v : socow_vector T)
    (new_capacity : Nat) :
    Option (heap T × socow_vector T) :=
  (get_buf_initialized h v new_capacity).bind fun r =>
  (if v.is_small then destructive_clear SMALL_SIZE r.1 v else release_ref r.1 v).bind fun s =>
  some (s.1, { s.2 with _buf := some r.2, is_small := false,
                        static_data := clobbered SMALL_SIZE })

/-- The destructor `~socow_vector()`: `is_small ? destructive_clear() : release_ref()`;
only the store survives. -/
def destroy [Machine T] (SMALL_SIZE : Nat) (h : heap T) (v : socow_vector T) : Option (heap T) :=
  (if v.is_small then destructive_clear SMALL_SIZE h v else release_ref h v).map fun s => s.1

/-- The branch of `operator=` taken when both objects are small: the element-wise merge
through the local `tmp`, whose destructor runs on return. -/
def assign_small (SMALL_SIZE : Nat) (this other : socow_vector T) : Option (socow_vector T) :=
  let min_size := min (size this) (size other)
  let tmp : socow_vector T := socow_vector.default SMALL_SIZE
  (uninitialized_copy_n other.static_data 0 min_size tmp.static_data 0).bind fun t0 =>
  (uninitialized_copy_n other.static_data min_size (size other - min_size)
      this.static_data (size this)).bind fun s0 =>
  let prev_size := size this
  (swap_ranges t0 s0 0 min_size).bind fun r =>
  (destroy_n r.2 min_size (prev_size - min_size)).bind fun s1 =>
  (destroy_n r.1 0 min_size).bind fun _ =>
  some { this with static_data := s1, _size := size other }

/-- The copy assignment `operator=(const socow_vector& other)`; `same` is `this == &other`.
Only `*this` and the store change. -/
def assign [Machine T] (SMALL_SIZE : Nat) (h : heap T) (this other : socow_vector T) (same : Bool) :
    Option (heap T × socow_vector T) :=
  if same then some (h, { this with _size := size other, is_small := other.is_small })
  else if this.is_small && other.is_small then
    (assign_small SMALL_SIZE this other).map fun t => (h, t)
  else
    (if this.is_small && !other.is_small then
      (destructive_clear SMALL_SIZE h this).bind fun s =>
      add_ref s.1 { s.2 with _buf := other._buf, static_data := clobbered SMALL_SIZE }
    else if !this.is_small && other.is_small then
      (cdata h other).bind fun src => copy_to_small SMALL_SIZE h this src 0 (size other)
    else
      (release_ref h this).bind fun s =>
      add_ref s.1 { s.2 with _buf := other._buf }).bind
    fun s => some (s.1, { s.2 with _size := size other, is_small := other.is_small })

/-- The copy constructor `socow_vector(const socow_vector& other) { *this = other; }`: the
assignment runs on an object with the default member initializers `_size{0}` and
`is_small{true}`, whose union holds no object. -/
def copy_construct [Machine T] (SMALL_SIZE : Nat) (h : heap T) (other : socow_vector T) :
    Option (heap T × socow_vector T) :=
  assign SMALL_SIZE h (socow_vector.default SMALL_SIZE) other false

/-- One `std::swap(data()[i], data()[j])`: both operands call the non-const `data()`. -/
def swap_elems [Machine T] (SMALL_SIZE : Nat) (h : heap T) (v : socow_vector T) (i j : Nat) :
    Option (heap T × socow_vector T) :=
  (data SMALL_SIZE h v).bind fun s0 =>
  (data SMALL_SIZE s0.1 s0.2).bind fun s =>
  (cdata s.1 s.2).bind fun m =>
  (swap_slots m i j).bind fun m1 => set_data s.1 s.2 m1

/-- The loop `for (size_t i = size() - 1; i > idx; --i) std::swap(data()[i], data()[i - 1]);`
of `insert`, with `i = idx + k` on entry. -/
def insert_shift [Machine T] (SMALL_SIZE : Nat) (idx : Nat) :
    Nat → heap T → socow_vector T → Option (heap T × socow_vector T)
  | 0, h, v => some (h, v)
  | k + 1, h, v =>
    (swap_elems SMALL_SIZE h v (idx + k + 1) (idx + k)).bind fun s =>
    insert_shift SMALL_SIZE idx k s.1 s.2

/-- Write a block operation through the pointer returned by the non-const `data()`. -/
def with_data [Machine T] (SMALL_SIZE : Nat) (h : heap T) (v : socow_vector T)
    (f : Slots T → Option (Slots T)) : Option (heap T × socow_vector T) :=
  (data SMALL_SIZE h v).bind fun s =>
  (cdata s.1 s.2).bind fun m =>
  (f m).bind fun m1 => set_data s.1 s.2 m1

/-- The member `insert(pos, value)` with `idx = pos - begin()`; returns the index that the
returned iterator designates. -/
def insert [Machine T] (SMALL_SIZE : Nat) (h : heap T) (v : socow_vector T) (idx : Nat)
    (value : T) :
    Option (heap T × socow_vector T × Nat) :=
  (capacity SMALL_SIZE h v).bind fun cap =>
  (is_shared h v).bind fun sh =>
  (if size v == cap || sh then
    let tmp : socow_vector T := socow_vector.default SMALL_SIZE
    (set_capacity SMALL_SIZE h tmp (if cap == 0 then 1 else size v * 2)).bind fun s1 =>
    (cdata s1.1 v).bind fun src =>
    (with_data SMALL_SIZE s1.1 s1.2 fun m => uninitialized_copy_n src 0 idx m 0).bind fun s2 =>
    let tmp2 := { s2.2 with _size := s2.2._size + idx }
    (with_data SMALL_SIZE s2.1 tmp2 fun m => construct_at m idx value).bind fun s3 =>
    let tmp3 := { s3.2 with _size := s3.2._size + 1 }
    (cdata s3.1 v).bind fun src2 =>
    (with_data SMALL_SIZE s3.1 tmp3
      fun m => uninitialized_copy_n src2 idx (size v - idx) m (idx + 1)).bind fun s4 =>
    let tmp4 := { s4.2 with _size := size v + 1 }
    (assign SMALL_SIZE s4.1 v tmp4 false).bind fun s5 =>
    (destroy SMALL_SIZE s5.1 tmp4).bind fun h6 => some (h6, s5.2)
  else
    (with_data SMALL_SIZE h v fun m => construct_at m (size v) value).bind fun s1 =>
    let v1 := { s1.2 with _size := s1.2._size + 1 }
    insert_shift SMALL_SIZE idx (size v1 - 1 - idx) s1.1 v1).bind fun s =>
  (data SMALL_SIZE s.1 s.2).bind fun r => some (r.1, r.2, idx)

/-- The member `push_back(value)`: `insert(end(), value)`. -/
def push_back [Machine T] (SMALL_SIZE : Nat) (h : heap T) (v : socow_vector T) (value : T) :
    Option (heap T × socow_vector T) :=
  (insert SMALL_SIZE h v (size v) value).map fun r => (r.1, r.2.1)

/-- The branch of `swap` in which both objects are small. -/
def swap_small (this other : socow_vector T) : Option (socow_vector T × socow_vector T) :=
  (if size other < size this then
    (uninitialized_copy_n this.static_data (size other) (size this - size other)
        other.static_data (size other)).bind fun o1 =>
    (destroy_n this.static_data (size other) (size this - size other)).bind fun t1 =>
    some (t1, o1)
  else if size other > size this then
    (uninitialized_copy_n other.static_data (size this) (size other - size this)
        this.static_data (size this)).bind fun t1 =>
    (destroy_n other.static_data (size this) (size other - size this)).bind fun o1 =>
    some (t1, o1)
  else some (this.static_data, other.static_data)).bind fun r =>
  (swap_ranges r.1 r.2 0 (min (size this) (size other))).bind fun q =>
  some ({ this with is_small := other.is_small, _size := other._size, static_data := q.1 },
        { other with is_small := this.is_small, _size := this._size, static_data := q.2 })

/-- The last branch of `swap`: `socow_vector tmp = other; other = *this; *this = tmp;`
followed by the destructor of `tmp`. -/
def swap_big [Machine T] (SMALL_SIZE : Nat) (h : heap T) (this other : socow_vector T) :
    Option (heap T × socow_vector T × socow_vector T) :=
  (copy_construct SMALL_SIZE h other).bind fun s1 =>
  (assign SMALL_SIZE s1.1 other this false).bind fun s2 =>
  (assign SMALL_SIZE s2.1 this s1.2 false).bind fun s3 =>
  (destroy SMALL_SIZE s3.1 s1.2).bind fun h4 => some (h4, s3.2, s2.2)

/-- The member `swap(other)`; `same` is `this == &other`.  The call `other.swap(*this)` of
the source is made with a small argument and a big receiver exchanged, so it runs the last
branch with the two roles exchanged. -/
def swap [Machine T] (SMALL_SIZE : Nat) (h : heap T) (this other : socow_vector T) (same : Bool) :
    Option (heap T × socow_vector T × socow_vector T) :=
  if same then some (h, this, other)
  else if other.is_small then
    if this.is_small then (swap_small this other).map fun r => (h, r.1, r.2)
    else (swap_big SMALL_SIZE h other this).map fun r => (r.1, r.2.2, r.2.1)
  else swap_big SMALL_SIZE h this other

/-- The loop `for (size_t i = start; i != size(); ++i) std::swap(data()[first + i - last],
data()[i]);` of `erase`, with `k` iterations left. -/
def erase_shift [Machine T] (SMALL_SIZE : Nat) (idx start : Nat) :
    Nat → Nat → heap T → socow_vector T → Option (heap T × socow_vector T)
  | 0, _, h, v => some (h, v)
  | k + 1, i, h, v =>
    (swap_elems SMALL_SIZE h v (idx + i - start) i).bind fun s =>
    erase_shift SMALL_SIZE idx start k (i + 1) s.1 s.2

/-- The loop of the shared branch of `erase`, which refills `tmp` with the survivors;
`k` iterations left, `this` is read only. -/
def erase_refill [Machine T] (SMALL_SIZE : Nat) (this : socow_vector T) (idx len : Nat) :
    Nat → Nat → heap T → socow_vector T → Option (heap T × socow_vector T)
  | 0, _, h, tmp => some (h, tmp)
  | k + 1, i, h, tmp =>
    (const_index h this (if i < idx then i else i + len)).bind fun x =>
    (push_back SMALL_SIZE h tmp x).bind fun s =>
    erase_refill SMALL_SIZE this idx len k (i + 1) s.1 s.2

/-- The member `erase(first, last)` with `idx = first - begin()` and `start = last - begin()`;
returns the index that the returned iterator designates.  A range with `last < first` or
`size() < last` breaks the precondition and is a fault. -/
def erase [Machine T] (SMALL_SIZE : Nat) (h : heap T) (v : socow_vector T) (idx start : Nat) :
    Option (heap T × socow_vector T × Nat) :=
  if start < idx ∨ size v < start then none
  else
    let len := start - idx
    if len = 0 then (data SMALL_SIZE h v).bind fun r => some (r.1, r.2, idx)
    else
      (is_shared h v).bind fun sh =>
      (if !sh then
        (erase_shift SMALL_SIZE idx start (size v - start) start h v).bind fun s1 =>
        (with_data SMALL_SIZE s1.1 s1.2 fun m => destroy_n m (size s1.2 - len) len).bind fun s2 =>
        some (s2.1, { s2.2 with _size := s2.2._size - len })
      else
        let tmp : socow_vector T := socow_vector.default SMALL_SIZE
        (set_capacity SMALL_SIZE h tmp (size v - len)).bind fun s1 =>
        (erase_refill SMALL_SIZE v idx len (size v - len) 0 s1.1 s1.2).bind fun s2 =>
        (swap SMALL_SIZE s2.1 v s2.2 false).bind fun s3 =>
        (destroy SMALL_SIZE s3.1 s3.2.2).bind fun h4 => some (h4, s3.2.1)).bind fun s =>
      (data SMALL_SIZE s.1 s.2).bind fun r => some (r.1, r.2, idx)

/-- The member `erase(pos)`: `erase(pos, pos + 1)`. -/
def erase_at [Machine T] (SMALL_SIZE : Nat) (h : heap T) (v : socow_vector T) (idx : Nat) :
    Option (heap T × socow_vector T × Nat) :=
  erase SMALL_SIZE h v idx (idx + 1)

/-- The member `pop_back()`: `assert(size() != 0); erase(end() - 1);`. -/
def pop_back [Machine T] (SMALL_SIZE : Nat) (h : heap T) (v : socow_vector T) :
    Option (heap T × socow_vector T) :=
  if size v = 0 then none
  else (erase_at SMALL_SIZE h v (size v - 1)).map fun r => (r.1, r.2.1)

/-- The member `reserve(new_capacity)`. -/
def reserve [Machine T] (SMALL_SIZE : Nat) (h : heap T) (v : socow_vector T) (new_capacity : Nat) :
    Option (heap T × socow_vector T) :=
  if new_capacity ≤ size v then some (h, v)
  else if v.is_small then
    if new_capacity ≤ SMALL_SIZE then some (h, v)
    else set_capacity SMALL_SIZE h v new_capacity
  else if new_capacity ≤ SMALL_SIZE then make_small SMALL_SIZE h v
  else
    (deref h v._buf).bind fun b =>
    (capacity SMALL_SIZE h v).bind fun cap =>
    if b._ref_count = 1 ∧ new_capacity < cap then some (h, v)
    else set_capacity SMALL_SIZE h v new_capacity

/-- The member `shrink_to_fit()`. -/
def shrink_to_fit [Machine T] (SMALL_SIZE : Nat) (h : heap T) (v : socow_vector T) :
    Option (heap T × socow_vector T) :=
  if v.is_small then some (h, v)
  else if size v ≤ SMALL_SIZE then make_small SMALL_SIZE h v
  else
    (capacity SMALL_SIZE h v).bind fun cap =>
    if size v < cap then set_capacity SMALL_SIZE h v (size v) else some (h, v)

/-- The member `clear()`: `is_shared() ? release_ref() : destructive_clear(); _size = 0;`. -/
def clear [Machine T] (SMALL_SIZE : Nat) (h : heap T) (v : socow_vector T) :
    Option (heap T × socow_vector T) :=
  (is_shared h v).bind fun sh =>
  (if sh then release_ref h v else destructive_clear SMALL_SIZE h v).bind fun s =>
  some (s.1, { s.2 with _size := 0 })

/-- An element write `v[index] = value` through the non-const `operator[]`
(`data()[index]`): the slot must hold a live object, which is assigned to. -/
def write_index [Machine T] (SMALL_SIZE : Nat) (h : heap T) (v : socow_vector T)
    (index : Nat) (value : T) :
    Option (heap T × socow_vector T) :=
  with_data SMALL_SIZE h v fun m =>
    (slot_read m index).bind fun _ => some (m.set index (some value))

/-- A run of `push_back` calls, one per value, in order. -/
def push_all [Machine T] (SMALL_SIZE : Nat) : List T → heap T → socow_vector T →
    Option (heap T × socow_vector T)
  | [], h, v => some (h, v)
  | x :: xs, h, v => (push_back SMALL_SIZE h v x).bind fun s => push_all SMALL_SIZE xs s.1 s.2

/-- The mutating operations of the public interface, as requests on one container. -/
inductive Mutation (T : Type) where
  | push_back (value : T)
  | insert (idx : Nat) (value : T)
  | erase (first last : Nat)
  | pop_back
  | clear
  | reserve (new_capacity : Nat)
  | shrink_to_fit
  | write (index : Nat) (value : T)

/-- Run one mutating operation on the container `v`. -/
def Mutation.run [Machine T] (SMALL_SIZE : Nat) (h : heap T) (v : socow_vector T) :
    Mutation T → Option (heap T × socow_vector T)
  | .push_back x => SocowVector.push_back SMALL_SIZE h v x
  | .insert i x => (SocowVector.insert SMALL_SIZE h v i x).map fun r => (r.1, r.2.1)
  | .erase f l => (SocowVector.erase SMALL_SIZE h v f l).map fun r => (r.1, r.2.1)
  | .pop_back => SocowVector.pop_back SMALL_SIZE h v
  | .clear => SocowVector.clear SMALL_SIZE h v
  | .reserve n => SocowVector.reserve SMALL_SIZE h v n
  | .shrink_to_fit => SocowVector.shrink_to_fit SMALL_SIZE h v
  | .write i x => SocowVector.write_index SMALL_SIZE h v i x

/-- The preconditions of the interface for a container of `n` elements: positions and
ranges lie inside the container, `pop_back` needs an element. -/
def Mutation.valid (n : Nat) : Mutation T → Bool
  | .insert i _ => decide (i ≤ n)
  | .erase f l => decide (f ≤ l ∧ l ≤ n)
  | .pop_back => decide (n ≠ 0)
  | .write i _ => decide (i < n)
  | _ => true

/-- The operations that go through `insert`. -/
def Mutation.grows : Mutation T → Bool
  | .push_back _ => true
  | .insert _ _ => true
  | _ => false

/-- The configuration in which the growing branch of `insert` asks for a replacement
buffer of capacity `size() * 2 = 0`: an empty container sharing a buffer of non-zero
capacity. -/
def overflows (SMALL_SIZE : Nat) (h : heap T) (v : socow_vector T) : Bool :=
  size v == 0 && is_shared h v == some true && capacity SMALL_SIZE h v != some 0

/-- The store after five pushes `0, 1, 2, 3, 4` onto an empty container with
`SMALL_SIZE = 4`: one buffer of capacity 8. -/
def demo_store : heap Nat :=
  [some ⟨8, 1, [some 0, some 1, some 2, some 3, some 4, none, none, none]⟩]

/-- The container after five pushes `0, 1, 2, 3, 4` with `SMALL_SIZE = 4`. -/
def demo_vec : socow_vector Nat := ⟨5, false, some 0, [none, none, none, none]⟩

/-! ## Failure injection for the growing branch of insert

Allocation and element copy construction may throw.  `alloc` tells whether the one
`new` of the growing branch succeeds; `budget` is the number of copy constructions that
succeed before one throws (`none`: no copy construction throws). -/

/-- The element sequence `[v[0], ..., v[size() - 1]]` as read through the const interface. -/
def elems (h : heap T) (v : socow_vector T) : Option (List T) :=
  (cdata h v).bind fun m => read_n m 0 (size v)

/-- A store in which the buffer of `demo_vec` has two holders. -/
def demo_shared_store : heap Nat :=
  [some ⟨8, 2, [some 0, some 1, some 2, some 3, some 4, none, none, none]⟩]

/-- The buffer that a Shared container addresses (`none` for an Inline container and for
a pointer that addresses no live buffer). -/
def buffer_of (h : heap T) (v : socow_vector T) : Option (buffer T) :=
  if v.is_small then none else deref h v._buf

/-- The data-model invariant of one container: `static_data` has `SMALL_SIZE` slots; an
Inline container has `size() ≤ SMALL_SIZE` live elements in `static_data`; a Shared one
addresses a live buffer with `_ref_count ≥ 1`, `_capacity` slots and `size() ≤ _capacity`
live elements. -/
def wf (SMALL_SIZE : Nat) (h : heap T) (v : socow_vector T) : Bool :=
  v.static_data.length == SMALL_SIZE &&
  (if v.is_small then
    decide (size v ≤ SMALL_SIZE) && (read_n v.static_data 0 (size v)).isSome
  else
    match deref h v._buf with
    | some b =>
      decide (1 ≤ b._ref_count) && (b._data.length == b._capacity) &&
      decide (size v ≤ b._capacity) && (read_n b._data 0 (size v)).isSome
    | none => false)

/-- The reference-count invariant for two distinct containers: a buffer that both address
has `_ref_count ≥ 2`. -/
def counted (h : heap T) (a b : socow_vector T) : Bool :=
  if !a.is_small && !b.is_small && a._buf == b._buf then
    match deref h a._buf with
    | some bf => decide (2 ≤ bf._ref_count)
    | none => false
  else true

/-- `Rep SMALL_SIZE h v xs`: the container `v` is well formed in the store `h` and its
element sequence is `xs`. -/
def Rep (SMALL_SIZE : Nat) (h : heap T) (v : socow_vector T) (xs : List T) : Prop :=
  wf SMALL_SIZE h v = true ∧ elems h v = some xs

/-- The slot-level effect of the shifting loop of `insert`. -/
def slots_insert_shift (idx : Nat) : Nat → Slots T → Option (Slots T)
  | 0, m => some m
  | k + 1, m => (swap_slots m (idx + k + 1) (idx + k)).bind fun m1 => slots_insert_shift idx k m1

/-- The slot-level effect of the shifting loop of `erase`. -/
def slots_erase_shift (idx start : Nat) : Nat → Nat → Slots T → Option (Slots T)
  | 0, _, m => some m
  | k + 1, i, m =>
    (swap_slots m (idx + i - start) i).bind fun m1 => slots_erase_shift idx start k (i + 1) m1

/-- The container does not share its storage and `data()` addresses the block `m`. -/
def Own (h : heap T) (v : socow_vector T) (m : Slots T) : Prop :=
  is_shared h v = some false ∧ cdata h v = some m

/-- The cell of a buffer after one holder has let go of it: freed when that holder was the
only one, otherwise the same buffer with the count decreased by one. -/
def released (b : buffer T) : Option (buffer T) :=
  if b._ref_count = 1 then none else some { b with _ref_count := b._ref_count - 1 }

/-- The buffer that `get_buf_initialized(c)` builds for a container holding `xs`. -/
def fresh_buf (c : Nat) (xs : List T) : buffer T :=
  { _capacity := c, _ref_count := 1,
    _data := (xs.take c).map some ++ List.replicate (c - xs.length) none }

/-- What an operation on the container `v` may do to a buffer that was live before it: a
buffer that `v` does not address is left as it is, and a buffer that `v` shares with other
holders (`_ref_count ≥ 2`) keeps its capacity and contents and loses at most the one
reference that `v` held. -/
def Frame (h h1 : heap T) (v : socow_vector T) : Prop :=
  ∀ q b, h[q]? = some (some b) →
    ((v.is_small = false ∧ v._buf = some q) → 2 ≤ b._ref_count →
      (h1[q]? = some (some b) ∨
        h1[q]? = some (some { b with _ref_count := b._ref_count - 1 }))) ∧
    (¬ (v.is_small = false ∧ v._buf = some q) → h1[q]? = some (some b))

/-! ## A world of containers

The public operations act on the containers of a program; a container keeps its index
for the whole run and a destroyed container leaves `none` at its index. -/

/-- The buffer address that a container in Shared mode holds. -/
def addr (v : socow_vector T) : Option Nat :=
  if v.is_small then none else v._buf

/-- The reference count stored in the buffer at address `q`; `0` when no live buffer is
there. -/
def refs (h : heap T) (q : Nat) : Nat :=
  match h[q]? with
  | some (some b) => b._ref_count
  | _ => 0

/-- Indicator of the address `q`. -/
def ind (a : Option Nat) (q : Nat) : Nat :=
  if a = some q then 1 else 0

/-- Whether a live container in Shared mode addresses the buffer `q` (as `1` or `0`). -/
def holds (e : Option (socow_vector T)) (q : Nat) : Nat :=
  match e with
  | some v => ind (addr v) q
  | none => 0

/-- The number of live containers in Shared mode that address the buffer `q`. -/
def holders (vs : List (Option (socow_vector T))) (q : Nat) : Nat :=
  (vs.map fun e => holds e q).sum

/-- The store of buffers and the containers of a program. -/
structure world (T : Type) where
  store : heap T
  vecs : List (Option (socow_vector T))
  deriving DecidableEq

/-- The live container with index `i`. -/
def world.get (w : world T) (i : Nat) : Option (socow_vector T) :=
  match w.vecs[i]? with
  | some (some v) => some v
  | _ => none

/-- The public operations on the containers of a world: default construction, copy
construction from container `j`, copy assignment `i = j`, a mutating operation on `i`,
`i.swap(j)`, non-const access to the elements of `i` (`data()`, `begin()`, `end()`,
`front()`, `back()`, `operator[]`), and destruction of `i`. -/
inductive Command (T : Type) where
  | create
  | copy (j : Nat)
  | assign (i j : Nat)
  | mutate (i : Nat) (op : Mutation T)
  | swap (i j : Nat)
  | access (i : Nat)
  | destroy (i : Nat)

/-- One public operation; `none` when it addresses no live container, violates a
precondition of the interface or faults. -/
def exec [Machine T] (SMALL_SIZE : Nat) (w : world T) : Command T → Option (world T)
  | .create => some ⟨w.store, w.vecs ++ [some (socow_vector.default SMALL_SIZE)]⟩
  | .copy j =>
    (w.get j).bind fun o =>
    (copy_construct SMALL_SIZE w.store o).map fun r => ⟨r.1, w.vecs ++ [some r.2]⟩
  | .assign i j =>
    (w.get i).bind fun t =>
    (w.get j).bind fun o =>
    (SocowVector.assign SMALL_SIZE w.store t o (i == j)).map fun r =>
      ⟨r.1, w.vecs.set i (some r.2)⟩
  | .mutate i op =>
    (w.get i).bind fun v =>
    if op.valid (size v) then
      (op.run SMALL_SIZE w.store v).map fun r => ⟨r.1, w.vecs.set i (some r.2)⟩
    else none
  | .swap i j =>
    (w.get i).bind fun a =>
    (w.get j).bind fun b =>
    (SocowVector.swap SMALL_SIZE w.store a b (i == j)).map fun r =>
      ⟨r.1, (w.vecs.set i (some r.2.1)).set j (some r.2.2)⟩
  | .access i =>
    (w.get i).bind fun v =>
    (data SMALL_SIZE w.store v).map fun r => ⟨r.1, w.vecs.set i (some r.2)⟩
  | .destroy i =>
    (w.get i).bind fun v =>
    (SocowVector.destroy SMALL_SIZE w.store v).map fun h1 => ⟨h1, w.vecs.set i none⟩

/-- A sequence of public operations. -/
def run [Machine T] (SMALL_SIZE : Nat) : List (Command T) → world T → Option (world T)
  | [], w => some w
  | c :: cs, w => (exec SMALL_SIZE w c).bind fun w1 => run SMALL_SIZE cs w1

/-- Every live buffer has a reference count of at least one. -/
def Live (h : heap T) : Prop :=
  ∀ (q : Nat) (b : buffer T), h[q]? = some (some b) → 1 ≤ b._ref_count

/-- The effect of an operation on the reference counts: a container that held the address
`a` before holds `a1` afterwards.  The counts follow the holder, and a buffer that has
another holder stays live with its capacity and contents. -/
def Effect (h h1 : heap T) (a a1 : Option Nat) : Prop :=
  (Live h → Live h1) ∧
  ∀ q : Nat, refs h1 q + ind a q = refs h q + ind a1 q ∧
    ∀ b : buffer T, h[q]? = some (some b) → ind a q < b._ref_count →
      ∃ r, h1[q]? = some (some { b with _ref_count := r })

/-- The state of a container after `clear()` on a shared buffer: Shared mode, null buffer
pointer. -/
def null_state (v : socow_vector T) : Prop :=
  v.is_small = false ∧ v._buf = none

/-- A container is well formed or in the null state. -/
def Valid (SMALL_SIZE : Nat) (h : heap T) (v : socow_vector T) : Prop :=
  (∃ xs, Rep SMALL_SIZE h v xs) ∨ (null_state v ∧ v.static_data.length = SMALL_SIZE)

/-- The invariant of a world: every live container is well formed or in the null state,
every live buffer has a positive reference count, and the count of every address is the
number of its holders. -/
def Consistent (SMALL_SIZE : Nat) (w : world T) : Prop :=
  (∀ (i : Nat) (v : socow_vector T), w.vecs[i]? = some (some v) →
    Valid SMALL_SIZE w.store v) ∧
  Live w.store ∧ ∀ q : Nat, refs w.store q = holders w.vecs q

/-- A run with `SMALL_SIZE = 4`: container 0 receives five values and is copied to
container 1; a write through container 1 unshares it; container 2 is created and assigned
from container 1; container 1 is cleared and container 0 destroyed. -/
def demo_commands : List (Command Nat) :=
  [Command.create, Command.mutate 0 (Mutation.push_back 0),
    Command.mutate 0 (Mutation.push_back 1), Command.mutate 0 (Mutation.push_back 2),
    Command.mutate 0 (Mutation.push_back 3), Command.mutate 0 (Mutation.push_back 4),
    Command.copy 0, Command.mutate 1 (Mutation.write 0 9), Command.create,
    Command.assign 2 1, Command.mutate 1 Mutation.clear, Command.destroy 0]

/-- The world that `demo_commands` reaches from the empty world. -/
def demo_world : world Nat :=
  { store := [none, some ⟨8, 1, [some 9, some 1, some 2, some 3, some 4, none, none, none]⟩],
    vecs := [none, some ⟨0, false, none, [none, none, none, none]⟩,
      some ⟨5, false, some 1, [none, none, none, none]⟩] }

/-- The idealised machine: `size_t` is unbounded, so no allocation size wraps and every
block has the room its header says.  Every statement that names no machine is about this
one; the statements about `reserve` with a capacity chosen by the caller name theirs. -/
instance ideal_machine : Machine T :=
  { size_modulus := none, sizeof_buffer := 16, sizeof_T := 1 }

/-! # Lemmas -/

theorem fits_ideal (c : Nat) : fits (ideal_machine : Machine T) c = true := by
  simp [fits, block_slots, alloc_bytes, ideal_machine]

theorem block_slots_of_fits (m : Machine T) (c : Nat) (hfit : fits m c = true) :
    block_slots m (alloc_bytes m c) = some c := by
  simpa [fits] using hfit


/-! ## Lists -/

theorem getElem?_mid {α : Type} (p q : List α) (a : α) : (p ++ a :: q)[p.length]? = some a := by
  induction p with
  | nil => simp
  | cons x p ih => simpa using ih

theorem set_mid {α : Type} (p q : List α) (a b : α) :
    (p ++ a :: q).set p.length b = p ++ b :: q := by
  induction p with
  | nil => simp
  | cons x p ih => simp [ih]

/-! ## Raw storage -/

theorem slot_read_mid (p q : Slots T) (x : T) : slot_read (p ++ some x :: q) p.length = some x := by
  simp only [slot_read, getElem?_mid]

theorem slot_read_eq_some (m : Slots T) (i : Nat) (x : T) :
    slot_read m i = some x ↔ m[i]? = some (some x) := by
  unfold slot_read
  split
  · rename_i y hy; simp [hy]
  · rename_i hn
    constructor
    · intro h; cases h
    · intro h; exact absurd h (hn x)

theorem uninit_copy_app (ys : List T) : ∀ (ps qs pd md qd : Slots T),
    md.length = ys.length →
    uninitialized_copy_n (ps ++ ys.map some ++ qs) ps.length ys.length (pd ++ md ++ qd) pd.length
      = some (pd ++ ys.map some ++ qd) := by
  induction ys with
  | nil => intro ps qs pd md qd h; simp at h; subst h; simp [uninitialized_copy_n]
  | cons y ys ih =>
    intro ps qs pd md qd h
    cases md with
    | nil => simp at h
    | cons a md =>
      simp at h
      have h1 : slot_read (ps ++ some y :: (List.map some ys ++ qs)) ps.length = some y :=
        slot_read_mid _ _ _
      have h2 := ih (ps ++ [some y]) qs (pd ++ [some y]) md qd h
      simp only [List.length_append, List.length_singleton, List.append_assoc,
        List.singleton_append] at h2
      simp only [uninitialized_copy_n, List.map_cons, List.length_cons, List.append_assoc,
        List.cons_append, h1, Option.some_bind, construct_at, List.length_append,
        Nat.lt_add_one_iff, Nat.le_add_right, if_true, set_mid]
      simpa using h2

theorem destroy_n_app (ys : List T) : ∀ (p q : Slots T),
    destroy_n (p ++ ys.map some ++ q) p.length ys.length
      = some (p ++ List.replicate ys.length none ++ q) := by
  induction ys with
  | nil => intro p q; simp [destroy_n]
  | cons y ys ih =>
    intro p q
    have h2 := ih (p ++ [none]) q
    simp only [List.length_append, List.length_singleton, List.append_assoc,
      List.singleton_append] at h2
    simp only [destroy_n, destroy_at, List.map_cons, List.length_cons, List.append_assoc,
      List.cons_append, getElem?_mid, Option.some_bind, set_mid, List.replicate_succ]
    simpa using h2

theorem read_n_app (ys : List T) : ∀ (p q : Slots T),
    read_n (p ++ ys.map some ++ q) p.length ys.length = some ys := by
  induction ys with
  | nil => intro p q; simp [read_n]
  | cons y ys ih =>
    intro p q
    have h2 := ih (p ++ [some y]) q
    simp only [List.length_append, List.length_singleton, List.append_assoc,
      List.singleton_append] at h2
    have h1 : slot_read (p ++ some y :: (List.map some ys ++ q)) p.length = some y :=
      slot_read_mid _ _ _
    simp only [read_n, List.map_cons, List.length_cons, List.append_assoc,
      List.cons_append, h1, Option.some_bind]
    simp only [List.cons_append] at h2
    simp [h2]

theorem read_n_pointwise (m : Slots T) : ∀ (n first : Nat) (ys : List T),
    read_n m first n = some ys →
    ys.length = n ∧ ∀ i, i < n → m[first + i]? = some ys[i]? := by
  intro n
  induction n with
  | zero => intro first ys h; simp [read_n] at h; subst h; simp
  | succ n ih =>
    intro first ys h
    simp only [read_n] at h
    cases hx : slot_read m first with
    | none => simp [hx] at h
    | some x =>
      cases hr : read_n m (first + 1) n with
      | none => simp [hx, hr] at h
      | some xs =>
        simp [hx, hr] at h
        subst h
        obtain ⟨hl, hp⟩ := ih (first + 1) xs hr
        refine ⟨by simp [hl], ?_⟩
        intro i hi
        cases i with
        | zero => simpa using (slot_read_eq_some m first x).1 hx
        | succ i =>
          have := hp i (by omega)
          simpa [Nat.add_comm, Nat.add_left_comm, Nat.add_assoc] using this

theorem read_n_zero_canon (m : Slots T) (n : Nat) (ys : List T) (h : read_n m 0 n = some ys) :
    ys.length = n ∧ ∃ tl, m = ys.map some ++ tl := by
  obtain ⟨hl, hp⟩ := read_n_pointwise m n 0 ys h
  refine ⟨hl, m.drop n, ?_⟩
  have : m.take n = ys.map some := by
    apply List.ext_getElem?
    intro i
    by_cases hi : i < n
    · have := hp i hi
      simp only [Nat.zero_add] at this
      rw [List.getElem?_take_of_lt hi, this]
      have hi2 : i < ys.length := by omega
      simp [List.getElem?_eq_getElem hi2]
    · have h1 : (List.take n m)[i]? = none := by
        apply List.getElem?_eq_none
        simp; omega
      have h2 : (List.map some ys)[i]? = none := by
        apply List.getElem?_eq_none
        simp; omega
      rw [h1, h2]
  rw [← this, List.take_append_drop]

theorem swap_slots_app (p mid q : Slots T) (x y : T) :
    swap_slots (p ++ some x :: (mid ++ some y :: q)) p.length (p.length + 1 + mid.length)
      = some (p ++ some y :: (mid ++ some x :: q)) := by
  have h1 : slot_read (p ++ some x :: (mid ++ some y :: q)) p.length = some x :=
    slot_read_mid _ _ _
  have e : p ++ some x :: (mid ++ some y :: q) = (p ++ some x :: mid) ++ some y :: q := by simp
  have l : (p ++ some x :: mid).length = p.length + 1 + mid.length := by simp; omega
  have h2 : slot_read (p ++ some x :: (mid ++ some y :: q)) (p.length + 1 + mid.length)
      = some y := by
    rw [e, ← l]; exact slot_read_mid _ _ _
  simp only [swap_slots, h1, h2, Option.some_bind, set_mid]
  have e2 : p ++ some y :: (mid ++ some y :: q) = (p ++ some y :: mid) ++ some y :: q := by simp
  have l2 : (p ++ some y :: mid).length = p.length + 1 + mid.length := by simp; omega
  rw [e2, ← l2, set_mid]
  simp

theorem swap_slots_adj (p q : Slots T) (b x : T) :
    swap_slots (p ++ some b :: some x :: q) (p.length + 1) p.length
      = some (p ++ some x :: some b :: q) := by
  have h1 : slot_read (p ++ some b :: some x :: q) p.length = some b := slot_read_mid _ _ _
  have e : p ++ some b :: some x :: q = (p ++ [some b]) ++ some x :: q := by simp
  have l : (p ++ [some b]).length = p.length + 1 := by simp
  have h2 : slot_read (p ++ some b :: some x :: q) (p.length + 1) = some x := by
    rw [e, ← l]; exact slot_read_mid _ _ _
  simp only [swap_slots, h1, h2, Option.some_bind]
  rw [e, ← l, set_mid]
  have e3 : p ++ [some b] ++ some b :: q = p ++ some b :: (some b :: q) := by simp
  rw [e3, set_mid]

theorem slots_insert_shift_app (x : T) : ∀ (n : Nat) (b : List T) (p q : Slots T),
    b.length = n →
    slots_insert_shift p.length n (p ++ b.map some ++ some x :: q)
      = some (p ++ some x :: (b.map some ++ q)) := by
  intro n
  induction n with
  | zero =>
    intro b p q hb
    have : b = [] := List.length_eq_zero.1 hb
    subst this
    simp [slots_insert_shift]
  | succ n ih =>
    intro b p q hb
    obtain ⟨b0, y, rfl⟩ : ∃ b0 y, b = b0 ++ [y] := by
      have hne : b ≠ [] := by intro h; subst h; simp at hb
      exact ⟨b.dropLast, b.getLast hne, (List.dropLast_append_getLast hne).symm⟩
    have hb0 : b0.length = n := by simpa using hb
    have e : p ++ List.map some (b0 ++ [y]) ++ some x :: q
        = (p ++ b0.map some) ++ some y :: some x :: q := by simp
    have l : (p ++ b0.map some).length = p.length + n := by simp [hb0]
    simp only [slots_insert_shift]
    rw [e, ← l, swap_slots_adj]
    simp only [Option.some_bind]
    have e2 : p ++ List.map some b0 ++ some x :: some y :: q
        = p ++ b0.map some ++ some x :: (some y :: q) := by simp
    rw [e2, ih b0 p (some y :: q) hb0]
    simp

theorem slots_erase_shift_app (idx start : Nat) (q : Slots T) : ∀ (r : List T) (l : Slots T)
    (e : List T) (i : Nat), e ≠ [] → i = l.length + e.length → idx + i = start + l.length →
    ∃ e2 : List T, e2.length = e.length ∧
      slots_erase_shift idx start r.length i (l ++ e.map some ++ r.map some ++ q)
        = some (l ++ r.map some ++ e2.map some ++ q) := by
  intro r
  induction r with
  | nil => intro l e i _ _ _; exact ⟨e, rfl, by simp [slots_erase_shift]⟩
  | cons y r ih =>
    intro l e i hne hi hidx
    cases e with
    | nil => exact absurd rfl hne
    | cons e0 et =>
      have h1 : idx + i - start = l.length := by omega
      have e1 : l ++ List.map some (e0 :: et) ++ List.map some (y :: r) ++ q
          = l ++ some e0 :: (et.map some ++ some y :: (r.map some ++ q)) := by simp
      have hi2 : i = l.length + 1 + (et.map some).length := by simp at hi ⊢; omega
      obtain ⟨e2, hl2, h2⟩ := ih (l ++ [some y]) (et ++ [e0]) (i + 1) (by simp)
        (by simp at hi ⊢; omega) (by simp; omega)
      refine ⟨e2, by simpa using hl2, ?_⟩
      simp only [slots_erase_shift, List.length_cons]
      rw [h1, e1]
      conv => lhs; arg 1; rw [hi2]
      rw [swap_slots_app]
      simp only [Option.some_bind]
      have e3 : l ++ some y :: (List.map some et ++ some e0 :: (List.map some r ++ q))
          = l ++ [some y] ++ List.map some (et ++ [e0]) ++ List.map some r ++ q := by simp
      rw [e3, h2]
      simp

theorem swap_ranges_app : ∀ (xs ys : List T) (p1 p2 qa qb : Slots T),
    xs.length = ys.length → p1.length = p2.length →
    swap_ranges (p1 ++ xs.map some ++ qa) (p2 ++ ys.map some ++ qb) p1.length xs.length
      = some (p1 ++ ys.map some ++ qa, p2 ++ xs.map some ++ qb) := by
  intro xs
  induction xs with
  | nil =>
    intro ys p1 p2 qa qb hl _
    have : ys = [] := List.length_eq_zero.1 hl.symm
    subst this
    simp [swap_ranges]
  | cons x xs ih =>
    intro ys p1 p2 qa qb hl hp
    cases ys with
    | nil => simp at hl
    | cons y ys =>
      have h1 : slot_read (p1 ++ some x :: (xs.map some ++ qa)) p1.length = some x :=
        slot_read_mid _ _ _
      have h2 : slot_read (p2 ++ some y :: (ys.map some ++ qb)) p1.length = some y := by
        rw [hp]; exact slot_read_mid _ _ _
      have h3 := ih ys (p1 ++ [some y]) (p2 ++ [some x]) qa qb (by simpa using hl)
        (by simp [hp])
      simp only [List.length_append, List.length_singleton, List.append_assoc,
        List.singleton_append] at h3
      simp only [swap_ranges, List.map_cons, List.length_cons, List.append_assoc,
        List.cons_append, h1, h2, Option.some_bind, set_mid]
      have e : (p2 ++ some y :: (List.map some ys ++ qb)).set p1.length (some x)
          = p2 ++ some x :: (List.map some ys ++ qb) := by rw [hp, set_mid]
      rw [e]
      simpa using h3

/-! ## Containers that own their storage -/

theorem set_self {α : Type} (l : List α) (i : Nat) (a : α) (h : l[i]? = some a) :
    l.set i a = l := by
  apply List.ext_getElem?
  intro j
  by_cases hj : i = j
  · subst hj
    have hi : i < l.length := by
      rcases List.getElem?_eq_some.1 h with ⟨hi, _⟩; exact hi
    simp [List.getElem?_set, hi, h]
  · simp [List.getElem?_set, hj]

theorem deref_eq_some (h : heap T) (a : Nat) (b : buffer T) :
    deref h (some a) = some b ↔ h[a]? = some (some b) := by
  simp only [deref]
  split
  · rename_i y hy; simp [hy]
  · rename_i hn
    constructor
    · intro h; cases h
    · intro h; exact absurd h (hn b)

theorem deref_set_same (h : heap T) (a : Nat) (c : Option (buffer T)) (ha : a < h.length) :
    deref (h.set a c) (some a) = c := by
  simp only [deref, List.getElem?_set, ha, if_true]
  cases c <;> simp

theorem deref_set_ne (h : heap T) (a q : Nat) (c : Option (buffer T)) (hq : a ≠ q) :
    deref (h.set a c) (some q) = deref h (some q) := by
  simp only [deref, List.getElem?_set, hq, if_false]

theorem deref_lt (h : heap T) (a : Nat) (b : buffer T) (hd : deref h (some a) = some b) :
    a < h.length := by
  rcases List.getElem?_eq_some.1 ((deref_eq_some h a b).1 hd) with ⟨hi, _⟩
  exact hi

theorem deref_append (h g : heap T) (a : Nat) (ha : a < h.length) :
    deref (h ++ g) (some a) = deref h (some a) := by
  simp only [deref, List.getElem?_append_left ha]

theorem data_own (S : Nat) (h : heap T) (v : socow_vector T) (m : Slots T) (ho : Own h v m) :
    data S h v = some (h, v) := by
  obtain ⟨hs, hc⟩ := ho
  unfold data
  cases hsm : v.is_small with
  | true => simp
  | false =>
    simp only [is_shared, hsm] at hs
    cases hd : deref h v._buf with
    | none => simp [hd] at hs
    | some b =>
      simp [hd] at hs
      have hs2 : ¬ 1 < b._ref_count := by omega
      simp [unshare, capacity, hsm, hd, unshare_to, is_shared, hs2]

theorem set_data_own (h : heap T) (v : socow_vector T) (m m1 : Slots T) (ho : Own h v m) :
    ∃ h1 v1, set_data h v m1 = some (h1, v1) ∧ Own h1 v1 m1 ∧
      v1._size = v._size ∧ v1.is_small = v.is_small ∧ v1._buf = v._buf ∧
      (v.is_small = true → h1 = h ∧ v1 = { v with static_data := m1 }) ∧
      (v.is_small = false → v1 = v ∧ ∃ a b, v._buf = some a ∧ deref h (some a) = some b ∧
        h1 = h.set a (some { b with _data := m1 })) ∧
      (∀ m2, set_data h1 v1 m2 = set_data h v m2) := by
  obtain ⟨hs, hc⟩ := ho
  rcases v with ⟨n, sm, bf, sd⟩
  cases sm with
  | true =>
    refine ⟨h, ⟨n, true, bf, m1⟩, by simp [set_data], ?_, rfl, rfl, rfl, fun _ => ⟨rfl, rfl⟩,
      by simp, ?_⟩
    · simp [Own, is_shared, cdata]
    · intro m2; simp [set_data]
  | false =>
    simp only [is_shared] at hs
    cases bf with
    | none => simp [deref] at hs
    | some a =>
      cases hd : deref h (some a) with
      | none => simp [hd] at hs
      | some b =>
        have ha := deref_lt h a b hd
        refine ⟨h.set a (some { b with _data := m1 }), ⟨n, false, some a, sd⟩,
          by simp [set_data, hd], ?_, rfl, rfl, rfl, by simp, ?_, ?_⟩
        · simp only [Own, is_shared, cdata, deref_set_same _ _ _ ha]
          simpa [hd] using hs
        · intro _; exact ⟨rfl, a, b, rfl, hd, rfl⟩
        · intro m2
          simp [set_data, hd, deref_set_same _ _ _ ha, List.set_set]

theorem set_data_self (h : heap T) (v : socow_vector T) (m : Slots T) (ho : Own h v m) :
    set_data h v m = some (h, v) := by
  obtain ⟨hs, hc⟩ := ho
  cases hsm : v.is_small with
  | true =>
    simp only [cdata, hsm, if_true] at hc
    simp only [set_data, hsm, if_true]
    cases v; simp_all
  | false =>
    simp only [cdata, hsm] at hc
    cases hb : v._buf with
    | none => simp [hb, deref] at hc
    | some a =>
      cases hd : deref h (some a) with
      | none => simp [hb, hd] at hc
      | some b =>
        simp only [hb, hd, Option.map_some'] at hc
        have hc2 : b._data = m := by simpa using hc
        have : ({ b with _data := m } : buffer T) = b := by cases b; simp_all
        simp only [set_data, hsm, hb, hd, Option.some_bind, this]
        rw [set_self h a (some b) ((deref_eq_some h a b).1 hd)]
        simp

theorem with_data_own (S : Nat) (h : heap T) (v : socow_vector T) (m : Slots T)
    (f : Slots T → Option (Slots T)) (ho : Own h v m) :
    with_data S h v f = (f m).bind fun m1 => set_data h v m1 := by
  simp [with_data, data_own S h v m ho, ho.2]

theorem swap_elems_own (S : Nat) (h : heap T) (v : socow_vector T) (m : Slots T) (i j : Nat)
    (ho : Own h v m) :
    swap_elems S h v i j = (swap_slots m i j).bind fun m1 => set_data h v m1 := by
  simp [swap_elems, data_own S h v m ho, ho.2]

theorem insert_shift_own (S idx : Nat) : ∀ (k : Nat) (h : heap T) (v : socow_vector T)
    (m : Slots T), Own h v m →
    insert_shift S idx k h v = (slots_insert_shift idx k m).bind fun m1 => set_data h v m1 := by
  intro k
  induction k with
  | zero =>
    intro h v m ho
    simp [insert_shift, slots_insert_shift, set_data_self h v m ho]
  | succ k ih =>
    intro h v m ho
    simp only [insert_shift, slots_insert_shift, swap_elems_own S h v m _ _ ho]
    cases hs : swap_slots m (idx + k + 1) (idx + k) with
    | none => simp
    | some m1 =>
      obtain ⟨h1, v1, e1, ho1, -, -, -, -, -, hset⟩ := set_data_own h v m m1 ho
      simp only [Option.some_bind, e1, ih h1 v1 m1 ho1, hset]

theorem erase_shift_own (S idx start : Nat) : ∀ (k i : Nat) (h : heap T) (v : socow_vector T)
    (m : Slots T), Own h v m →
    erase_shift S idx start k i h v
      = (slots_erase_shift idx start k i m).bind fun m1 => set_data h v m1 := by
  intro k
  induction k with
  | zero =>
    intro i h v m ho
    simp [erase_shift, slots_erase_shift, set_data_self h v m ho]
  | succ k ih =>
    intro i h v m ho
    simp only [erase_shift, slots_erase_shift, swap_elems_own S h v m _ _ ho]
    cases hs : swap_slots m (idx + i - start) i with
    | none => simp
    | some m1 =>
      obtain ⟨h1, v1, e1, ho1, -, -, -, -, -, hset⟩ := set_data_own h v m m1 ho
      simp only [Option.some_bind, e1, ih (i + 1) h1 v1 m1 ho1, hset]

/-! ## The representation predicate in canonical form -/

theorem read_n_canon (ys : List T) (tl : Slots T) :
    read_n (ys.map some ++ tl) 0 ys.length = some ys := by
  have := read_n_app ys [] tl
  simpa using this

theorem rep_small_iff (S : Nat) (h : heap T) (n : Nat) (bf : Option Nat) (sd : Slots T)
    (xs : List T) :
    Rep S h ⟨n, true, bf, sd⟩ xs ↔
      n = xs.length ∧ xs.length ≤ S ∧ sd.length = S ∧ ∃ tl, sd = xs.map some ++ tl := by
  constructor
  · rintro ⟨hw, he⟩
    simp only [elems, cdata, size, if_true, Option.some_bind] at he
    obtain ⟨hl, tl, htl⟩ := read_n_zero_canon sd n xs he
    simp only [wf, size, if_true, Bool.and_eq_true, beq_iff_eq, decide_eq_true_eq] at hw
    exact ⟨hl.symm, by omega, hw.1, tl, htl⟩
  · rintro ⟨hn, hS, hl, tl, rfl⟩
    subst hn
    refine ⟨?_, ?_⟩
    · simp only [wf, size, if_true, Bool.and_eq_true, beq_iff_eq, decide_eq_true_eq,
        read_n_canon, Option.isSome_some, and_true]
      exact ⟨hl, hS⟩
    · simp only [elems, cdata, size, if_true, Option.some_bind, read_n_canon]

theorem rep_big_iff (S : Nat) (h : heap T) (n : Nat) (bf : Option Nat) (sd : Slots T)
    (xs : List T) :
    Rep S h ⟨n, false, bf, sd⟩ xs ↔
      n = xs.length ∧ sd.length = S ∧ ∃ p c r tl, bf = some p ∧
        h[p]? = some (some ⟨c, r, xs.map some ++ tl⟩) ∧ 1 ≤ r ∧
        (xs.map some ++ tl).length = c := by
  constructor
  · rintro ⟨hw, he⟩
    cases bf with
    | none => simp [wf, deref] at hw
    | some p =>
      cases hd : deref h (some p) with
      | none => simp [wf, hd] at hw
      | some b =>
        rcases b with ⟨c, r, d⟩
        simp only [elems, cdata, size, hd, Option.map_some', Option.some_bind] at he
        simp at he
        obtain ⟨hl, tl, htl⟩ := read_n_zero_canon d n xs he
        simp only [wf, size, hd, Bool.and_eq_true, beq_iff_eq, decide_eq_true_eq] at hw
        simp at hw
        subst htl
        exact ⟨hl.symm, hw.1, p, c, r, tl, rfl, (deref_eq_some h p _).1 hd, hw.2.1.1.1,
          by simpa using hw.2.1.1.2⟩
  · rintro ⟨hn, hl, p, c, r, tl, rfl, hp, hr, hc⟩
    subst hn
    have hd := (deref_eq_some h p _).2 hp
    refine ⟨?_, ?_⟩
    · simp only [wf, size, hd, Bool.and_eq_true, beq_iff_eq, decide_eq_true_eq,
        read_n_canon, Option.isSome_some, and_true]
      simp
      refine ⟨hl, ⟨hr, ?_⟩, ?_⟩
      · simpa using hc
      · rw [← hc]; simp
    · simp [elems, cdata, size, hd, read_n_canon]

theorem rep_size (S : Nat) (h : heap T) (v : socow_vector T) (xs : List T)
    (hr : Rep S h v xs) : v._size = xs.length := by
  rcases v with ⟨n, sm, bf, sd⟩
  cases sm with
  | true => exact ((rep_small_iff S h n bf sd xs).1 hr).1
  | false => exact ((rep_big_iff S h n bf sd xs).1 hr).1

theorem rep_of_wf (S : Nat) (h : heap T) (v : socow_vector T) (hw : wf S h v = true) :
    ∃ xs, Rep S h v xs := by
  cases he : elems h v with
  | some xs => exact ⟨xs, hw, he⟩
  | none =>
    exfalso
    rcases v with ⟨n, sm, bf, sd⟩
    cases sm with
    | true =>
      simp only [elems, cdata, size, if_true, Option.some_bind] at he
      simp [wf, size, he] at hw
    | false =>
      cases hd : deref h bf with
      | none => simp [wf, hd] at hw
      | some b =>
        simp [elems, cdata, size, hd] at he
        simp [wf, size, hd, he] at hw

/-! ## Exact effect of the private members -/

theorem set_append_lt {α : Type} (l g : List α) (i : Nat) (a : α) (hi : i < l.length) :
    (l ++ g).set i a = l.set i a ++ g := by
  simp [List.set_append, hi]

theorem set_append_length {α : Type} (l : List α) (a b : α) :
    (l ++ [a]).set l.length b = l ++ [b] := set_mid l [] a b

theorem getElem?_append_length {α : Type} (l : List α) (a : α) :
    (l ++ [a])[l.length]? = some a := getElem?_mid l [] a

theorem get_buf_initialized_fits [m : Machine T] (h : heap T) (v : socow_vector T)
    (xs : List T) (tl : Slots T) (c : Nat) (hc : cdata h v = some (xs.map some ++ tl))
    (hn : v._size = xs.length) (hfit : fits m c = true) :
    get_buf_initialized h v c = some (h ++ [some (fresh_buf c xs)], h.length) := by
  have hmin : min c (size v) = (xs.take c).length := by simp [size, hn]
  have e1 : xs.map some ++ tl = [] ++ (xs.take c).map some ++ ((xs.drop c).map some ++ tl) := by
    rw [List.nil_append, ← List.append_assoc, ← List.map_append, List.take_append_drop]
  have e2 : (List.replicate c none : Slots T)
      = [] ++ List.replicate (xs.take c).length none ++ List.replicate (c - xs.length) none := by
    rw [List.nil_append, ← List.replicate_add]
    congr 1
    simp only [List.length_take]
    omega
  have hu := uninit_copy_app (xs.take c) [] ((xs.drop c).map some ++ tl) []
    (List.replicate (xs.take c).length none) (List.replicate (c - xs.length) none) (by simp)
  simp only [get_buf_initialized, block_slots_of_fits m c hfit, hc, Option.some_bind, hmin]
  rw [e1, e2]
  simp only [List.length_nil] at hu
  rw [hu]
  simp [fresh_buf]

theorem get_buf_initialized_eq (h : heap T) (v : socow_vector T) (xs : List T) (tl : Slots T)
    (c : Nat) (hc : cdata h v = some (xs.map some ++ tl)) (hn : v._size = xs.length) :
    get_buf_initialized h v c = some (h ++ [some (fresh_buf c xs)], h.length) :=
  get_buf_initialized_fits h v xs tl c hc hn (fits_ideal c)

theorem add_ref_eq (h : heap T) (n : Nat) (sm : Bool) (q : Nat) (sd : Slots T) (b : buffer T)
    (hq : h[q]? = some (some b)) :
    add_ref h ⟨n, sm, some q, sd⟩
      = some (h.set q (some { b with _ref_count := b._ref_count + 1 }), ⟨n, sm, some q, sd⟩) := by
  simp [add_ref, (deref_eq_some h q b).2 hq]

theorem release_ref_eq (h : heap T) (xs : List T) (p c r : Nat) (sd tl : Slots T)
    (hp : h[p]? = some (some ⟨c, r, xs.map some ++ tl⟩)) (hr : 1 ≤ r) :
    release_ref h ⟨xs.length, false, some p, sd⟩
      = some (h.set p (released ⟨c, r, xs.map some ++ tl⟩), ⟨xs.length, false, none, sd⟩) := by
  have hd := (deref_eq_some h p _).2 hp
  by_cases h1 : r = 1
  · subst h1
    have hdn := destroy_n_app xs [] tl
    simp only [List.nil_append, List.length_nil] at hdn
    simp [release_ref, hd, delete_buf, size, hdn, released]
  · have h0 : r ≠ 0 := by omega
    simp [release_ref, hd, h1, h0, released]

theorem release_ref_shared (h : heap T) (n p : Nat) (sd : Slots T) (b : buffer T)
    (hp : h[p]? = some (some b)) (hr : 2 ≤ b._ref_count) :
    release_ref h ⟨n, false, some p, sd⟩
      = some (h.set p (some { b with _ref_count := b._ref_count - 1 }), ⟨n, false, none, sd⟩) := by
  have hd := (deref_eq_some h p _).2 hp
  have h1 : b._ref_count ≠ 1 := by omega
  have h0 : b._ref_count ≠ 0 := by omega
  simp [release_ref, hd, h1, h0]

theorem destructive_clear_small [Machine T] (S : Nat) (h : heap T) (xs : List T)
    (bf : Option Nat) (tl : Slots T) :
    destructive_clear S h ⟨xs.length, true, bf, xs.map some ++ tl⟩
      = some (h, ⟨xs.length, true, bf, List.replicate xs.length none ++ tl⟩) := by
  have hdn := destroy_n_app xs [] tl
  simp only [List.nil_append, List.length_nil] at hdn
  simp [destructive_clear, data, cdata, size, hdn, set_data]

theorem copy_to_small_eq (S : Nat) (h : heap T) (xs ys : List T) (p c r : Nat)
    (sd tl ps qs : Slots T)
    (hp : h[p]? = some (some ⟨c, r, xs.map some ++ tl⟩)) (hr : 1 ≤ r)
    (hy : ys.length ≤ S) (hsd : sd.length = S) :
    copy_to_small S h ⟨xs.length, false, some p, sd⟩ (ps ++ ys.map some ++ qs) ps.length ys.length
      = some (h.set p (released ⟨c, r, xs.map some ++ tl⟩),
          ⟨xs.length, true, none, ys.map some ++ sd.drop ys.length⟩) := by
  have hd := (deref_eq_some h p _).2 hp
  have hplt := deref_lt h p _ hd
  have e : sd = [] ++ sd.take ys.length ++ sd.drop ys.length := by simp
  have hu := uninit_copy_app ys ps qs [] (sd.take ys.length) (sd.drop ys.length)
    (by simp; omega)
  rw [← e] at hu
  simp only [List.length_nil, List.nil_append, List.append_assoc] at hu
  have h0 : r ≠ 0 := by omega
  by_cases h1 : r = 1
  · subst h1
    have hdn := destroy_n_app xs [] tl
    simp only [List.nil_append, List.length_nil] at hdn
    simp [copy_to_small, hy, hu, hd, delete_buf, deref_set_same _ _ _ hplt, size, hdn,
      released, List.set_set]
  · have h2 : r - 1 ≠ 0 := by omega
    simp [copy_to_small, hy, hu, hd, h0, h1, h2, released]

theorem set_capacity_small_fits [m : Machine T] (S : Nat) (h : heap T) (xs : List T)
    (bf : Option Nat) (tl : Slots T) (c : Nat) (hfit : fits m c = true) :
    set_capacity S h ⟨xs.length, true, bf, xs.map some ++ tl⟩ c
      = some (h ++ [some (fresh_buf c xs)], ⟨xs.length, false, some h.length, clobbered S⟩) := by
  have hg := get_buf_initialized_fits h ⟨xs.length, true, bf, xs.map some ++ tl⟩ xs tl c
    (by simp [cdata]) rfl hfit
  simp [set_capacity, hg, destructive_clear_small]

theorem set_capacity_small (S : Nat) (h : heap T) (xs : List T) (bf : Option Nat) (tl : Slots T)
    (c : Nat) :
    set_capacity S h ⟨xs.length, true, bf, xs.map some ++ tl⟩ c
      = some (h ++ [some (fresh_buf c xs)], ⟨xs.length, false, some h.length, clobbered S⟩) :=
  set_capacity_small_fits S h xs bf tl c (fits_ideal c)

theorem set_capacity_big_fits [m : Machine T] (S : Nat) (h : heap T) (xs : List T)
    (p c r : Nat) (sd tl : Slots T) (k : Nat)
    (hp : h[p]? = some (some ⟨c, r, xs.map some ++ tl⟩)) (hr : 1 ≤ r)
    (hfit : fits m k = true) :
    set_capacity S h ⟨xs.length, false, some p, sd⟩ k
      = some (h.set p (released ⟨c, r, xs.map some ++ tl⟩) ++ [some (fresh_buf k xs)],
          ⟨xs.length, false, some h.length, clobbered S⟩) := by
  have hd := (deref_eq_some h p _).2 hp
  have hplt := deref_lt h p _ hd
  have hg := get_buf_initialized_fits h ⟨xs.length, false, some p, sd⟩ xs tl k
    (by simp [cdata, hd]) rfl hfit
  have hp2 : (h ++ [some (fresh_buf k xs)])[p]? = some (some ⟨c, r, xs.map some ++ tl⟩) := by
    rw [List.getElem?_append_left hplt]; exact hp
  simp [set_capacity, hg, release_ref_eq _ xs p c r sd tl hp2 hr, set_append_lt _ _ _ _ hplt]

theorem set_capacity_big (S : Nat) (h : heap T) (xs : List T) (p c r : Nat) (sd tl : Slots T)
    (k : Nat) (hp : h[p]? = some (some ⟨c, r, xs.map some ++ tl⟩)) (hr : 1 ≤ r) :
    set_capacity S h ⟨xs.length, false, some p, sd⟩ k
      = some (h.set p (released ⟨c, r, xs.map some ++ tl⟩) ++ [some (fresh_buf k xs)],
          ⟨xs.length, false, some h.length, clobbered S⟩) :=
  set_capacity_big_fits S h xs p c r sd tl k hp hr (fits_ideal k)

theorem data_small (S : Nat) (h : heap T) (n : Nat) (bf : Option Nat) (sd : Slots T) :
    data S h ⟨n, true, bf, sd⟩ = some (h, ⟨n, true, bf, sd⟩) := by
  simp [data]

theorem data_big_shared (S : Nat) (h : heap T) (xs : List T) (p c r : Nat) (sd tl : Slots T)
    (hp : h[p]? = some (some ⟨c, r, xs.map some ++ tl⟩)) (hr : 2 ≤ r) :
    data S h ⟨xs.length, false, some p, sd⟩
      = some (h.set p (some ⟨c, r - 1, xs.map some ++ tl⟩) ++ [some (fresh_buf c xs)],
          ⟨xs.length, false, some h.length, sd⟩) := by
  have hd := (deref_eq_some h p _).2 hp
  have hplt := deref_lt h p _ hd
  have hg := get_buf_initialized_eq h ⟨xs.length, false, some p, sd⟩ xs tl c
    (by simp [cdata, hd]) rfl
  have hp2 : (h ++ [some (fresh_buf c xs)])[p]? = some (some ⟨c, r, xs.map some ++ tl⟩) := by
    rw [List.getElem?_append_left hplt]; exact hp
  have hr1 : 1 < r := by omega
  simp [data, unshare, capacity, hd, unshare_to, is_shared, hr1, hg,
    release_ref_shared _ _ p sd _ hp2 hr, set_append_lt _ _ _ _ hplt]

theorem own_small (h : heap T) (n : Nat) (bf : Option Nat) (sd : Slots T) :
    Own h ⟨n, true, bf, sd⟩ sd := by
  simp [Own, is_shared, cdata]

theorem own_big (h : heap T) (n p c : Nat) (sd m : Slots T)
    (hp : h[p]? = some (some ⟨c, 1, m⟩)) :
    Own h ⟨n, false, some p, sd⟩ m := by
  have hd := (deref_eq_some h p _).2 hp
  simp [Own, is_shared, cdata, hd]

/-! ## Observers and results -/

theorem frame_refl (h : heap T) (v : socow_vector T) : Frame h h v := by
  intro q b hq
  exact ⟨fun _ _ => Or.inl hq, fun _ => hq⟩

theorem frame_small (h h1 : heap T) (n : Nat) (bf : Option Nat) (sd : Slots T)
    (hh : ∀ (q : Nat) (b : buffer T), h[q]? = some (some b) → h1[q]? = some (some b)) :
    Frame h h1 ⟨n, true, bf, sd⟩ := by
  intro q b hq
  exact ⟨fun hc => by simp at hc, fun _ => hh q b hq⟩

theorem getElem?_append_some {α : Type} (l g : List α) (q : Nat) (a : α)
    (hq : l[q]? = some a) : (l ++ g)[q]? = some a := by
  have hlt : q < l.length := by
    rcases List.getElem?_eq_some.1 hq with ⟨hi, _⟩; exact hi
  rw [List.getElem?_append_left hlt]; exact hq

theorem frame_append (h : heap T) (g : heap T) (v : socow_vector T) : Frame h (h ++ g) v := by
  intro q b hq
  have := getElem?_append_some h g q _ hq
  exact ⟨fun _ _ => Or.inl this, fun _ => this⟩

theorem frame_released (h g : heap T) (n p : Nat) (sd : Slots T) (b : buffer T)
    (hp : h[p]? = some (some b)) :
    Frame h (h.set p (released b) ++ g) ⟨n, false, some p, sd⟩ := by
  intro q b1 hq
  have hplt : p < h.length := by
    rcases List.getElem?_eq_some.1 hp with ⟨hi, _⟩; exact hi
  constructor
  · rintro ⟨-, hv⟩ h2
    have hv2 : p = q := by simpa using hv
    subst hv2
    rw [hp] at hq
    have hb : b = b1 := by simpa using hq
    subst hb
    right
    apply getElem?_append_some
    have h1 : b._ref_count ≠ 1 := by omega
    simp [List.getElem?_set, hplt, released, h1]
  · intro hn
    have hne : p ≠ q := by
      intro he; apply hn; simp [he]
    apply getElem?_append_some
    simp [List.getElem?_set, hne, hq]

theorem frame_set_unique (h : heap T) (n p : Nat) (sd : Slots T) (b : buffer T)
    (c : Option (buffer T)) (hp : h[p]? = some (some b)) (hr : b._ref_count = 1) :
    Frame h (h.set p c) ⟨n, false, some p, sd⟩ := by
  intro q b1 hq
  constructor
  · rintro ⟨-, hv⟩ h2
    have hv2 : p = q := by simpa using hv
    subst hv2
    rw [hp] at hq
    have hb : b = b1 := by simpa using hq
    subst hb
    omega
  · intro hn
    have hne : p ≠ q := by
      intro he; apply hn; simp [he]
    simp [List.getElem?_set, hne, hq]

/-- An observer `w` of an operation on `v` keeps its value when every buffer the two
share is counted at least twice. -/
theorem rep_frame (S : Nat) (h h1 : heap T) (v w : socow_vector T) (ys : List T)
    (hf : Frame h h1 v) (hc : counted h v w = true) (hw : Rep S h w ys) :
    Rep S h1 w ys := by
  rcases w with ⟨n, sm, bf, sd⟩
  cases sm with
  | true =>
    rw [rep_small_iff] at hw ⊢
    exact hw
  | false =>
    rw [rep_big_iff] at hw ⊢
    obtain ⟨hn, hl, p, c, r, tl, hb, hp, hr, hcap⟩ := hw
    subst hb
    obtain ⟨f1, f2⟩ := hf p _ hp
    by_cases ha : v.is_small = false ∧ v._buf = some p
    · have h2 : 2 ≤ r := by
        have hd := (deref_eq_some h p _).2 hp
        obtain ⟨ha1, ha2⟩ := ha
        simp [counted, ha1, ha2, hd] at hc
        exact hc
      rcases f1 ha h2 with e | e
      · exact ⟨hn, hl, p, c, r, tl, rfl, e, hr, hcap⟩
      · exact ⟨hn, hl, p, c, r - 1, tl, rfl, e, by omega, hcap⟩
    · exact ⟨hn, hl, p, c, r, tl, rfl, f2 ha, hr, hcap⟩

theorem rep_fresh (S : Nat) (g : heap T) (N k : Nat) (xs : List T)
    (hN : g.length = N) (hk : xs.length ≤ k) :
    Rep S (g ++ [some (fresh_buf k xs)]) ⟨xs.length, false, some N, clobbered S⟩ xs := by
  rw [rep_big_iff]
  refine ⟨rfl, by simp [clobbered], N, k, 1, List.replicate (k - xs.length) none, rfl, ?_,
    le_refl _, ?_⟩
  · subst hN
    rw [getElem?_append_length]
    simp [fresh_buf, List.take_of_length_le hk]
  · simp; omega

theorem rep_small_mk (S : Nat) (h : heap T) (bf : Option Nat) (xs : List T) (tl : Slots T)
    (hS : xs.length ≤ S) (hl : (xs.map some ++ tl).length = S) :
    Rep S h ⟨xs.length, true, bf, xs.map some ++ tl⟩ xs := by
  rw [rep_small_iff]
  exact ⟨rfl, hS, hl, tl, rfl⟩

theorem capacity_fresh (S : Nat) (g : heap T) (N k n : Nat) (xs : List T) (sd : Slots T)
    (hN : g.length = N) :
    capacity S (g ++ [some (fresh_buf k xs)]) ⟨n, false, some N, sd⟩ = some k := by
  subst hN
  have : deref (g ++ [some (fresh_buf k xs)]) (some g.length) = some (fresh_buf k xs) :=
    (deref_eq_some _ _ _).2 (getElem?_append_length _ _)
  simp only [capacity, this]
  simp [fresh_buf]

theorem length_set_released (h : heap T) (p : Nat) (c : Option (buffer T)) :
    (h.set p c).length = h.length := by simp

theorem make_small_eq (S : Nat) (h : heap T) (xs : List T) (p c r : Nat) (sd tl : Slots T)
    (hp : h[p]? = some (some ⟨c, r, xs.map some ++ tl⟩)) (hr : 1 ≤ r)
    (hy : xs.length ≤ S) (hsd : sd.length = S) :
    make_small S h ⟨xs.length, false, some p, sd⟩
      = some (h.set p (released ⟨c, r, xs.map some ++ tl⟩),
          ⟨xs.length, true, none, xs.map some ++ sd.drop xs.length⟩) := by
  have hd := (deref_eq_some h p _).2 hp
  have := copy_to_small_eq S h xs xs p c r sd tl [] tl hp hr hy hsd
  simp only [List.nil_append, List.length_nil] at this
  simp [make_small, cdata, hd, size, this]

/-! ## reserve and shrink_to_fit -/

theorem capacity_small (S : Nat) (h : heap T) (n : Nat) (bf : Option Nat) (sd : Slots T) :
    capacity S h ⟨n, true, bf, sd⟩ = some S := by
  simp [capacity]

theorem capacity_big (S : Nat) (h : heap T) (n p : Nat) (sd : Slots T) (b : buffer T)
    (hp : h[p]? = some (some b)) :
    capacity S h ⟨n, false, some p, sd⟩ = some b._capacity := by
  simp [capacity, (deref_eq_some h p b).2 hp]

theorem is_shared_big (h : heap T) (n p : Nat) (sd : Slots T) (b : buffer T)
    (hp : h[p]? = some (some b)) :
    is_shared h ⟨n, false, some p, sd⟩ = some (decide (b._ref_count > 1)) := by
  simp [is_shared, (deref_eq_some h p b).2 hp]

theorem frame_released_nil (h : heap T) (n p : Nat) (sd : Slots T) (b : buffer T)
    (hp : h[p]? = some (some b)) :
    Frame h (h.set p (released b)) ⟨n, false, some p, sd⟩ := by
  have := frame_released h [] n p sd b hp
  simpa using this

theorem reserve_spec_fits [m : Machine T] (S : Nat) (h : heap T) (v : socow_vector T)
    (xs : List T) (n : Nat) (hr : Rep S h v xs)
    (hfit : xs.length < n → S < n → fits m n = true) :
    ∃ h1 v1 c c1, capacity S h v = some c ∧ reserve S h v n = some (h1, v1) ∧
      capacity S h1 v1 = some c1 ∧ Rep S h1 v1 xs ∧ Frame h h1 v ∧
      (n ≤ xs.length → h1 = h ∧ v1 = v) ∧ (xs.length < n → n ≤ c1) ∧
      min c (max n S) ≤ c1 ∧ (is_shared h v = some false → S < n → c ≤ c1) ∧
      (v.is_small = true → c ≤ c1) ∧ xs.length ≤ c := by
  rcases v with ⟨m, sm, bf, sd⟩
  cases sm with
  | true =>
    have hr0 := hr
    rw [rep_small_iff] at hr
    obtain ⟨hm, hS, hl, tl, rfl⟩ := hr
    subst hm
    by_cases h1 : n ≤ xs.length
    · exact ⟨h, _, S, S, capacity_small _ _ _ _ _, by simp [reserve, size, h1],
        capacity_small _ _ _ _ _, hr0, frame_refl _ _, fun _ => ⟨rfl, rfl⟩,
        fun _ => by omega, by simp, fun _ _ => le_refl _, fun _ => le_refl _, hS⟩
    · by_cases h2 : n ≤ S
      · exact ⟨h, _, S, S, capacity_small _ _ _ _ _, by simp [reserve, size, h1, h2],
          capacity_small _ _ _ _ _, hr0, frame_refl _ _, fun _ => ⟨rfl, rfl⟩,
          fun _ => h2, by simp, fun _ _ => le_refl _, fun _ => le_refl _, hS⟩
      · have e : reserve S h ⟨xs.length, true, bf, xs.map some ++ tl⟩ n
            = some (h ++ [some (fresh_buf n xs)],
                ⟨xs.length, false, some h.length, clobbered S⟩) := by
          simp [reserve, size, h1, h2,
            set_capacity_small_fits S h xs bf tl n (hfit (by omega) (by omega))]
        refine ⟨_, _, S, n, capacity_small _ _ _ _ _, e, capacity_fresh _ _ _ _ _ _ _ rfl,
          rep_fresh _ _ _ _ _ rfl (by omega), frame_append _ _ _, fun h3 => absurd h3 h1,
          fun _ => le_refl _, ?_, fun _ _ => by omega, fun _ => by omega, hS⟩
        exact le_trans (min_le_left _ _) (by omega)
  | false =>
    have hr0 := hr
    rw [rep_big_iff] at hr
    obtain ⟨hm, hl, p, c, r, tl, rfl, hp, hr1, hcap⟩ := hr
    subst hm
    have hd := (deref_eq_some h p _).2 hp
    have hxc : xs.length ≤ c := by rw [← hcap]; simp
    have hc0 := capacity_big S h xs.length p sd _ hp
    simp only at hc0
    by_cases h1 : n ≤ xs.length
    · exact ⟨h, _, c, c, hc0, by simp [reserve, size, h1], hc0, hr0, frame_refl _ _,
        fun _ => ⟨rfl, rfl⟩, fun _ => by omega, by simp, fun _ _ => le_refl _,
        fun _ => le_refl _, hxc⟩
    · by_cases h2 : n ≤ S
      · have hxS : xs.length ≤ S := by omega
        have e : reserve S h ⟨xs.length, false, some p, sd⟩ n
            = some (h.set p (released ⟨c, r, xs.map some ++ tl⟩),
                ⟨xs.length, true, none, xs.map some ++ sd.drop xs.length⟩) := by
          simp [reserve, size, h1, h2, make_small_eq S h xs p c r sd tl hp hr1 hxS hl]
        refine ⟨_, _, c, S, hc0, e, capacity_small _ _ _ _ _, ?_,
          frame_released_nil h _ _ _ _ hp, fun h3 => absurd h3 h1, fun _ => h2, ?_, ?_,
          by simp, hxc⟩
        · apply rep_small_mk _ _ _ _ _ hxS
          simp [hl]; omega
        · exact le_trans (min_le_right _ _) (by simp [h2])
        · intro _ h4; omega
      · by_cases h3 : r = 1 ∧ n < c
        · exact ⟨h, _, c, c, hc0, by simp [reserve, size, h1, h2, hd, capacity, h3], hc0, hr0,
            frame_refl _ _, fun h4 => absurd h4 h1, fun _ => by omega, by simp,
            fun _ _ => le_refl _, fun _ => le_refl _, hxc⟩
        · have e : reserve S h ⟨xs.length, false, some p, sd⟩ n
              = some (h.set p (released ⟨c, r, xs.map some ++ tl⟩) ++ [some (fresh_buf n xs)],
                  ⟨xs.length, false, some h.length, clobbered S⟩) := by
            simp [reserve, size, h1, h2, hd, capacity, h3,
              set_capacity_big_fits S h xs p c r sd tl n hp hr1
                (hfit (by omega) (by omega))]
          refine ⟨_, _, c, n, hc0, e,
            capacity_fresh _ _ _ _ _ _ _ (by simp), rep_fresh _ _ _ _ _ (by simp) (by omega),
            frame_released h _ _ _ _ _ hp, fun h4 => absurd h4 h1, fun _ => le_refl _, ?_, ?_,
            by simp, hxc⟩
          · exact le_trans (min_le_right _ _) (by simp; omega)
          · intro hs _
            rw [is_shared_big h _ p sd _ hp] at hs
            simp at hs
            have : r = 1 := by omega
            omega

theorem reserve_spec (S : Nat) (h : heap T) (v : socow_vector T) (xs : List T) (n : Nat)
    (hr : Rep S h v xs) :
    ∃ h1 v1 c c1, capacity S h v = some c ∧ reserve S h v n = some (h1, v1) ∧
      capacity S h1 v1 = some c1 ∧ Rep S h1 v1 xs ∧ Frame h h1 v ∧
      (n ≤ xs.length → h1 = h ∧ v1 = v) ∧ (xs.length < n → n ≤ c1) ∧
      min c (max n S) ≤ c1 ∧ (is_shared h v = some false → S < n → c ≤ c1) ∧
      (v.is_small = true → c ≤ c1) ∧ xs.length ≤ c :=
  reserve_spec_fits S h v xs n hr (fun _ _ => fits_ideal n)

theorem shrink_to_fit_spec (S : Nat) (h : heap T) (v : socow_vector T) (xs : List T)
    (hr : Rep S h v xs) :
    ∃ h1 v1 c c1, capacity S h v = some c ∧ shrink_to_fit S h v = some (h1, v1) ∧
      capacity S h1 v1 = some c1 ∧ Rep S h1 v1 xs ∧ Frame h h1 v ∧
      (xs.length ≤ S → v1.is_small = true) ∧ (S < xs.length → c1 = xs.length) ∧
      c1 ≤ max c S ∧ (S ≤ c → c1 ≤ c) ∧ (v.is_small = true → h1 = h ∧ v1 = v) := by
  rcases v with ⟨m, sm, bf, sd⟩
  cases sm with
  | true =>
    have hr0 := hr
    rw [rep_small_iff] at hr
    obtain ⟨hm, hS, hl, tl, rfl⟩ := hr
    exact ⟨h, _, S, S, capacity_small _ _ _ _ _, by simp [shrink_to_fit],
      capacity_small _ _ _ _ _, hr0, frame_refl _ _, fun _ => rfl, fun h1 => by omega,
      by simp, fun _ => le_refl _, fun _ => ⟨rfl, rfl⟩⟩
  | false =>
    have hr0 := hr
    rw [rep_big_iff] at hr
    obtain ⟨hm, hl, p, c, r, tl, rfl, hp, hr1, hcap⟩ := hr
    subst hm
    have hd := (deref_eq_some h p _).2 hp
    have hxc : xs.length ≤ c := by rw [← hcap]; simp
    have hc0 := capacity_big S h xs.length p sd _ hp
    simp only at hc0
    by_cases h1 : xs.length ≤ S
    · have e : shrink_to_fit S h ⟨xs.length, false, some p, sd⟩
          = some (h.set p (released ⟨c, r, xs.map some ++ tl⟩),
              ⟨xs.length, true, none, xs.map some ++ sd.drop xs.length⟩) := by
        simp [shrink_to_fit, size, h1, make_small_eq S h xs p c r sd tl hp hr1 h1 hl]
      refine ⟨_, _, c, S, hc0, e, capacity_small _ _ _ _ _, ?_,
        frame_released_nil h _ _ _ _ hp,
        fun _ => rfl, fun h2 => by omega, by simp, fun h2 => h2, by simp⟩
      apply rep_small_mk _ _ _ _ _ h1
      simp [hl]; omega
    · by_cases h2 : xs.length < c
      · have e : shrink_to_fit S h ⟨xs.length, false, some p, sd⟩
            = some (h.set p (released ⟨c, r, xs.map some ++ tl⟩)
                ++ [some (fresh_buf xs.length xs)],
                ⟨xs.length, false, some h.length, clobbered S⟩) := by
          simp [shrink_to_fit, size, h1, hd, capacity, h2,
            set_capacity_big S h xs p c r sd tl xs.length hp hr1]
        exact ⟨_, _, c, xs.length, hc0, e,
          capacity_fresh _ _ _ _ _ _ _ (by simp), rep_fresh _ _ _ _ _ (by simp) (le_refl _),
          frame_released h _ _ _ _ _ hp, fun h3 => absurd h3 h1, fun _ => rfl,
          le_trans hxc (le_max_left _ _), fun _ => hxc, by simp⟩
      · have hce : c = xs.length := by omega
        exact ⟨h, _, c, c, hc0, by simp [shrink_to_fit, size, h1, hd, capacity, h2], hc0, hr0,
          frame_refl _ _, fun h3 => absurd h3 h1, fun _ => hce, le_max_left _ _,
          fun _ => le_refl _, by simp⟩

/-! ## Copy assignment and the destructor -/

theorem default_eq (S : Nat) :
    (socow_vector.default S : socow_vector T)
      = ⟨([] : List T).length, true, none, ([] : List T).map some ++ clobbered S⟩ := rfl

theorem assign_small_shrink (S : Nat) (xa xb ys : List T) (bf bf2 : Option Nat)
    (tl tl2 : Slots T) (hxa : xa.length = ys.length)
    (hl2 : (ys.map some ++ tl2).length = S) :
    assign_small S ⟨(xa ++ xb).length, true, bf, (xa ++ xb).map some ++ tl⟩
        ⟨ys.length, true, bf2, ys.map some ++ tl2⟩
      = some ⟨ys.length, true, bf,
          ys.map some ++ (List.replicate xb.length none ++ tl)⟩ := by
  have hmin : min (xa ++ xb).length ys.length = ys.length := by simp [hxa]
  have hS : ys.length ≤ S := by rw [← hl2]; simp
  have e0 : (clobbered S : Slots T)
      = [] ++ List.replicate ys.length none ++ List.replicate (S - ys.length) none := by
    rw [List.nil_append, ← List.replicate_add, clobbered]
    congr 1; omega
  have hu := uninit_copy_app ys [] tl2 [] (List.replicate ys.length none)
    (List.replicate (S - ys.length) none) (by simp)
  simp only [List.length_nil, List.nil_append] at hu
  have hsw := swap_ranges_app ys xa [] [] (List.replicate (S - ys.length) none)
    (xb.map some ++ tl) hxa.symm rfl
  simp only [List.length_nil, List.nil_append] at hsw
  have hd1 := destroy_n_app xb (ys.map some) tl
  have hd2 := destroy_n_app xa [] (List.replicate (S - ys.length) none)
  simp only [List.length_nil, List.nil_append] at hd2
  have hlen : (xa ++ xb).length - ys.length = xb.length := by simp [hxa]
  simp only [assign_small, size, hmin, socow_vector.default, e0, List.nil_append, hu,
    Option.some_bind, Nat.sub_self, uninitialized_copy_n, List.map_append, List.append_assoc,
    hsw, hlen]
  rw [show (List.map some ys).length = ys.length by simp] at hd1
  simp only [List.append_assoc] at hd1
  rw [hd1]
  simp only [Option.some_bind]
  rw [hxa] at hd2
  rw [hd2]
  simp

theorem assign_small_grow (S : Nat) (xs ya yb : List T) (bf bf2 : Option Nat)
    (tm tr tl2 : Slots T) (hya : ya.length = xs.length) (htm : tm.length = yb.length)
    (hl : (xs.map some ++ (tm ++ tr)).length = S) :
    assign_small S ⟨xs.length, true, bf, xs.map some ++ (tm ++ tr)⟩
        ⟨(ya ++ yb).length, true, bf2, (ya ++ yb).map some ++ tl2⟩
      = some ⟨(ya ++ yb).length, true, bf, (ya ++ yb).map some ++ tr⟩ := by
  have hmin : min xs.length (ya ++ yb).length = ya.length := by simp [hya]
  have hS : ya.length ≤ S := by rw [← hl, hya]; simp
  have e0 : (clobbered S : Slots T)
      = [] ++ List.replicate ya.length none ++ List.replicate (S - ya.length) none := by
    rw [List.nil_append, ← List.replicate_add, clobbered]
    congr 1; omega
  have hu := uninit_copy_app ya [] (yb.map some ++ tl2) [] (List.replicate ya.length none)
    (List.replicate (S - ya.length) none) (by simp)
  simp only [List.length_nil, List.nil_append, List.append_assoc] at hu
  have hu2 := uninit_copy_app yb (ya.map some) tl2 (xs.map some) tm tr htm
  simp only [List.length_map, List.append_assoc] at hu2
  have hsw := swap_ranges_app ya xs [] [] (List.replicate (S - ya.length) none)
    (yb.map some ++ tr) hya rfl
  simp only [List.length_nil, List.nil_append] at hsw
  have hd2 := destroy_n_app xs [] (List.replicate (S - ya.length) none)
  simp only [List.length_nil, List.nil_append] at hd2
  have hlen : (ya ++ yb).length - ya.length = yb.length := by simp
  simp only [assign_small, size, hmin, socow_vector.default, e0, List.nil_append,
    List.map_append, List.append_assoc, hu, Option.some_bind, hlen]
  rw [← hya] at hu2 hd2 ⊢
  rw [hu2]
  simp only [Option.some_bind, hsw, Nat.sub_self, destroy_n, hd2]

theorem assign_small_small (S : Nat) (xs ys : List T) (bf bf2 : Option Nat) (tl tl2 : Slots T)
    (hl : (xs.map some ++ tl).length = S) (hl2 : (ys.map some ++ tl2).length = S) :
    ∃ tl3, assign_small S ⟨xs.length, true, bf, xs.map some ++ tl⟩
        ⟨ys.length, true, bf2, ys.map some ++ tl2⟩
      = some ⟨ys.length, true, bf, ys.map some ++ tl3⟩ ∧ (ys.map some ++ tl3).length = S := by
  simp only [List.length_append, List.length_map] at hl hl2
  by_cases hle : ys.length ≤ xs.length
  · have hxa : (xs.take ys.length).length = ys.length := by simp [hle]
    have hh := assign_small_shrink S (xs.take ys.length) (xs.drop ys.length) ys bf bf2 tl tl2
      hxa (by simp [hl2])
    rw [List.take_append_drop] at hh
    refine ⟨_, hh, ?_⟩
    simp; omega
  · have hya : (ys.take xs.length).length = xs.length := by simp; omega
    have htm : (tl.take (ys.drop xs.length).length).length = (ys.drop xs.length).length := by
      simp; omega
    have hh := assign_small_grow S xs (ys.take xs.length) (ys.drop xs.length) bf bf2
      (tl.take (ys.drop xs.length).length) (tl.drop (ys.drop xs.length).length) tl2 hya htm
      (by simp [hl])
    rw [List.take_append_drop, List.take_append_drop] at hh
    refine ⟨_, hh, ?_⟩
    simp; omega

theorem assign_small_big (S : Nat) (h : heap T) (xs : List T) (bf : Option Nat) (tl : Slots T)
    (k q : Nat) (sd2 : Slots T) (bq : buffer T) (hq : h[q]? = some (some bq)) :
    assign S h ⟨xs.length, true, bf, xs.map some ++ tl⟩ ⟨k, false, some q, sd2⟩ false
      = some (h.set q (some { bq with _ref_count := bq._ref_count + 1 }),
          ⟨k, false, some q, clobbered S⟩) := by
  simp [assign, destructive_clear_small, add_ref_eq _ _ _ _ _ _ hq, size]

theorem assign_big_small (S : Nat) (h : heap T) (xs ys : List T) (p c r : Nat)
    (sd tl tl2 : Slots T) (bf2 : Option Nat)
    (hp : h[p]? = some (some ⟨c, r, xs.map some ++ tl⟩)) (hr : 1 ≤ r)
    (hy : ys.length ≤ S) (hsd : sd.length = S) :
    assign S h ⟨xs.length, false, some p, sd⟩ ⟨ys.length, true, bf2, ys.map some ++ tl2⟩ false
      = some (h.set p (released ⟨c, r, xs.map some ++ tl⟩),
          ⟨ys.length, true, none, ys.map some ++ sd.drop ys.length⟩) := by
  have := copy_to_small_eq S h xs ys p c r sd tl [] tl2 hp hr hy hsd
  simp only [List.nil_append, List.length_nil] at this
  simp [assign, cdata, size, this]

theorem assign_big_big (S : Nat) (h : heap T) (xs : List T) (p c r : Nat) (sd tl : Slots T)
    (k q : Nat) (sd2 : Slots T) (bq : buffer T)
    (hp : h[p]? = some (some ⟨c, r, xs.map some ++ tl⟩)) (hr : 1 ≤ r)
    (hq : h[q]? = some (some bq)) (hne : p ≠ q) :
    assign S h ⟨xs.length, false, some p, sd⟩ ⟨k, false, some q, sd2⟩ false
      = some ((h.set p (released ⟨c, r, xs.map some ++ tl⟩)).set q
            (some { bq with _ref_count := bq._ref_count + 1 }),
          ⟨k, false, some q, sd⟩) := by
  have hq2 : (h.set p (released ⟨c, r, xs.map some ++ tl⟩))[q]? = some (some bq) := by
    simp [List.getElem?_set, hne, hq]
  simp [assign, release_ref_eq h xs p c r sd tl hp hr, add_ref_eq _ _ _ _ _ _ hq2, size]

theorem assign_big_big_same (S : Nat) (h : heap T) (xs : List T) (p c r : Nat) (sd tl : Slots T)
    (k : Nat) (sd2 : Slots T)
    (hp : h[p]? = some (some ⟨c, r, xs.map some ++ tl⟩)) (hr : 2 ≤ r) :
    assign S h ⟨xs.length, false, some p, sd⟩ ⟨k, false, some p, sd2⟩ false
      = some (h, ⟨k, false, some p, sd⟩) := by
  have hplt : p < h.length := by
    rcases List.getElem?_eq_some.1 hp with ⟨hi, _⟩; exact hi
  have hq2 : (h.set p (some (⟨c, r - 1, xs.map some ++ tl⟩ : buffer T)))[p]?
      = some (some ⟨c, r - 1, xs.map some ++ tl⟩) := by
    simp [List.getElem?_set, hplt]
  have hrr : r - 1 + 1 = r := by omega
  simp [assign, release_ref_shared h xs.length p sd _ hp hr, add_ref_eq _ _ _ _ _ _ hq2, size,
    List.set_set, hrr, set_self h p _ hp]

theorem destroy_small (S : Nat) (h : heap T) (xs : List T) (bf : Option Nat) (tl : Slots T) :
    destroy S h ⟨xs.length, true, bf, xs.map some ++ tl⟩ = some h := by
  simp [destroy, destructive_clear_small]

theorem destroy_big (S : Nat) (h : heap T) (xs : List T) (p c r : Nat) (sd tl : Slots T)
    (hp : h[p]? = some (some ⟨c, r, xs.map some ++ tl⟩)) (hr : 1 ≤ r) :
    destroy S h ⟨xs.length, false, some p, sd⟩
      = some (h.set p (released ⟨c, r, xs.map some ++ tl⟩)) := by
  simp [destroy, release_ref_eq h xs p c r sd tl hp hr]

theorem counted_symm (h : heap T) (a b : socow_vector T) (hc : counted h a b = true) :
    counted h b a = true := by
  unfold counted at hc ⊢
  by_cases hcond : (!a.is_small && !b.is_small && a._buf == b._buf) = true
  · have hcond2 : (!b.is_small && !a.is_small && b._buf == a._buf) = true := by
      simp at hcond ⊢
      exact ⟨⟨hcond.1.2, hcond.1.1⟩, hcond.2.symm⟩
    have he : a._buf = b._buf := by simp at hcond; exact hcond.2
    rw [if_pos hcond] at hc
    rw [if_pos hcond2, ← he]
    exact hc
  · have hcond2 : ¬ (!b.is_small && !a.is_small && b._buf == a._buf) = true := by
      intro hh; apply hcond
      simp at hh ⊢
      exact ⟨⟨hh.1.2, hh.1.1⟩, hh.2.symm⟩
    rw [if_neg hcond2]

/-- Copy assignment between two distinct well-formed containers. -/
theorem assign_spec (S : Nat) (h : heap T) (this other : socow_vector T) (xs ys : List T)
    (hx : Rep S h this xs) (hy : Rep S h other ys) (hc : counted h this other = true) :
    ∃ h1 t1, assign S h this other false = some (h1, t1) ∧ Rep S h1 t1 ys ∧
      Rep S h1 other ys ∧ t1.is_small = other.is_small ∧ counted h1 t1 other = true := by
  rcases this with ⟨n, sm, bf, sd⟩
  rcases other with ⟨n2, sm2, bf2, sd2⟩
  cases sm with
  | true =>
    rw [rep_small_iff] at hx
    obtain ⟨hn, hS, hl, tl, rfl⟩ := hx
    subst hn
    cases sm2 with
    | true =>
      have hy0 := hy
      rw [rep_small_iff] at hy
      obtain ⟨hn2, hS2, hl2, tl2, rfl⟩ := hy
      subst hn2
      obtain ⟨tl3, e, hl3⟩ := assign_small_small S xs ys bf bf2 tl tl2 hl hl2
      refine ⟨h, _, by simp [assign, e], rep_small_mk S h bf ys tl3 hS2 hl3, hy0, rfl,
        by simp [counted]⟩
    | false =>
      rw [rep_big_iff] at hy
      obtain ⟨hn2, hl2, q, c2, r2, tl2, rfl, hq, hr2, hcap2⟩ := hy
      subst hn2
      have hqlt : q < h.length := by
        rcases List.getElem?_eq_some.1 hq with ⟨hi, _⟩; exact hi
      have hq3 : (h.set q (some (⟨c2, r2 + 1, ys.map some ++ tl2⟩ : buffer T)))[q]?
          = some (some ⟨c2, r2 + 1, ys.map some ++ tl2⟩) := by
        simp [List.getElem?_set, hqlt]
      refine ⟨_, _, assign_small_big S h xs bf tl ys.length q sd2 _ hq, ?_, ?_, rfl, ?_⟩
      · rw [rep_big_iff]
        exact ⟨rfl, by simp [clobbered], q, c2, r2 + 1, tl2, rfl, hq3, by omega, hcap2⟩
      · rw [rep_big_iff]
        exact ⟨rfl, hl2, q, c2, r2 + 1, tl2, rfl, hq3, by omega, hcap2⟩
      · simp only [counted, (deref_eq_some _ _ _).2 hq3]
        simp; omega
  | false =>
    rw [rep_big_iff] at hx
    obtain ⟨hn, hl, p, c, r, tl, rfl, hp, hr, hcap⟩ := hx
    subst hn
    have hplt : p < h.length := by
      rcases List.getElem?_eq_some.1 hp with ⟨hi, _⟩; exact hi
    cases sm2 with
    | true =>
      rw [rep_small_iff] at hy
      obtain ⟨hn2, hS2, hl2, tl2, rfl⟩ := hy
      subst hn2
      refine ⟨_, _, assign_big_small S h xs ys p c r sd tl tl2 bf2 hp hr hS2 hl, ?_, ?_, rfl,
        by simp [counted]⟩
      · apply rep_small_mk _ _ _ _ _ hS2
        simp [hl]; omega
      · exact rep_small_mk _ _ _ _ _ hS2 hl2
    | false =>
      rw [rep_big_iff] at hy
      obtain ⟨hn2, hl2, q, c2, r2, tl2, rfl, hq, hr2, hcap2⟩ := hy
      subst hn2
      have hqlt : q < h.length := by
        rcases List.getElem?_eq_some.1 hq with ⟨hi, _⟩; exact hi
      by_cases hpq : p = q
      · subst hpq
        have h2 : 2 ≤ r := by
          simp [counted, (deref_eq_some _ _ _).2 hp] at hc
          exact hc
        rw [hp] at hq
        have hb : (⟨c, r, xs.map some ++ tl⟩ : buffer T) = ⟨c2, r2, ys.map some ++ tl2⟩ := by
          simpa using hq
        refine ⟨h, _, assign_big_big_same S h xs p c r sd tl ys.length sd2 hp h2, ?_, ?_, rfl,
          ?_⟩
        · rw [rep_big_iff]
          exact ⟨rfl, hl, p, c2, r2, tl2, rfl, by rw [hp, hb], hr2, hcap2⟩
        · rw [rep_big_iff]
          exact ⟨rfl, hl2, p, c2, r2, tl2, rfl, by rw [hp, hb], hr2, hcap2⟩
        · simp only [counted, (deref_eq_some _ _ _).2 hp]
          simpa using h2
      · have hq3 : ((h.set p (released ⟨c, r, xs.map some ++ tl⟩)).set q
            (some (⟨c2, r2 + 1, ys.map some ++ tl2⟩ : buffer T)))[q]?
            = some (some ⟨c2, r2 + 1, ys.map some ++ tl2⟩) := by
          simp [List.getElem?_set, hqlt]
        refine ⟨_, _, assign_big_big S h xs p c r sd tl ys.length q sd2 _ hp hr hq hpq, ?_, ?_,
          rfl, ?_⟩
        · rw [rep_big_iff]
          exact ⟨rfl, hl, q, c2, r2 + 1, tl2, rfl, hq3, by omega, hcap2⟩
        · rw [rep_big_iff]
          exact ⟨rfl, hl2, q, c2, r2 + 1, tl2, rfl, hq3, by omega, hcap2⟩
        · simp only [counted, (deref_eq_some _ _ _).2 hq3]
          simp; omega

/-! ## insert -/

theorem construct_at_mid (p q : Slots T) (a : Option T) (x : T) :
    construct_at (p ++ a :: q) p.length x = some (p ++ some x :: q) := by
  simp [construct_at, set_mid]

theorem insert_slots (xs : List T) (idx : Nat) (x : T) (a : Option T) (tl : Slots T)
    (hi : idx ≤ xs.length) :
    (construct_at (xs.map some ++ a :: tl) xs.length x).bind
        (fun m1 => slots_insert_shift idx (xs.length + 1 - 1 - idx) m1)
      = some ((xs.take idx ++ x :: xs.drop idx).map some ++ tl) := by
  have h1 := construct_at_mid (xs.map some) tl a x
  simp only [List.length_map] at h1
  have h2 := slots_insert_shift_app x (xs.length - idx) (xs.drop idx) ((xs.take idx).map some) tl
    (by simp)
  have hl : ((xs.take idx).map some).length = idx := by simp [hi]
  rw [hl] at h2
  have e : xs.map some ++ some x :: tl
      = (xs.take idx).map some ++ (xs.drop idx).map some ++ some x :: tl := by
    rw [← List.map_append, List.take_append_drop]
  simp only [h1, Option.some_bind, Nat.add_sub_cancel]
  rw [e, h2]
  simp

theorem insert_small_inplace (S : Nat) (h : heap T) (xs : List T) (bf : Option Nat)
    (a : Option T) (tl : Slots T) (idx : Nat) (x : T)
    (hl : (xs.map some ++ a :: tl).length = S) (hi : idx ≤ xs.length) :
    insert S h ⟨xs.length, true, bf, xs.map some ++ a :: tl⟩ idx x
      = some (h, ⟨xs.length + 1, true, bf, (xs.take idx ++ x :: xs.drop idx).map some ++ tl⟩,
          idx) := by
  have hne : xs.length ≠ S := by
    rw [← hl]; simp
  have ho := own_small h xs.length bf (xs.map some ++ a :: tl)
  have h1 := construct_at_mid (xs.map some) tl a x
  simp only [List.length_map] at h1
  have ho1 := own_small h (xs.length + 1) bf (xs.map some ++ some x :: tl)
  have hsl := insert_slots xs idx x a tl hi
  simp only [h1, Option.some_bind] at hsl
  simp only [insert, capacity_small, Option.some_bind, is_shared, size, beq_iff_eq, hne,
    Bool.or_false, if_true, Bool.false_eq_true, if_false, with_data_own S h _ _ _ ho, h1,
    set_data, insert_shift_own S idx _ h _ _ ho1, hsl, data_small]

theorem with_data_fresh (S : Nat) (g : heap T) (c k : Nat) (m : Slots T) (sd : Slots T)
    (f : Slots T → Option (Slots T)) :
    with_data S (g ++ [some ⟨c, 1, m⟩]) ⟨k, false, some g.length, sd⟩ f
      = (f m).bind fun m1 => some (g ++ [some ⟨c, 1, m1⟩], ⟨k, false, some g.length, sd⟩) := by
  have hp : (g ++ [some (⟨c, 1, m⟩ : buffer T)])[g.length]? = some (some ⟨c, 1, m⟩) :=
    getElem?_append_length _ _
  have ho := own_big (g ++ [some ⟨c, 1, m⟩]) k g.length c sd m hp
  rw [with_data_own S _ _ _ _ ho]
  cases f m with
  | none => rfl
  | some m1 =>
    simp [set_data, (deref_eq_some _ _ _).2 hp, set_append_length]

theorem insert_big_inplace (S : Nat) (h : heap T) (xs : List T) (p c : Nat) (sd : Slots T)
    (a : Option T) (tl : Slots T) (idx : Nat) (x : T)
    (hp : h[p]? = some (some ⟨c, 1, xs.map some ++ a :: tl⟩))
    (hc : (xs.map some ++ a :: tl).length = c) (hi : idx ≤ xs.length) :
    insert S h ⟨xs.length, false, some p, sd⟩ idx x
      = some (h.set p (some ⟨c, 1, (xs.take idx ++ x :: xs.drop idx).map some ++ tl⟩),
          ⟨xs.length + 1, false, some p, sd⟩, idx) := by
  have hne : xs.length ≠ c := by
    rw [← hc]; simp
  have hplt : p < h.length := by
    rcases List.getElem?_eq_some.1 hp with ⟨hi, _⟩; exact hi
  have hd := (deref_eq_some h p _).2 hp
  have ho := own_big h xs.length p c sd _ hp
  have h1 := construct_at_mid (xs.map some) tl a x
  simp only [List.length_map] at h1
  have hp1 : (h.set p (some (⟨c, 1, xs.map some ++ some x :: tl⟩ : buffer T)))[p]?
      = some (some ⟨c, 1, xs.map some ++ some x :: tl⟩) := by
    simp [List.getElem?_set, hplt]
  have ho1 := own_big _ (xs.length + 1) p c sd _ hp1
  have hp2 : (h.set p (some (⟨c, 1, (xs.take idx ++ x :: xs.drop idx).map some ++ tl⟩
      : buffer T)))[p]?
      = some (some ⟨c, 1, (xs.take idx ++ x :: xs.drop idx).map some ++ tl⟩) := by
    simp [List.getElem?_set, hplt]
  have ho2 := own_big _ (xs.length + 1) p c sd _ hp2
  have hsl := insert_slots xs idx x a tl hi
  simp only [h1, Option.some_bind] at hsl
  simp only [insert, capacity_big S h _ p sd _ hp, Option.some_bind, is_shared_big h _ p sd _ hp,
    size, beq_iff_eq, hne, gt_iff_lt, lt_self_iff_false, decide_False, Bool.or_false,
    Bool.false_eq_true, if_false, with_data_own S h _ _ _ ho, h1, set_data, hd,
    insert_shift_own S idx _ _ _ _ ho1, hsl, (deref_eq_some _ _ _).2 hp1, List.set_set,
    data_own S _ _ _ ho2]

theorem set_append_length_eq {α : Type} (l : List α) (a b : α) (N : Nat) (hN : l.length = N) :
    (l ++ [a]).set N b = l ++ [b] := by
  subst hN; exact set_append_length l a b

theorem getElem?_append_length_eq {α : Type} (l : List α) (a : α) (N : Nat)
    (hN : l.length = N) : (l ++ [a])[N]? = some a := by
  subst hN; exact getElem?_append_length l a

theorem grow_slots_prefix (xs : List T) (tl : Slots T) (idx k : Nat) (hi : idx ≤ xs.length)
    (hk : xs.length + 1 ≤ k) :
    uninitialized_copy_n (xs.map some ++ tl) 0 idx (List.replicate k none) 0
      = some ((xs.take idx).map some ++ none :: List.replicate (k - idx - 1) none) := by
  have hu := uninit_copy_app (xs.take idx) [] ((xs.drop idx).map some ++ tl) []
    (List.replicate idx none) (none :: List.replicate (k - idx - 1) none) (by simp [hi])
  have e1 : xs.map some ++ tl = [] ++ (xs.take idx).map some ++ ((xs.drop idx).map some ++ tl) := by
    rw [List.nil_append, ← List.append_assoc, ← List.map_append, List.take_append_drop]
  have e2 : (List.replicate k none : Slots T)
      = [] ++ List.replicate idx none ++ (none :: List.replicate (k - idx - 1) none) := by
    rw [List.nil_append, ← List.replicate_succ, ← List.replicate_add]
    congr 1; omega
  have hl : (xs.take idx).length = idx := by simp [hi]
  rw [hl] at hu
  simp only [List.length_nil] at hu
  rw [e1, e2, hu]
  simp

theorem grow_slots_suffix (xs : List T) (tl : Slots T) (idx k : Nat) (x : T)
    (hi : idx ≤ xs.length) (hk : xs.length + 1 ≤ k) :
    uninitialized_copy_n (xs.map some ++ tl) idx (xs.length - idx)
        ((xs.take idx).map some ++ some x :: List.replicate (k - idx - 1) none) (idx + 1)
      = some ((xs.take idx ++ x :: xs.drop idx).map some
          ++ List.replicate (k - xs.length - 1) none) := by
  have hu := uninit_copy_app (xs.drop idx) ((xs.take idx).map some) tl
    ((xs.take idx).map some ++ [some x]) (List.replicate (xs.length - idx) none)
    (List.replicate (k - xs.length - 1) none) (by simp)
  have e1 : xs.map some ++ tl = (xs.take idx).map some ++ (xs.drop idx).map some ++ tl := by
    rw [← List.map_append, List.take_append_drop]
  have e2 : (xs.take idx).map some ++ some x :: List.replicate (k - idx - 1) none
      = ((xs.take idx).map some ++ [some x]) ++ List.replicate (xs.length - idx) none
          ++ List.replicate (k - xs.length - 1) none := by
    rw [List.append_assoc, ← List.replicate_add]
    have : xs.length - idx + (k - xs.length - 1) = k - idx - 1 := by omega
    rw [this]; simp
  have hl : ((xs.take idx).map some).length = idx := by simp [hi]
  have hl2 : ((xs.take idx).map some ++ [some x]).length = idx + 1 := by simp [hi]
  have hl3 : (xs.drop idx).length = xs.length - idx := by simp
  rw [hl, hl2, hl3] at hu
  rw [e1, e2, hu]
  simp

theorem destroy_big_shared (S : Nat) (h : heap T) (n p : Nat) (sd : Slots T) (b : buffer T)
    (hp : h[p]? = some (some b)) (hr : 2 ≤ b._ref_count) :
    destroy S h ⟨n, false, some p, sd⟩
      = some (h.set p (some { b with _ref_count := b._ref_count - 1 })) := by
  simp [destroy, release_ref_shared h n p sd b hp hr]

theorem construct_at_prefix (ys : List T) (q : Slots T) (a : Option T) (x : T) (idx : Nat)
    (hl : ys.length = idx) :
    construct_at (ys.map some ++ a :: q) idx x = some (ys.map some ++ some x :: q) := by
  have := construct_at_mid (ys.map some) q a x
  simpa [hl] using this

theorem fresh_buf_nil (k : Nat) :
    (fresh_buf k ([] : List T)) = ⟨k, 1, List.replicate k none⟩ := by
  simp [fresh_buf]

theorem insert_growth_small (S : Nat) (h : heap T) (xs : List T) (bf : Option Nat)
    (tl : Slots T) (idx k : Nat) (x : T) (hS : xs.length = S)
    (hk : k = if S = 0 then 1 else xs.length * 2) (hi : idx ≤ xs.length) :
    insert S h ⟨xs.length, true, bf, xs.map some ++ tl⟩ idx x
      = some (h ++ [some ⟨k, 1, (xs.take idx ++ x :: xs.drop idx).map some
            ++ List.replicate (k - xs.length - 1) none⟩],
          ⟨xs.length + 1, false, some h.length, clobbered S⟩, idx) := by
  subst hS
  have hroom : xs.length + 1 ≤ k := by
    subst hk; split <;> omega
  have hsc := set_capacity_small xs.length h ([] : List T) none (clobbered xs.length) k
  rw [← default_eq] at hsc
  have hl : (xs.take idx).length = idx := by simp [hi]
  have hq : (h ++ [some (⟨k, 1, (xs.take idx ++ x :: xs.drop idx).map some
      ++ List.replicate (k - xs.length - 1) none⟩ : buffer T)])[h.length]?
      = some (some ⟨k, 1, (xs.take idx ++ x :: xs.drop idx).map some
      ++ List.replicate (k - xs.length - 1) none⟩) := getElem?_append_length _ _
  have hq2 : (h ++ [some (⟨k, 1 + 1, (xs.take idx ++ x :: xs.drop idx).map some
      ++ List.replicate (k - xs.length - 1) none⟩ : buffer T)])[h.length]?
      = some (some ⟨k, 1 + 1, (xs.take idx ++ x :: xs.drop idx).map some
      ++ List.replicate (k - xs.length - 1) none⟩) := getElem?_append_length _ _
  have ho := own_big _ (xs.length + 1) h.length k (clobbered xs.length) _ hq
  simp only [insert, capacity_small, Option.some_bind, is_shared, size, beq_self_eq_true,
    Bool.true_or, if_true, beq_iff_eq, ← hk, hsc, fresh_buf_nil, cdata, List.length_nil,
    with_data_fresh, grow_slots_prefix xs tl idx k hi hroom,
    construct_at_prefix _ _ _ _ _ hl,
    grow_slots_suffix xs tl idx k x hi hroom,
    assign_small_big xs.length _ xs bf tl (xs.length + 1) h.length (clobbered xs.length) _ hq,
    set_append_length, destroy_big_shared xs.length _ _ _ _ _ hq2 (by simp), Nat.add_sub_cancel,
    data_own xs.length _ _ _ ho]

theorem cdata_big_append (h g : heap T) (n p : Nat) (sd : Slots T) (b : buffer T)
    (hp : h[p]? = some (some b)) :
    cdata (h ++ g) ⟨n, false, some p, sd⟩ = some b._data := by
  have hplt : p < h.length := by
    rcases List.getElem?_eq_some.1 hp with ⟨hi, _⟩; exact hi
  simp [cdata, deref_append h g p hplt, (deref_eq_some h p b).2 hp]

theorem insert_growth_big (S : Nat) (h : heap T) (xs : List T) (p c r : Nat) (sd tl : Slots T)
    (idx k : Nat) (x : T)
    (hp : h[p]? = some (some ⟨c, r, xs.map some ++ tl⟩)) (hr : 1 ≤ r)
    (hcond : xs.length = c ∨ 2 ≤ r)
    (hk : k = if c = 0 then 1 else xs.length * 2) (hroom : xs.length + 1 ≤ k)
    (hi : idx ≤ xs.length) :
    insert S h ⟨xs.length, false, some p, sd⟩ idx x
      = some (h.set p (released ⟨c, r, xs.map some ++ tl⟩)
            ++ [some ⟨k, 1, (xs.take idx ++ x :: xs.drop idx).map some
              ++ List.replicate (k - xs.length - 1) none⟩],
          ⟨xs.length + 1, false, some h.length, sd⟩, idx) := by
  have hplt : p < h.length := by
    rcases List.getElem?_eq_some.1 hp with ⟨hi, _⟩; exact hi
  have hne : p ≠ h.length := by omega
  have hsc := set_capacity_small S h ([] : List T) none (clobbered S) k
  rw [← default_eq] at hsc
  have hl : (xs.take idx).length = idx := by simp [hi]
  have hc2 : (xs.length == c || decide (r > 1)) = true := by
    rcases hcond with e | e
    · simp [e]
    · have : 1 < r := by omega
      simp [this]
  have hq : (h ++ [some (⟨k, 1, (xs.take idx ++ x :: xs.drop idx).map some
      ++ List.replicate (k - xs.length - 1) none⟩ : buffer T)])[h.length]?
      = some (some ⟨k, 1, (xs.take idx ++ x :: xs.drop idx).map some
      ++ List.replicate (k - xs.length - 1) none⟩) := getElem?_append_length _ _
  have hp4 : (h ++ [some (⟨k, 1, (xs.take idx ++ x :: xs.drop idx).map some
      ++ List.replicate (k - xs.length - 1) none⟩ : buffer T)])[p]?
      = some (some ⟨c, r, xs.map some ++ tl⟩) := getElem?_append_some _ _ _ _ hp
  have hlen : (h.set p (released ⟨c, r, xs.map some ++ tl⟩)).length = h.length := by simp
  have hq2 : (h.set p (released ⟨c, r, xs.map some ++ tl⟩)
      ++ [some (⟨k, 1 + 1, (xs.take idx ++ x :: xs.drop idx).map some
      ++ List.replicate (k - xs.length - 1) none⟩ : buffer T)])[h.length]?
      = some (some ⟨k, 1 + 1, (xs.take idx ++ x :: xs.drop idx).map some
      ++ List.replicate (k - xs.length - 1) none⟩) := getElem?_append_length_eq _ _ _ hlen
  have hq3 : (h.set p (released ⟨c, r, xs.map some ++ tl⟩)
      ++ [some (⟨k, 1, (xs.take idx ++ x :: xs.drop idx).map some
      ++ List.replicate (k - xs.length - 1) none⟩ : buffer T)])[h.length]?
      = some (some ⟨k, 1, (xs.take idx ++ x :: xs.drop idx).map some
      ++ List.replicate (k - xs.length - 1) none⟩) := getElem?_append_length_eq _ _ _ hlen
  have ho := own_big _ (xs.length + 1) h.length k sd _ hq3
  simp only [insert, capacity_big S h _ p sd _ hp, Option.some_bind, is_shared_big h _ p sd _ hp,
    size, beq_iff_eq, hc2, if_true, ← hk, hsc, fresh_buf_nil, cdata_big_append h _ _ p sd _ hp,
    List.length_nil, with_data_fresh, grow_slots_prefix xs tl idx k hi hroom,
    construct_at_prefix _ _ _ _ _ hl, grow_slots_suffix xs tl idx k x hi hroom,
    assign_big_big S _ xs p c r sd tl (xs.length + 1) h.length (clobbered S) _ hp4 hr hq hne,
    set_append_lt _ _ _ _ hplt, set_append_length_eq _ _ _ _ hlen,
    destroy_big_shared S _ _ _ _ _ hq2 (by simp), Nat.add_sub_cancel,
    data_own S _ _ _ ho]

theorem is_shared_small (h : heap T) (n : Nat) (bf : Option Nat) (sd : Slots T) :
    is_shared h ⟨n, true, bf, sd⟩ = some false := by
  simp [is_shared]

theorem length_insert (xs : List T) (idx : Nat) (x : T) (hi : idx ≤ xs.length) :
    (xs.take idx ++ x :: xs.drop idx).length = xs.length + 1 := by
  simp; omega

/-- The contract of `insert` on a well-formed container, outside the one configuration in
which its replacement buffer is too small (empty, sharing a buffer of non-zero capacity). -/
theorem insert_spec (S : Nat) (h : heap T) (v : socow_vector T) (xs : List T) (idx : Nat)
    (x : T) (hr : Rep S h v xs) (hi : idx ≤ xs.length)
    (hok : ¬ (xs.length = 0 ∧ is_shared h v = some true ∧ capacity S h v ≠ some 0)) :
    ∃ h1 v1, insert S h v idx x = some (h1, v1, idx) ∧
      Rep S h1 v1 (xs.take idx ++ x :: xs.drop idx) ∧ Frame h h1 v ∧
      is_shared h1 v1 = some false ∧
      v1.is_small = (v.is_small && decide (xs.length < S)) := by
  have hlen := length_insert xs idx x hi
  rcases v with ⟨m, sm, bf, sd⟩
  cases sm with
  | true =>
    rw [rep_small_iff] at hr
    obtain ⟨hn, hS, hl, tl, rfl⟩ := hr
    subst hn
    cases tl with
    | nil =>
      have hS2 : xs.length = S := by simpa using hl
      have e := insert_growth_small S h xs bf [] idx _ x hS2 rfl hi
      refine ⟨_, _, e, ?_, frame_append _ _ _, ?_, ?_⟩
      · rw [rep_big_iff]
        refine ⟨hlen.symm, by simp [clobbered], h.length, _, 1, _, rfl,
          getElem?_append_length _ _, le_refl _, ?_⟩
        simp only [List.length_append, List.length_map, hlen, List.length_replicate]
        split <;> omega
      · exact is_shared_big _ _ _ _ _ (getElem?_append_length _ _)
      · simp [hS2]
    | cons a tl =>
      have hlt : xs.length < S := by
        rw [← hl]; simp
      have e := insert_small_inplace S h xs bf a tl idx x hl hi
      refine ⟨_, _, e, ?_, frame_refl _ _, is_shared_small _ _ _ _, by simp [hlt]⟩
      rw [← hlen]
      apply rep_small_mk
      · rw [hlen]; omega
      · simp only [List.length_append, List.length_map, hlen]
        simp only [List.length_append, List.length_map, List.length_cons] at hl
        omega
  | false =>
    rw [rep_big_iff] at hr
    obtain ⟨hn, hl, p, c, r, tl, rfl, hp, hr1, hcap⟩ := hr
    subst hn
    have hplt : p < h.length := by
      rcases List.getElem?_eq_some.1 hp with ⟨hi, _⟩; exact hi
    by_cases hin : r = 1 ∧ xs.length ≠ c
    · obtain ⟨rfl, hne⟩ := hin
      cases tl with
      | nil => exact absurd (by simpa using hcap) hne
      | cons a tl =>
        have e := insert_big_inplace S h xs p c sd a tl idx x hp hcap hi
        have hp2 : (h.set p (some (⟨c, 1, (xs.take idx ++ x :: xs.drop idx).map some ++ tl⟩
            : buffer T)))[p]?
            = some (some ⟨c, 1, (xs.take idx ++ x :: xs.drop idx).map some ++ tl⟩) := by
          simp [List.getElem?_set, hplt]
        refine ⟨_, _, e, ?_, frame_set_unique h _ p sd _ _ hp rfl, ?_, by simp⟩
        · rw [rep_big_iff]
          refine ⟨hlen.symm, hl, p, c, 1, tl, rfl, hp2, le_refl _, ?_⟩
          simp only [List.length_append, List.length_map, hlen]
          simp only [List.length_append, List.length_map, List.length_cons] at hcap
          omega
        · rw [is_shared_big _ _ _ _ _ hp2]; simp
    · have hcond : xs.length = c ∨ 2 ≤ r := by
        by_cases h1 : r = 1
        · left; by_contra hne; exact hin ⟨h1, hne⟩
        · right; omega
      have hxc : xs.length ≤ c := by rw [← hcap]; simp
      have hroom : xs.length + 1 ≤ (if c = 0 then 1 else xs.length * 2) := by
        split
        · omega
        · rename_i hc0
          by_cases hx0 : xs.length = 0
          · exfalso
            apply hok
            refine ⟨hx0, ?_, ?_⟩
            · rw [is_shared_big _ _ _ _ _ hp]
              have : 1 < r := by omega
              simp [this]
            · rw [capacity_big _ _ _ _ _ _ hp]
              simpa using hc0
          · omega
      have e := insert_growth_big S h xs p c r sd tl idx _ x hp hr1 hcond rfl hroom hi
      have hlen2 : (h.set p (released ⟨c, r, xs.map some ++ tl⟩)).length = h.length := by simp
      refine ⟨_, _, e, ?_, frame_released h _ _ p sd _ hp, ?_, by simp⟩
      · rw [rep_big_iff]
        refine ⟨hlen.symm, hl, h.length, _, 1, _, rfl,
          getElem?_append_length_eq _ _ _ hlen2, le_refl _, ?_⟩
        simp only [List.length_append, List.length_map, hlen, List.length_replicate]
        omega
      · exact is_shared_big _ _ _ _ _ (getElem?_append_length_eq _ _ _ hlen2)

/-- The defect of `insert`: on an empty container that shares a buffer of non-zero
capacity the replacement buffer is requested with capacity `size() * 2 = 0`, and the
new element is constructed past its end. -/
theorem insert_overflow (S : Nat) (h : heap T) (v : socow_vector T) (x : T)
    (hr : Rep S h v []) (hs : is_shared h v = some true) (c : Nat)
    (hc : capacity S h v = some c) (hc0 : c ≠ 0) :
    insert S h v 0 x = none := by
  rcases v with ⟨m, sm, bf, sd⟩
  cases sm with
  | true => simp [is_shared] at hs
  | false =>
    rw [rep_big_iff] at hr
    obtain ⟨hn, hl, p, c1, r, tl, rfl, hp, hr1, hcap⟩ := hr
    subst hn
    rw [capacity_big _ _ _ _ _ _ hp] at hc
    have hcc : c1 = c := by simpa using hc
    subst hcc
    rw [is_shared_big _ _ _ _ _ hp] at hs
    have hc2 : ((0 : Nat) == c1 || decide (r > 1)) = true := by
      simp at hs; simp [hs]
    have hsc := set_capacity_small S h ([] : List T) none (clobbered S) 0
    rw [← default_eq] at hsc
    have hk : (if c1 = 0 then 1 else 0 * 2) = 0 := by simp [hc0]
    simp only [insert, capacity_big S h _ p sd _ hp, Option.some_bind,
      is_shared_big h _ p sd _ hp, size, List.length_nil, beq_iff_eq, hc2, if_true, hk, hsc,
      fresh_buf_nil, cdata_big_append h _ _ p sd _ hp, with_data_fresh, List.replicate_zero,
      uninitialized_copy_n, construct_at, List.length_nil, Nat.lt_irrefl, if_false,
      Option.none_bind, Nat.zero_add]

/-! ## erase -/

theorem erase_split (xs : List T) (idx start : Nat) (hi : idx ≤ start) :
    xs = xs.take idx ++ ((xs.drop idx).take (start - idx) ++ xs.drop start) := by
  have h1 : xs.drop start = (xs.drop idx).drop (start - idx) := by
    rw [List.drop_drop]; congr 1; omega
  rw [h1, List.take_append_drop, List.take_append_drop]

theorem erase_slots (xs : List T) (tl : Slots T) (idx start : Nat) (hi : idx < start)
    (hs : start ≤ xs.length) :
    (slots_erase_shift idx start (xs.length - start) start (xs.map some ++ tl)).bind
        (fun m1 => destroy_n m1 (xs.length - (start - idx)) (start - idx))
      = some ((xs.take idx ++ xs.drop start).map some
          ++ (List.replicate (start - idx) none ++ tl)) := by
  have hne : (xs.drop idx).take (start - idx) ≠ [] := by
    intro he
    have : ((xs.drop idx).take (start - idx)).length = 0 := by rw [he]; rfl
    simp at this; omega
  have hle : ((xs.drop idx).take (start - idx)).length = start - idx := by simp; omega
  have hlt : ((xs.take idx).map some).length = idx := by simp; omega
  obtain ⟨e2, hl2, hsh⟩ := slots_erase_shift_app idx start tl (xs.drop start)
    ((xs.take idx).map some) ((xs.drop idx).take (start - idx)) start hne
    (by rw [hlt, hle]; omega) (by rw [hlt]; omega)
  have e : xs.map some ++ tl
      = (xs.take idx).map some ++ ((xs.drop idx).take (start - idx)).map some
          ++ (xs.drop start).map some ++ tl := by
    conv => lhs; rw [erase_split xs idx start (le_of_lt hi)]
    simp
  have hld : (xs.drop start).length = xs.length - start := by simp
  rw [hld] at hsh
  rw [e, hsh]
  simp only [Option.some_bind]
  have hd := destroy_n_app e2 ((xs.take idx).map some ++ (xs.drop start).map some) tl
  have hlp : ((xs.take idx).map some ++ (xs.drop start).map some).length
      = xs.length - (start - idx) := by simp; omega
  rw [hlp, hl2, hle] at hd
  rw [hd]
  simp

theorem erase_small_inplace (S : Nat) (h : heap T) (xs : List T) (bf : Option Nat)
    (tl : Slots T) (idx start : Nat) (hi : idx < start) (hs : start ≤ xs.length) :
    erase S h ⟨xs.length, true, bf, xs.map some ++ tl⟩ idx start
      = some (h, ⟨xs.length - (start - idx), true, bf,
          (xs.take idx ++ xs.drop start).map some
            ++ (List.replicate (start - idx) none ++ tl)⟩, idx) := by
  have hg : ¬ (start < idx ∨ xs.length < start) := by omega
  have hlen : start - idx ≠ 0 := by omega
  have ho := own_small h xs.length bf (xs.map some ++ tl)
  have hsl := erase_slots xs tl idx start hi hs
  cases hm : slots_erase_shift idx start (xs.length - start) start (xs.map some ++ tl) with
  | none => simp [hm] at hsl
  | some m1 =>
    simp only [hm, Option.some_bind] at hsl
    have ho1 := own_small h xs.length bf m1
    simp only [erase, size, hg, if_false, hlen, is_shared_small, Option.some_bind,
      Bool.not_false, if_true, erase_shift_own S idx start _ _ h _ _ ho, hm, set_data,
      with_data_own S h _ _ _ ho1, hsl, data_small]

theorem erase_big_inplace (S : Nat) (h : heap T) (xs : List T) (p c : Nat) (sd tl : Slots T)
    (idx start : Nat) (hp : h[p]? = some (some ⟨c, 1, xs.map some ++ tl⟩))
    (hi : idx < start) (hs : start ≤ xs.length) :
    erase S h ⟨xs.length, false, some p, sd⟩ idx start
      = some (h.set p (some ⟨c, 1, (xs.take idx ++ xs.drop start).map some
            ++ (List.replicate (start - idx) none ++ tl)⟩),
          ⟨xs.length - (start - idx), false, some p, sd⟩, idx) := by
  have hg : ¬ (start < idx ∨ xs.length < start) := by omega
  have hlen : start - idx ≠ 0 := by omega
  have hplt : p < h.length := by
    rcases List.getElem?_eq_some.1 hp with ⟨hi, _⟩; exact hi
  have hd := (deref_eq_some h p _).2 hp
  have ho := own_big h xs.length p c sd _ hp
  have hsl := erase_slots xs tl idx start hi hs
  cases hm : slots_erase_shift idx start (xs.length - start) start (xs.map some ++ tl) with
  | none => simp [hm] at hsl
  | some m1 =>
    simp only [hm, Option.some_bind] at hsl
    have hp1 : (h.set p (some (⟨c, 1, m1⟩ : buffer T)))[p]? = some (some ⟨c, 1, m1⟩) := by
      simp [List.getElem?_set, hplt]
    have ho1 := own_big _ xs.length p c sd _ hp1
    have hp2 : (h.set p (some (⟨c, 1, (xs.take idx ++ xs.drop start).map some
        ++ (List.replicate (start - idx) none ++ tl)⟩ : buffer T)))[p]?
        = some (some ⟨c, 1, (xs.take idx ++ xs.drop start).map some
        ++ (List.replicate (start - idx) none ++ tl)⟩) := by
      simp [List.getElem?_set, hplt]
    have ho2 := own_big _ (xs.length - (start - idx)) p c sd _ hp2
    simp only [erase, size, hg, if_false, hlen, is_shared_big h _ p sd _ hp, Option.some_bind,
      gt_iff_lt, lt_self_iff_false, decide_False, Bool.not_false, if_true,
      erase_shift_own S idx start _ _ h _ _ ho, hm, set_data, Bool.false_eq_true, hd,
      with_data_own S _ _ _ _ ho1, hsl, (deref_eq_some _ _ _).2 hp1, List.set_set,
      data_own S _ _ _ ho2]

theorem push_back_fresh (S : Nat) (g : heap T) (zs : List T) (k : Nat) (sd : Slots T) (x : T)
    (hk : zs.length < k) :
    push_back S (g ++ [some ⟨k, 1, zs.map some ++ List.replicate (k - zs.length) none⟩])
        ⟨zs.length, false, some g.length, sd⟩ x
      = some (g ++ [some ⟨k, 1, (zs ++ [x]).map some
            ++ List.replicate (k - (zs ++ [x]).length) none⟩],
          ⟨(zs ++ [x]).length, false, some g.length, sd⟩) := by
  have e : List.replicate (k - zs.length) (none : Option T)
      = none :: List.replicate (k - (zs ++ [x]).length) none := by
    rw [← List.replicate_succ]; congr 1; simp; omega
  have hp : (g ++ [some (⟨k, 1, zs.map some ++ none
      :: List.replicate (k - (zs ++ [x]).length) none⟩ : buffer T)])[g.length]?
      = some (some ⟨k, 1, zs.map some ++ none
      :: List.replicate (k - (zs ++ [x]).length) none⟩) := getElem?_append_length _ _
  have hi := insert_big_inplace S _ zs g.length k sd none
    (List.replicate (k - (zs ++ [x]).length) none) zs.length x hp (by simp; omega) (le_refl _)
  rw [e]
  simp only [push_back, size, hi, Option.map_some', set_append_length]
  simp

theorem survivors_getElem (xs : List T) (idx start i : Nat) (hi : idx ≤ start)
    (hs : start ≤ xs.length) :
    (xs.take idx ++ xs.drop start)[i]?
      = xs[if i < idx then i else i + (start - idx)]? := by
  by_cases h1 : i < idx
  · rw [if_pos h1, List.getElem?_append_left (by simp; omega), List.getElem?_take_of_lt h1]
  · rw [if_neg h1, List.getElem?_append_right (by simp; omega), List.getElem?_drop]
    congr 1
    simp; omega

theorem const_index_big_append (h g : heap T) (xs : List T) (p c r : Nat) (sd tl : Slots T)
    (j : Nat) (y : T) (hp : h[p]? = some (some ⟨c, r, xs.map some ++ tl⟩))
    (hy : xs[j]? = some y) :
    const_index (h ++ g) ⟨xs.length, false, some p, sd⟩ j = some y := by
  have hj : j < xs.length := by
    rcases List.getElem?_eq_some.1 hy with ⟨hi, _⟩; exact hi
  have : (xs.map some ++ tl)[j]? = some (some y) := by
    rw [List.getElem?_append_left (by simpa using hj)]
    simp [hy]
  simp only [const_index, cdata_big_append h g _ p sd _ hp, Option.some_bind]
  exact (slot_read_eq_some _ _ _).2 this

theorem erase_refill_fresh (S : Nat) (h : heap T) (xs ws : List T) (p c r : Nat)
    (sd sdt tl : Slots T) (idx len : Nat)
    (hp : h[p]? = some (some ⟨c, r, xs.map some ++ tl⟩))
    (hw : ∀ i, i < ws.length → ws[i]? = xs[if i < idx then i else i + len]?) :
    ∀ (j i : Nat), i + j = ws.length →
    erase_refill S ⟨xs.length, false, some p, sd⟩ idx len j i
        (h ++ [some ⟨ws.length, 1, (ws.take i).map some
          ++ List.replicate (ws.length - (ws.take i).length) none⟩])
        ⟨(ws.take i).length, false, some h.length, sdt⟩
      = some (h ++ [some ⟨ws.length, 1, ws.map some⟩],
          ⟨ws.length, false, some h.length, sdt⟩) := by
  intro j
  induction j with
  | zero =>
    intro i hij
    have : ws.take i = ws := List.take_of_length_le (by omega)
    simp [erase_refill, this]
  | succ j ih =>
    intro i hij
    have hi : i < ws.length := by omega
    have hwi := hw i hi
    have hget : ws[i]? = some ws[i] := List.getElem?_eq_getElem hi
    have hci := const_index_big_append h
      [some ⟨ws.length, 1, (ws.take i).map some
          ++ List.replicate (ws.length - (ws.take i).length) none⟩]
      xs p c r sd tl _ ws[i] hp (by rw [← hwi, hget])
    have hpb := push_back_fresh S h (ws.take i) ws.length sdt ws[i] (by simp; omega)
    have htk : ws.take i ++ [ws[i]] = ws.take (i + 1) := by
      rw [List.take_succ, hget]; rfl
    rw [htk] at hpb
    simp only [erase_refill, hci, Option.some_bind, hpb]
    exact ih (i + 1) (by omega)

theorem released_two (c : Nat) (m : Slots T) :
    released (⟨c, 1 + 1, m⟩ : buffer T) = some ⟨c, 1, m⟩ := by
  simp [released]

theorem released_succ (c r : Nat) (m : Slots T) (hr : 1 ≤ r) :
    released (⟨c, r + 1, m⟩ : buffer T) = some ⟨c, r, m⟩ := by
  have : r + 1 ≠ 1 := by omega
  simp [released, this]

/-- The exchange of a Shared container with a temporary that owns a fresh buffer: the two
objects exchange their buffers and the reference counts are as before. -/
theorem swap_fresh (S : Nat) (h : heap T) (xs ws : List T) (p c r k : Nat)
    (sd sdt tl tlw : Slots T)
    (hp : h[p]? = some (some ⟨c, r, xs.map some ++ tl⟩)) (hr : 1 ≤ r) :
    swap S (h ++ [some ⟨k, 1, ws.map some ++ tlw⟩]) ⟨xs.length, false, some p, sd⟩
        ⟨ws.length, false, some h.length, sdt⟩ false
      = some (h ++ [some ⟨k, 1, ws.map some ++ tlw⟩], ⟨ws.length, false, some h.length, sd⟩,
          ⟨xs.length, false, some p, sdt⟩) := by
  have hplt : p < h.length := by
    rcases List.getElem?_eq_some.1 hp with ⟨hi, _⟩; exact hi
  have hne : p ≠ h.length := by omega
  have hne2 : h.length ≠ p := by omega
  have hq1 : (h ++ [some (⟨k, 1, ws.map some ++ tlw⟩ : buffer T)])[h.length]?
      = some (some ⟨k, 1, ws.map some ++ tlw⟩) := getElem?_append_length _ _
  have hq2 : (h ++ [some (⟨k, 1 + 1, ws.map some ++ tlw⟩ : buffer T)])[h.length]?
      = some (some ⟨k, 1 + 1, ws.map some ++ tlw⟩) := getElem?_append_length _ _
  have hp2 : (h ++ [some (⟨k, 1 + 1, ws.map some ++ tlw⟩ : buffer T)])[p]?
      = some (some ⟨c, r, xs.map some ++ tl⟩) := getElem?_append_some _ _ _ _ hp
  have hlen : (h.set p (some (⟨c, r + 1, xs.map some ++ tl⟩ : buffer T))).length
      = h.length := by simp
  have hp3 : (h.set p (some (⟨c, r + 1, xs.map some ++ tl⟩ : buffer T))
      ++ [some (⟨k, 1, ws.map some ++ tlw⟩ : buffer T)])[p]?
      = some (some ⟨c, r + 1, xs.map some ++ tl⟩) := by
    apply getElem?_append_some
    simp [List.getElem?_set, hplt]
  have hq3 : (h.set p (some (⟨c, r + 1, xs.map some ++ tl⟩ : buffer T))
      ++ [some (⟨k, 1, ws.map some ++ tlw⟩ : buffer T)])[h.length]?
      = some (some ⟨k, 1, ws.map some ++ tlw⟩) := getElem?_append_length_eq _ _ _ hlen
  have hlen4 : (h.set p (some (⟨c, r + 1, xs.map some ++ tl⟩ : buffer T))).length
      = h.length := by simp
  have hq4 : (h ++ [some (⟨k, 1 + 1, ws.map some ++ tlw⟩ : buffer T)])[h.length]?
      = some (some ⟨k, 1 + 1, ws.map some ++ tlw⟩) := getElem?_append_length _ _
  have hcc := assign_small_big S (h ++ [some ⟨k, 1, ws.map some ++ tlw⟩]) ([] : List T) none
    (clobbered S) ws.length h.length sdt _ hq1
  rw [← default_eq] at hcc
  have ha1 := assign_big_big S (h ++ [some ⟨k, 1 + 1, ws.map some ++ tlw⟩]) ws h.length k
    (1 + 1) sdt tlw xs.length p sd _ hq2 (by omega) hp2 hne2
  have ha2 := assign_big_big S (h.set p (some ⟨c, r + 1, xs.map some ++ tl⟩)
      ++ [some ⟨k, 1, ws.map some ++ tlw⟩]) xs p c (r + 1) sd tl ws.length h.length
      (clobbered S) _ hp3 (by omega) hq3 hne
  dsimp only at hcc ha1 ha2
  have hplt2 : p < (h.set p (some (⟨c, r + 1, xs.map some ++ tl⟩ : buffer T))).length := by
    simpa using hplt
  simp only [swap, Bool.false_eq_true, if_false, swap_big, copy_construct, hcc,
    Option.some_bind, set_append_length, ha1, released_two, set_append_lt _ _ _ _ hplt,
    set_append_lt _ _ _ _ hplt2, ha2, released_succ c r _ hr, List.set_set, set_self h p _ hp,
    set_append_length_eq _ _ _ _ hlen, destroy_big_shared S _ _ _ _ _ hq4 (by simp),
    Nat.add_sub_cancel]

theorem length_survivors (xs : List T) (idx start : Nat) (hi : idx ≤ start)
    (hs : start ≤ xs.length) :
    (xs.take idx ++ xs.drop start).length = xs.length - (start - idx) := by
  simp; omega

theorem erase_shared (S : Nat) (h : heap T) (xs : List T) (p c r : Nat) (sd tl : Slots T)
    (idx start : Nat) (hp : h[p]? = some (some ⟨c, r, xs.map some ++ tl⟩)) (hr : 2 ≤ r)
    (hi : idx < start) (hs : start ≤ xs.length) :
    erase S h ⟨xs.length, false, some p, sd⟩ idx start
      = some (h.set p (some ⟨c, r - 1, xs.map some ++ tl⟩)
            ++ [some ⟨(xs.take idx ++ xs.drop start).length, 1,
              (xs.take idx ++ xs.drop start).map some⟩],
          ⟨(xs.take idx ++ xs.drop start).length, false, some h.length, sd⟩, idx) := by
  have hg : ¬ (start < idx ∨ xs.length < start) := by omega
  have hlen : start - idx ≠ 0 := by omega
  have hplt : p < h.length := by
    rcases List.getElem?_eq_some.1 hp with ⟨hi, _⟩; exact hi
  have hk := length_survivors xs idx start (le_of_lt hi) hs
  have hr1 : 1 < r := by omega
  have hsc := set_capacity_small S h ([] : List T) none (clobbered S)
    (xs.take idx ++ xs.drop start).length
  rw [← default_eq, fresh_buf_nil] at hsc
  have hrf := erase_refill_fresh S h xs (xs.take idx ++ xs.drop start) p c r sd (clobbered S)
    tl idx (start - idx) hp
    (fun i _ => survivors_getElem xs idx start i (le_of_lt hi) hs)
    (xs.take idx ++ xs.drop start).length 0 (by simp)
  simp only [List.take_zero, List.map_nil, List.length_nil, List.nil_append, Nat.sub_zero]
    at hrf
  have hsw := swap_fresh S h xs (xs.take idx ++ xs.drop start) p c r
    (xs.take idx ++ xs.drop start).length sd (clobbered S) tl [] hp (by omega)
  simp only [List.append_nil] at hsw
  have hp2 : (h ++ [some (⟨(xs.take idx ++ xs.drop start).length, 1,
      (xs.take idx ++ xs.drop start).map some⟩ : buffer T)])[p]?
      = some (some ⟨c, r, xs.map some ++ tl⟩) := getElem?_append_some _ _ _ _ hp
  have hlen2 : (h.set p (some (⟨c, r - 1, xs.map some ++ tl⟩ : buffer T))).length
      = h.length := by simp
  have hq : (h.set p (some (⟨c, r - 1, xs.map some ++ tl⟩ : buffer T))
      ++ [some (⟨(xs.take idx ++ xs.drop start).length, 1,
      (xs.take idx ++ xs.drop start).map some⟩ : buffer T)])[h.length]?
      = some (some ⟨(xs.take idx ++ xs.drop start).length, 1,
      (xs.take idx ++ xs.drop start).map some⟩) := getElem?_append_length_eq _ _ _ hlen2
  have ho := own_big _ (xs.take idx ++ xs.drop start).length h.length _ sd _ hq
  have hds := destroy_big_shared S _ xs.length p (clobbered S) _ hp2 hr
  dsimp only at hds
  simp only [erase, size, hg, if_false, hlen, is_shared_big h _ p sd _ hp, Option.some_bind,
    gt_iff_lt, hr1, decide_True, Bool.not_true, Bool.false_eq_true, ← hk, hsc, List.length_nil,
    hrf, hsw, hds,
    set_append_lt _ _ _ _ hplt, data_own S _ _ _ ho]

theorem erase_empty_range (S : Nat) (h : heap T) (v : socow_vector T) (idx : Nat)
    (hi : idx ≤ size v) :
    erase S h v idx idx = (data S h v).bind fun r => some (r.1, r.2, idx) := by
  have hg : ¬ size v < idx := by omega
  simp [erase, hg]

/-- The contract of `erase(first, last)` on a well-formed container. -/
theorem erase_spec (S : Nat) (h : heap T) (v : socow_vector T) (xs : List T) (idx start : Nat)
    (hr : Rep S h v xs) (hi : idx ≤ start) (hs : start ≤ xs.length) :
    ∃ h1 v1, erase S h v idx start = some (h1, v1, idx) ∧
      Rep S h1 v1 (xs.take idx ++ xs.drop start) ∧ Frame h h1 v ∧
      is_shared h1 v1 = some false ∧ v1.is_small = v.is_small := by
  have hk := length_survivors xs idx start hi hs
  rcases v with ⟨m, sm, bf, sd⟩
  cases sm with
  | true =>
    have hr0 := hr
    rw [rep_small_iff] at hr
    obtain ⟨hn, hS, hl, tl, rfl⟩ := hr
    subst hn
    by_cases he : idx = start
    · subst he
      refine ⟨h, ⟨xs.length, true, bf, xs.map some ++ tl⟩,
        by rw [erase_empty_range S h _ idx (by simpa [size] using hs)]; simp [data],
        ?_, frame_refl _ _, is_shared_small _ _ _ _, rfl⟩
      rw [List.take_append_drop]; exact hr0
    · have hlt : idx < start := by omega
      refine ⟨_, _, erase_small_inplace S h xs bf tl idx start hlt hs, ?_, frame_refl _ _,
        is_shared_small _ _ _ _, rfl⟩
      rw [← hk]
      apply rep_small_mk
      · rw [hk]; omega
      · simp only [List.length_append, List.length_map, List.length_replicate] at hl ⊢
        simp only [List.length_take, List.length_drop]
        omega
  | false =>
    have hr0 := hr
    rw [rep_big_iff] at hr
    obtain ⟨hn, hl, p, c, r, tl, rfl, hp, hr1, hcap⟩ := hr
    subst hn
    have hplt : p < h.length := by
      rcases List.getElem?_eq_some.1 hp with ⟨hi, _⟩; exact hi
    have hxc : xs.length ≤ c := by rw [← hcap]; simp
    by_cases hu : r = 1
    · subst hu
      have ho := own_big h xs.length p c sd _ hp
      by_cases he : idx = start
      · subst he
        refine ⟨h, ⟨xs.length, false, some p, sd⟩, by
            rw [erase_empty_range S h _ idx (by simpa [size] using hs), data_own S _ _ _ ho]
            rfl, ?_, frame_refl _ _, ?_, rfl⟩
        · rw [List.take_append_drop]; exact hr0
        · rw [is_shared_big _ _ _ _ _ hp]; simp
      · have hlt : idx < start := by omega
        have hp2 : (h.set p (some (⟨c, 1, (xs.take idx ++ xs.drop start).map some
            ++ (List.replicate (start - idx) none ++ tl)⟩ : buffer T)))[p]?
            = some (some ⟨c, 1, (xs.take idx ++ xs.drop start).map some
            ++ (List.replicate (start - idx) none ++ tl)⟩) := by
          simp [List.getElem?_set, hplt]
        refine ⟨_, _, erase_big_inplace S h xs p c sd tl idx start hp hlt hs, ?_,
          frame_set_unique h _ p sd _ _ hp rfl, ?_, rfl⟩
        · rw [rep_big_iff]
          refine ⟨hk.symm, hl, p, c, 1, _, rfl, hp2, le_refl _, ?_⟩
          simp only [List.length_append, List.length_map, List.length_replicate] at hcap ⊢
          simp only [List.length_take, List.length_drop]
          omega
        · rw [is_shared_big _ _ _ _ _ hp2]; simp
    · have hr2 : 2 ≤ r := by omega
      have hfr : Frame h (h.set p (some ⟨c, r - 1, xs.map some ++ tl⟩)
          ++ [some (fresh_buf c xs)]) ⟨xs.length, false, some p, sd⟩ := by
        have := frame_released h [some (fresh_buf c xs)] xs.length p sd _ hp
        simpa [released, hu] using this
      have hlen2 : (h.set p (some (⟨c, r - 1, xs.map some ++ tl⟩ : buffer T))).length
          = h.length := by simp
      by_cases he : idx = start
      · subst he
        refine ⟨h.set p (some ⟨c, r - 1, xs.map some ++ tl⟩) ++ [some (fresh_buf c xs)],
          ⟨xs.length, false, some h.length, sd⟩, by
            rw [erase_empty_range S h _ idx (by simpa [size] using hs),
              data_big_shared S h xs p c r sd tl hp hr2]
            rfl, ?_, hfr, ?_, rfl⟩
        · rw [List.take_append_drop, rep_big_iff]
          refine ⟨rfl, hl, h.length, c, 1, List.replicate (c - xs.length) none, rfl, ?_,
            le_refl _, ?_⟩
          · rw [getElem?_append_length_eq _ _ _ hlen2]
            simp [fresh_buf, List.take_of_length_le hxc]
          · simp; omega
        · exact is_shared_big _ _ _ _ _ (getElem?_append_length_eq _ _ _ hlen2)
      · have hlt : idx < start := by omega
        have hfr2 : Frame h (h.set p (some ⟨c, r - 1, xs.map some ++ tl⟩)
            ++ [some ⟨(xs.take idx ++ xs.drop start).length, 1,
              (xs.take idx ++ xs.drop start).map some⟩]) ⟨xs.length, false, some p, sd⟩ := by
          have := frame_released h [some ⟨(xs.take idx ++ xs.drop start).length, 1,
              (xs.take idx ++ xs.drop start).map some⟩] xs.length p sd _ hp
          simpa [released, hu] using this
        refine ⟨_, _, erase_shared S h xs p c r sd tl idx start hp hr2 hlt hs, ?_, hfr2,
          is_shared_big _ _ _ _ _ (getElem?_append_length_eq _ _ _ hlen2), rfl⟩
        rw [rep_big_iff]
        exact ⟨rfl, hl, h.length, (xs.take idx ++ xs.drop start).length, 1, [], rfl,
          by rw [getElem?_append_length_eq _ _ _ hlen2, List.append_nil], le_refl _,
          by rw [List.append_nil, List.length_map]⟩

/-! ## push_back, pop_back, clear and element writes -/

theorem push_back_spec (S : Nat) (h : heap T) (v : socow_vector T) (xs : List T) (x : T)
    (hr : Rep S h v xs)
    (hok : ¬ (xs.length = 0 ∧ is_shared h v = some true ∧ capacity S h v ≠ some 0)) :
    ∃ h1 v1, push_back S h v x = some (h1, v1) ∧ Rep S h1 v1 (xs ++ [x]) ∧ Frame h h1 v ∧
      is_shared h1 v1 = some false ∧
      v1.is_small = (v.is_small && decide (xs.length < S)) := by
  have hs := rep_size S h v xs hr
  obtain ⟨h1, v1, e, hr1, hf, hs1, hm⟩ := insert_spec S h v xs xs.length x hr (le_refl _) hok
  refine ⟨h1, v1, by simp [push_back, size, hs, e], ?_, hf, hs1, hm⟩
  simpa using hr1

theorem push_all_spec (S : Nat) : ∀ (vs : List T) (h : heap T) (v : socow_vector T)
    (xs : List T), Rep S h v xs → is_shared h v = some false →
    ∃ h1 v1, push_all S vs h v = some (h1, v1) ∧ Rep S h1 v1 (xs ++ vs) ∧
      is_shared h1 v1 = some false := by
  intro vs
  induction vs with
  | nil => intro h v xs hr hs; exact ⟨h, v, rfl, by simpa using hr, hs⟩
  | cons x vs ih =>
    intro h v xs hr hs
    obtain ⟨h1, v1, e, hr1, -, hs1, -⟩ := push_back_spec S h v xs x hr
      (by rintro ⟨-, h2, -⟩; rw [hs] at h2; cases h2)
    obtain ⟨h2, v2, e2, hr2, hs2⟩ := ih h1 v1 (xs ++ [x]) hr1 hs1
    exact ⟨h2, v2, by simp [push_all, e, e2], by simpa using hr2, hs2⟩

theorem rep_default (S : Nat) (h : heap T) :
    Rep S h (socow_vector.default S : socow_vector T) [] := by
  rw [default_eq]
  exact rep_small_mk S h none [] (clobbered S) (Nat.zero_le _) (by simp [clobbered])

theorem pop_back_spec (S : Nat) (h : heap T) (v : socow_vector T) (xs : List T)
    (hr : Rep S h v xs) (hne : xs ≠ []) :
    ∃ h1 v1, pop_back S h v = some (h1, v1) ∧ Rep S h1 v1 xs.dropLast ∧ Frame h h1 v ∧
      is_shared h1 v1 = some false ∧ v1.is_small = v.is_small := by
  have hs := rep_size S h v xs hr
  have hpos : 0 < xs.length := List.length_pos.2 hne
  obtain ⟨h1, v1, e, hr1, hf, hs1, hm⟩ := erase_spec S h v xs (xs.length - 1)
    (xs.length - 1 + 1) hr (by omega) (by omega)
  have hn0 : size v ≠ 0 := by simp [size, hs, hne]
  refine ⟨h1, v1, by simp [pop_back, erase_at, size, hs, e, hne], ?_, hf, hs1, hm⟩
  have hd : xs.drop (xs.length - 1 + 1) = [] := List.drop_of_length_le (by omega)
  rw [hd, List.append_nil] at hr1
  rw [List.dropLast_eq_take]
  exact hr1

theorem destructive_clear_big (S : Nat) (h : heap T) (xs : List T) (p c : Nat) (sd tl : Slots T)
    (hp : h[p]? = some (some ⟨c, 1, xs.map some ++ tl⟩)) :
    destructive_clear S h ⟨xs.length, false, some p, sd⟩
      = some (h.set p (some ⟨c, 1, List.replicate xs.length none ++ tl⟩),
          ⟨xs.length, false, some p, sd⟩) := by
  have ho := own_big h xs.length p c sd _ hp
  have hdn := destroy_n_app xs [] tl
  simp only [List.nil_append, List.length_nil] at hdn
  simp [destructive_clear, data_own S _ _ _ ho, ho.2, size, hdn, set_data,
    (deref_eq_some h p _).2 hp]

theorem clear_spec (S : Nat) (h : heap T) (v : socow_vector T) (xs : List T)
    (hr : Rep S h v xs) :
    ∃ h1 v1, clear S h v = some (h1, v1) ∧ Frame h h1 v ∧ size v1 = 0 ∧
      v1.is_small = v.is_small ∧ (is_shared h v = some false → Rep S h1 v1 []) := by
  rcases v with ⟨m, sm, bf, sd⟩
  cases sm with
  | true =>
    rw [rep_small_iff] at hr
    obtain ⟨hn, hS, hl, tl, rfl⟩ := hr
    subst hn
    refine ⟨h, ⟨0, true, bf, List.replicate xs.length none ++ tl⟩,
      by simp [clear, is_shared, destructive_clear_small], frame_refl _ _, rfl, rfl, ?_⟩
    intro _
    rw [rep_small_iff]
    exact ⟨rfl, Nat.zero_le _, by simpa using hl, List.replicate xs.length none ++ tl,
      by simp⟩
  | false =>
    rw [rep_big_iff] at hr
    obtain ⟨hn, hl, p, c, r, tl, rfl, hp, hr1, hcap⟩ := hr
    subst hn
    have hplt : p < h.length := by
      rcases List.getElem?_eq_some.1 hp with ⟨hi, _⟩; exact hi
    by_cases hu : r = 1
    · subst hu
      have hp2 : (h.set p (some (⟨c, 1, List.replicate xs.length none ++ tl⟩ : buffer T)))[p]?
          = some (some ⟨c, 1, List.replicate xs.length none ++ tl⟩) := by
        simp [List.getElem?_set, hplt]
      refine ⟨h.set p (some ⟨c, 1, List.replicate xs.length none ++ tl⟩),
        ⟨0, false, some p, sd⟩,
        by simp [clear, is_shared_big h _ p sd _ hp, destructive_clear_big S h xs p c sd tl hp],
        frame_set_unique h _ p sd _ _ hp rfl, rfl, rfl, ?_⟩
      intro _
      rw [rep_big_iff]
      exact ⟨rfl, hl, p, c, 1, _, rfl, by simpa using hp2, le_refl _, by simpa using hcap⟩
    · have hr2 : 2 ≤ r := by omega
      have h1r : 1 < r := by omega
      refine ⟨h.set p (some ⟨c, r - 1, xs.map some ++ tl⟩), ⟨0, false, none, sd⟩,
        by simp [clear, is_shared_big h _ p sd _ hp, h1r,
          release_ref_shared h xs.length p sd _ hp hr2],
        ?_, rfl, rfl, ?_⟩
      · have := frame_released_nil h xs.length p sd _ hp
        simpa [released, hu] using this
      · intro hsh
        rw [is_shared_big h _ p sd _ hp] at hsh
        simp at hsh
        omega

theorem set_live (xs : List T) (tl : Slots T) (i : Nat) (x : T) (hi : i < xs.length) :
    (slot_read (xs.map some ++ tl) i).bind (fun _ => some ((xs.map some ++ tl).set i (some x)))
      = some ((xs.set i x).map some ++ tl) := by
  have h1 : (xs.map some ++ tl)[i]? = some (some xs[i]) := by
    rw [List.getElem?_append_left (by simpa using hi)]
    simp [List.getElem?_eq_getElem hi]
  rw [(slot_read_eq_some _ _ _).2 h1]
  simp [List.set_append, hi, List.map_set]

theorem write_index_spec (S : Nat) (h : heap T) (v : socow_vector T) (xs : List T) (i : Nat)
    (x : T) (hr : Rep S h v xs) (hi : i < xs.length) :
    ∃ h1 v1, write_index S h v i x = some (h1, v1) ∧ Rep S h1 v1 (xs.set i x) ∧
      Frame h h1 v ∧ is_shared h1 v1 = some false ∧ v1.is_small = v.is_small := by
  have hls : (xs.set i x).length = xs.length := by simp
  rcases v with ⟨m, sm, bf, sd⟩
  cases sm with
  | true =>
    rw [rep_small_iff] at hr
    obtain ⟨hn, hS, hl, tl, rfl⟩ := hr
    subst hn
    have ho := own_small h xs.length bf (xs.map some ++ tl)
    refine ⟨h, ⟨xs.length, true, bf, (xs.set i x).map some ++ tl⟩, ?_, ?_, frame_refl _ _,
      is_shared_small _ _ _ _, rfl⟩
    · simp only [write_index, with_data_own S h _ _ _ ho, set_live xs tl i x hi,
        Option.some_bind, set_data, if_true]
    · rw [rep_small_iff]
      exact ⟨hls.symm, by omega, by simpa using hl, tl, rfl⟩
  | false =>
    rw [rep_big_iff] at hr
    obtain ⟨hn, hl, p, c, r, tl, rfl, hp, hr1, hcap⟩ := hr
    subst hn
    have hplt : p < h.length := by
      rcases List.getElem?_eq_some.1 hp with ⟨hi, _⟩; exact hi
    have hxc : xs.length ≤ c := by rw [← hcap]; simp
    by_cases hu : r = 1
    · subst hu
      have ho := own_big h xs.length p c sd _ hp
      have hp2 : (h.set p (some (⟨c, 1, (xs.set i x).map some ++ tl⟩ : buffer T)))[p]?
          = some (some ⟨c, 1, (xs.set i x).map some ++ tl⟩) := by
        simp [List.getElem?_set, hplt]
      refine ⟨h.set p (some ⟨c, 1, (xs.set i x).map some ++ tl⟩),
        ⟨xs.length, false, some p, sd⟩, ?_, ?_, frame_set_unique h _ p sd _ _ hp rfl, ?_, rfl⟩
      · simp only [write_index, with_data_own S h _ _ _ ho, set_live xs tl i x hi,
          Option.some_bind, set_data, Bool.false_eq_true, if_false,
          (deref_eq_some h p _).2 hp]
      · rw [rep_big_iff]
        exact ⟨hls.symm, hl, p, c, 1, tl, rfl, hp2, le_refl _, by simpa using hcap⟩
      · rw [is_shared_big _ _ _ _ _ hp2]; simp
    · have hr2 : 2 ≤ r := by omega
      have hlen2 : (h.set p (some (⟨c, r - 1, xs.map some ++ tl⟩ : buffer T))).length
          = h.length := by simp
      have hfb : fresh_buf c xs = ⟨c, 1, xs.map some ++ List.replicate (c - xs.length) none⟩ := by
        simp [fresh_buf, List.take_of_length_le hxc]
      have hq : (h.set p (some (⟨c, r - 1, xs.map some ++ tl⟩ : buffer T))
          ++ [some (⟨c, 1, xs.map some ++ List.replicate (c - xs.length) none⟩ : buffer T)])[h.length]?
          = some (some ⟨c, 1, xs.map some ++ List.replicate (c - xs.length) none⟩) :=
        getElem?_append_length_eq _ _ _ hlen2
      have hq2 : (h.set p (some (⟨c, r - 1, xs.map some ++ tl⟩ : buffer T))
          ++ [some (⟨c, 1, (xs.set i x).map some ++ List.replicate (c - xs.length) none⟩
            : buffer T)])[h.length]?
          = some (some ⟨c, 1, (xs.set i x).map some ++ List.replicate (c - xs.length) none⟩) :=
        getElem?_append_length_eq _ _ _ hlen2
      refine ⟨h.set p (some ⟨c, r - 1, xs.map some ++ tl⟩)
          ++ [some ⟨c, 1, (xs.set i x).map some ++ List.replicate (c - xs.length) none⟩],
        ⟨xs.length, false, some h.length, sd⟩, ?_, ?_, ?_, ?_, rfl⟩
      · simp only [write_index, with_data, data_big_shared S h xs p c r sd tl hp hr2, hfb,
          Option.some_bind, cdata, Bool.false_eq_true, if_false, (deref_eq_some _ _ _).2 hq,
          Option.map_some', set_live xs _ i x hi, set_data,
          set_append_length_eq _ _ _ _ hlen2]
      · rw [rep_big_iff]
        refine ⟨hls.symm, hl, h.length, c, 1, _, rfl, hq2, le_refl _, ?_⟩
        simp; omega
      · have := frame_released h
          [some ⟨c, 1, (xs.set i x).map some ++ List.replicate (c - xs.length) none⟩]
          xs.length p sd _ hp
        simpa [released, hu] using this
      · rw [is_shared_big _ _ _ _ _ hq2]; simp

/-! ## Every mutating operation -/

theorem overflows_iff (S : Nat) (h : heap T) (v : socow_vector T) (xs : List T)
    (hr : Rep S h v xs) :
    overflows S h v = true ↔
      (xs.length = 0 ∧ is_shared h v = some true ∧ capacity S h v ≠ some 0) := by
  have hs := rep_size S h v xs hr
  simp [overflows, size, hs, and_assoc]

/-- Every mutating operation with valid arguments on a well-formed container respects
the frame, and it returns unless it is an insertion in the overflowing configuration. -/
theorem mutation_spec (S : Nat) (h : heap T) (v : socow_vector T) (xs : List T)
    (op : Mutation T) (hr : Rep S h v xs) (hv : op.valid xs.length = true) :
    (∀ h1 v1, op.run S h v = some (h1, v1) → Frame h h1 v) ∧
    (¬ (op.grows = true ∧ overflows S h v = true) → ∃ h1 v1, op.run S h v = some (h1, v1)) := by
  have hov := overflows_iff S h v xs hr
  have key : ∀ (r : Option (heap T × socow_vector T)),
      (∃ h1 v1, r = some (h1, v1) ∧ Frame h h1 v) →
      (∀ h1 v1, r = some (h1, v1) → Frame h h1 v) ∧
      (∃ h1 v1, r = some (h1, v1)) := by
    rintro r ⟨h1, v1, e, hf⟩
    refine ⟨?_, h1, v1, e⟩
    intro h2 v2 e2
    rw [e] at e2
    cases e2
    exact hf
  cases op with
  | push_back x =>
    by_cases hb : overflows S h v = true
    · have hb2 := hov.1 hb
      have hnil : xs = [] := List.length_eq_zero.1 hb2.1
      subst hnil
      cases hc : capacity S h v with
      | none => exact absurd hc (by
          obtain ⟨_, _, c, _, e, _⟩ := reserve_spec S h v [] 0 hr
          rw [e]; simp)
      | some c =>
        have hc0 : c ≠ 0 := by
          intro h0; apply hb2.2.2; rw [hc, h0]
        have e := insert_overflow S h v x hr hb2.2.1 c hc hc0
        have hs := rep_size S h v [] hr
        refine ⟨?_, fun hn => absurd ⟨rfl, hb⟩ hn⟩
        intro h1 v1 e1
        simp [Mutation.run, push_back, size, hs, e] at e1
    · obtain ⟨h1, v1, e, -, hf, -, -⟩ := push_back_spec S h v xs x hr
        (fun hh => hb (hov.2 hh))
      have := key (Mutation.run S h v (Mutation.push_back x)) ⟨h1, v1, e, hf⟩
      exact ⟨this.1, fun _ => this.2⟩
  | insert i x =>
    have hi : i ≤ xs.length := by simpa [Mutation.valid] using hv
    by_cases hb : overflows S h v = true
    · have hb2 := hov.1 hb
      have hnil : xs = [] := List.length_eq_zero.1 hb2.1
      subst hnil
      have hi0 : i = 0 := by simpa using hi
      subst hi0
      cases hc : capacity S h v with
      | none => exact absurd hc (by
          obtain ⟨_, _, c, _, e, _⟩ := reserve_spec S h v [] 0 hr
          rw [e]; simp)
      | some c =>
        have hc0 : c ≠ 0 := by
          intro h0; apply hb2.2.2; rw [hc, h0]
        have e := insert_overflow S h v x hr hb2.2.1 c hc hc0
        refine ⟨?_, fun hn => absurd ⟨rfl, hb⟩ hn⟩
        intro h1 v1 e1
        simp [Mutation.run, e] at e1
    · obtain ⟨h1, v1, e, -, hf, -, -⟩ := insert_spec S h v xs i x hr hi
        (fun hh => hb (hov.2 hh))
      have := key (Mutation.run S h v (Mutation.insert i x))
        ⟨h1, v1, by simp [Mutation.run, e], hf⟩
      exact ⟨this.1, fun _ => this.2⟩
  | erase f l =>
    have hfl : f ≤ l ∧ l ≤ xs.length := by simpa [Mutation.valid] using hv
    obtain ⟨h1, v1, e, -, hf, -, -⟩ := erase_spec S h v xs f l hr hfl.1 hfl.2
    have := key (Mutation.run S h v (Mutation.erase f l))
      ⟨h1, v1, by simp [Mutation.run, e], hf⟩
    exact ⟨this.1, fun _ => this.2⟩
  | pop_back =>
    have hne : xs ≠ [] := by
      intro h0; subst h0; simp [Mutation.valid] at hv
    obtain ⟨h1, v1, e, -, hf, -, -⟩ := pop_back_spec S h v xs hr hne
    have := key (Mutation.run S h v Mutation.pop_back) ⟨h1, v1, e, hf⟩
    exact ⟨this.1, fun _ => this.2⟩
  | clear =>
    obtain ⟨h1, v1, e, hf, -, -, -⟩ := clear_spec S h v xs hr
    have := key (Mutation.run S h v Mutation.clear) ⟨h1, v1, e, hf⟩
    exact ⟨this.1, fun _ => this.2⟩
  | reserve n =>
    obtain ⟨h1, v1, _, _, -, e, -, -, hf, -⟩ := reserve_spec S h v xs n hr
    have := key (Mutation.run S h v (Mutation.reserve n)) ⟨h1, v1, e, hf⟩
    exact ⟨this.1, fun _ => this.2⟩
  | shrink_to_fit =>
    obtain ⟨h1, v1, _, _, -, e, -, -, hf, -⟩ := shrink_to_fit_spec S h v xs hr
    have := key (Mutation.run S h v Mutation.shrink_to_fit) ⟨h1, v1, e, hf⟩
    exact ⟨this.1, fun _ => this.2⟩
  | write i x =>
    have hi : i < xs.length := by simpa [Mutation.valid] using hv
    obtain ⟨h1, v1, e, -, hf, -, -⟩ := write_index_spec S h v xs i x hr hi
    have := key (Mutation.run S h v (Mutation.write i x)) ⟨h1, v1, e, hf⟩
    exact ⟨this.1, fun _ => this.2⟩

/-- Outside the overflowing configuration, `insert(pos, v)` followed by `erase` of the
element at `pos` returns and restores the element sequence. -/
theorem insert_erase_spec (S : Nat) (h : heap T) (v : socow_vector T) (xs : List T) (idx : Nat)
    (x : T) (hr : Rep S h v xs) (hi : idx ≤ xs.length) (hok : overflows S h v = false) :
    ∃ h1 v1 h2 v2, insert S h v idx x = some (h1, v1, idx) ∧
      erase_at S h1 v1 idx = some (h2, v2, idx) ∧ Rep S h2 v2 xs := by
  have hov := overflows_iff S h v xs hr
  obtain ⟨h1, v1, e1, hr1, -, -, -⟩ := insert_spec S h v xs idx x hr hi
    (fun hh => by rw [hov.2 hh] at hok; cases hok)
  have hlen := length_insert xs idx x hi
  obtain ⟨h2, v2, e2, hr2, -, -, -⟩ := erase_spec S h1 v1 _ idx (idx + 1) hr1 (by omega)
    (by omega)
  refine ⟨h1, v1, h2, v2, e1, e2, ?_⟩
  have hl : (xs.take idx).length = idx := by simp [hi]
  have e3 : (xs.take idx ++ x :: xs.drop idx).take idx = xs.take idx := by
    rw [List.take_append_of_le_length (by omega)]
    rw [List.take_of_length_le (by omega)]
  have e4 : (xs.take idx ++ x :: xs.drop idx).drop (idx + 1) = xs.drop idx := by
    have : idx + 1 = (xs.take idx).length + 1 := by omega
    rw [this, List.drop_append]
    rfl
  rw [e3, e4, List.take_append_drop] at hr2
  exact hr2

/-! # The claims on copying, insert, erase and push_back -/

/-- Copy-on-write isolation wherever the operation returns: let `b` become a copy of `a`
(`b = a`), both well formed, `a` holding `xs`.  Then `b` has the size and elements of `a`,
and for every mutating operation with valid arguments (`push_back`, `insert`, `erase`,
`pop_back`, `clear`, `reserve`, `shrink_to_fit`, an element write): whenever the operation
on `a` returns, `b` still holds `xs`, and whenever the operation on `b` returns, `a` still
holds `xs`.  The operation does return, except an insertion into an empty container that
shares a buffer of non-zero capacity; there it faults, see `copy_then_push_back_faults`. -/
theorem copy_on_write_frame (S : Nat) (h : heap T) (a b0 : socow_vector T) (op : Mutation T)
    (ha : wf S h a = true) (hb : wf S h b0 = true) (hc : counted h b0 a = true) :
    ∃ h1 b xs, assign S h b0 a false = some (h1, b) ∧ size b = size a ∧
      elems h a = some xs ∧ elems h1 a = some xs ∧ elems h1 b = some xs ∧
      (op.valid xs.length = true →
        (∀ h2 a2, op.run S h1 a = some (h2, a2) → elems h2 b = some xs) ∧
        (∀ h2 b2, op.run S h1 b = some (h2, b2) → elems h2 a = some xs) ∧
        (¬ (op.grows = true ∧ overflows S h1 a = true) →
          ∃ h2 a2, op.run S h1 a = some (h2, a2)) ∧
        (¬ (op.grows = true ∧ overflows S h1 b = true) →
          ∃ h2 b2, op.run S h1 b = some (h2, b2))) := by
  obtain ⟨xs, hra⟩ := rep_of_wf S h a ha
  obtain ⟨ys, hrb⟩ := rep_of_wf S h b0 hb
  obtain ⟨h1, b, e, hb1, ha1, -, hc1⟩ := assign_spec S h b0 a ys xs hrb hra hc
  have hsa := rep_size S h1 a xs ha1
  have hsb := rep_size S h1 b xs hb1
  refine ⟨h1, b, xs, e, by simp [size, hsa, hsb], hra.2, ha1.2, hb1.2, ?_⟩
  intro hv
  obtain ⟨fa, ta⟩ := mutation_spec S h1 a xs op ha1 hv
  obtain ⟨fb, tb⟩ := mutation_spec S h1 b xs op hb1 hv
  refine ⟨?_, ?_, ta, tb⟩
  · intro h2 a2 e2
    exact (rep_frame S h1 h2 a b xs (fa h2 a2 e2) (counted_symm h1 b a hc1) hb1).2
  · intro h2 b2 e2
    exact (rep_frame S h1 h2 b a xs (fb h2 b2 e2) hc1 ha1).2

/-- An instance of `copy_on_write_frame`, the scenario of the specification:
`SMALL_SIZE = 4`, `a = [0,1,2,3,4]`, `b = a`, `a.pop_back()` gives `a = [0,1,2,3]` and
`b = [0,1,2,3,4]`. -/
theorem copy_on_write_frame_witness :
    (wf 4 demo_store demo_vec = true ∧ wf 4 demo_store (socow_vector.default 4) = true ∧
      counted demo_store (socow_vector.default 4) demo_vec = true) ∧
    ((assign 4 demo_store (socow_vector.default 4) demo_vec false).bind fun s =>
      (pop_back 4 s.1 demo_vec).bind fun r =>
      some (elems r.1 r.2, elems r.1 s.2)) = some (some [0, 1, 2, 3], some [0, 1, 2, 3, 4]) ∧
    ∃ h1 b xs, assign 4 demo_store (socow_vector.default 4) demo_vec false = some (h1, b) ∧
      size b = size demo_vec ∧
      elems demo_store demo_vec = some xs ∧ elems h1 demo_vec = some xs ∧
      elems h1 b = some xs ∧
      ((Mutation.pop_back : Mutation Nat).valid xs.length = true →
        (∀ h2 a2, (Mutation.pop_back : Mutation Nat).run 4 h1 demo_vec = some (h2, a2) →
          elems h2 b = some xs) ∧
        (∀ h2 b2, (Mutation.pop_back : Mutation Nat).run 4 h1 b = some (h2, b2) →
          elems h2 demo_vec = some xs) ∧
        (¬ ((Mutation.pop_back : Mutation Nat).grows = true ∧ overflows 4 h1 demo_vec = true) →
          ∃ h2 a2, (Mutation.pop_back : Mutation Nat).run 4 h1 demo_vec = some (h2, a2)) ∧
        (¬ ((Mutation.pop_back : Mutation Nat).grows = true ∧ overflows 4 h1 b = true) →
          ∃ h2 b2, (Mutation.pop_back : Mutation Nat).run 4 h1 b = some (h2, b2))) :=
  ⟨by decide, by decide,
    copy_on_write_frame 4 demo_store demo_vec (socow_vector.default 4) Mutation.pop_back
      (by decide) (by decide) (by decide)⟩

/-- C1, the failing input: with `SMALL_SIZE = 4`, `a.reserve(5)` on an empty container `a`,
`b = a` for an empty container `b`, then `a.push_back(7)` (or, instead, `b.push_back(7)`).
After the assignment both containers are well formed and empty and share one buffer of
capacity 5, and `push_back` is within its precondition.  On either container it faults:
`insert` takes the growing branch because the buffer is shared, asks for a replacement
buffer of capacity `size() * 2 = 0` and constructs the value past its end.  The mutation
has no defined result, so nothing holds of the other container afterwards. -/
theorem copy_then_push_back_faults :
    ((reserve 4 [] (socow_vector.default 4 : socow_vector Nat) 5).bind fun s =>
      (assign 4 s.1 (socow_vector.default 4) s.2 false).bind fun c =>
      some (wf 4 c.1 s.2 && wf 4 c.1 c.2, elems c.1 s.2, elems c.1 c.2))
      = some (true, some [], some []) ∧
    ((reserve 4 [] (socow_vector.default 4 : socow_vector Nat) 5).bind fun s =>
      (assign 4 s.1 (socow_vector.default 4) s.2 false).bind fun c =>
      some (is_shared c.1 s.2, capacity 4 c.1 s.2,
        (Mutation.push_back 7 : Mutation Nat).valid 0))
      = some (some true, some 5, true) ∧
    ((reserve 4 [] (socow_vector.default 4 : socow_vector Nat) 5).bind fun s =>
      (assign 4 s.1 (socow_vector.default 4) s.2 false).bind fun c =>
      some (((Mutation.push_back 7 : Mutation Nat).run 4 c.1 s.2).isNone,
        ((Mutation.push_back 7 : Mutation Nat).run 4 c.1 c.2).isNone))
      = some (true, true) := by
  refine ⟨by decide, by decide, by decide⟩

/-- C2: for two distinct well-formed containers `a` and `b` (a buffer they both address
being counted at least twice), `a = b` returns; afterwards `a.size() == b.size()`, `a` has
the element sequence of `b` and the mode `b` had, both are well formed, and the elements
of `b` are unchanged.  The self-assignment `a = a` changes nothing. -/
theorem copy_assignment_postcondition (S : Nat) (h : heap T) (a b : socow_vector T)
    (ha : wf S h a = true) (hb : wf S h b = true) (hc : counted h a b = true) :
    (∃ h1 a1 ys, assign S h a b false = some (h1, a1) ∧ size a1 = size b ∧
      elems h b = some ys ∧ elems h1 a1 = some ys ∧ elems h1 b = some ys ∧
      a1.is_small = b.is_small ∧ wf S h1 a1 = true ∧ wf S h1 b = true) ∧
    assign S h a a true = some (h, a) := by
  obtain ⟨xs, hra⟩ := rep_of_wf S h a ha
  obtain ⟨ys, hrb⟩ := rep_of_wf S h b hb
  obtain ⟨h1, a1, e, ha1, hb1, hm, -⟩ := assign_spec S h a b xs ys hra hrb hc
  have hsa := rep_size S h1 a1 ys ha1
  have hsb := rep_size S h1 b ys hb1
  refine ⟨⟨h1, a1, ys, e, by simp [size, hsa, hsb], hrb.2, ha1.2, hb1.2, hm, ha1.1, hb1.1⟩, ?_⟩
  cases a
  simp [assign, size]

/-- Witness for `copy_assignment_postcondition`: a Shared container with five elements
is assigned to an Inline container with two. -/
theorem copy_assignment_postcondition_witness :
    (wf 4 demo_store (⟨2, true, none, [some 7, some 8, none, none]⟩ : socow_vector Nat) = true ∧
      wf 4 demo_store demo_vec = true ∧
      counted demo_store (⟨2, true, none, [some 7, some 8, none, none]⟩ : socow_vector Nat)
        demo_vec = true) ∧
    (∃ h1 a1 ys,
      assign 4 demo_store (⟨2, true, none, [some 7, some 8, none, none]⟩ : socow_vector Nat)
        demo_vec false = some (h1, a1) ∧ size a1 = size demo_vec ∧
      elems demo_store demo_vec = some ys ∧ elems h1 a1 = some ys ∧
      elems h1 demo_vec = some ys ∧
      a1.is_small = demo_vec.is_small ∧ wf 4 h1 a1 = true ∧ wf 4 h1 demo_vec = true) ∧
    assign 4 demo_store (⟨2, true, none, [some 7, some 8, none, none]⟩ : socow_vector Nat)
      (⟨2, true, none, [some 7, some 8, none, none]⟩ : socow_vector Nat) true
      = some (demo_store, (⟨2, true, none, [some 7, some 8, none, none]⟩ : socow_vector Nat)) :=
  ⟨by decide, copy_assignment_postcondition 4 demo_store _ demo_vec (by decide) (by decide)
    (by decide)⟩

/-- C3, the failing input: with `SMALL_SIZE = 4`, `a.reserve(5)` on an empty container,
a copy `b` of `a`, then `a.insert(std::as_const(a).begin(), 7)`: the position is taken
through the const `begin()`, which leaves the buffer shared, as `push_back` does with
`std::as_const(*this).end()`.  Both containers are well formed and empty and share a buffer
of capacity 5; `insert` asks for a replacement buffer of capacity `size() * 2 = 0` and
constructs the new element past its end, a fault.  (With the position taken through the
non-const `begin()` the buffer is unshared by `data()` before `insert` is entered, and
`insert` then works in place and gives `[7]`: the second component.) -/
theorem insert_faults_on_empty_shared :
    ((reserve 4 [] (socow_vector.default 4 : socow_vector Nat) 5).bind fun s =>
      (copy_construct 4 s.1 s.2).bind fun c =>
      some ((wf 4 c.1 s.2, wf 4 c.1 c.2, elems c.1 s.2),
        (is_shared c.1 s.2, capacity 4 c.1 s.2, (insert 4 c.1 s.2 0 7).isNone)))
      = some ((true, true, some []), (some true, some 5, true)) ∧
    ((reserve 4 [] (socow_vector.default 4 : socow_vector Nat) 5).bind fun s =>
      (copy_construct 4 s.1 s.2).bind fun c =>
      (data 4 c.1 s.2).bind fun d =>
      (insert 4 d.1 d.2 0 7).bind fun r =>
      some (is_shared d.1 d.2, elems r.1 r.2.1, elems r.1 c.2, r.2.2))
      = some (some false, some [7], some [], 0) := by
  refine ⟨by decide, by decide⟩

/-- C4: for every well-formed container holding `xs` and every range
`first ≤ last ≤ size()`, `erase(first, last)` returns the index `first`; afterwards the
element sequence is `xs[0..first) ++ xs[last..size)`, `size()` has decreased by
`last - first` and the container is well formed.  On a non-empty container `pop_back()`
returns and leaves `xs` without its last element. -/
theorem erase_correct (S : Nat) (h : heap T) (v : socow_vector T) (xs : List T)
    (first last : Nat) (hw : wf S h v = true) (he : elems h v = some xs)
    (hfl : first ≤ last) (hl : last ≤ size v) :
    (∃ h1 v1, erase S h v first last = some (h1, v1, first) ∧
      elems h1 v1 = some (xs.take first ++ xs.drop last) ∧
      size v1 = size v - (last - first) ∧ wf S h1 v1 = true) ∧
    (size v ≠ 0 → ∃ h1 v1, pop_back S h v = some (h1, v1) ∧
      elems h1 v1 = some xs.dropLast ∧ size v1 = size v - 1 ∧ wf S h1 v1 = true) := by
  have hr : Rep S h v xs := ⟨hw, he⟩
  have hs := rep_size S h v xs hr
  constructor
  · obtain ⟨h1, v1, e, hr1, -, -, -⟩ := erase_spec S h v xs first last hr hfl
      (by simpa [size, hs] using hl)
    have hs1 := rep_size S h1 v1 _ hr1
    refine ⟨h1, v1, e, hr1.2, ?_, hr1.1⟩
    rw [size, hs1, size, hs, length_survivors xs first last hfl (by simpa [size, hs] using hl)]
  · intro hne
    have hne2 : xs ≠ [] := by
      intro h0; subst h0; simp [size, hs] at hne
    obtain ⟨h1, v1, e, hr1, -, -, -⟩ := pop_back_spec S h v xs hr hne2
    have hs1 := rep_size S h1 v1 _ hr1
    refine ⟨h1, v1, e, hr1.2, ?_, hr1.1⟩
    rw [size, hs1, size, hs, List.length_dropLast]

/-- Witness for `erase_correct`: `erase(1, 3)` on `[0,1,2,3,4]`. -/
theorem erase_correct_witness :
    (wf 4 demo_store demo_vec = true ∧ elems demo_store demo_vec = some [0, 1, 2, 3, 4] ∧
      1 ≤ 3 ∧ 3 ≤ size demo_vec) ∧
    (∃ h1 v1, erase 4 demo_store demo_vec 1 3 = some (h1, v1, 1) ∧
      elems h1 v1 = some (([0, 1, 2, 3, 4] : List Nat).take 1 ++ ([0, 1, 2, 3, 4] : List Nat).drop 3) ∧
      size v1 = size demo_vec - (3 - 1) ∧ wf 4 h1 v1 = true) ∧
    (size demo_vec ≠ 0 → ∃ h1 v1, pop_back 4 demo_store demo_vec = some (h1, v1) ∧
      elems h1 v1 = some ([0, 1, 2, 3, 4] : List Nat).dropLast ∧
      size v1 = size demo_vec - 1 ∧ wf 4 h1 v1 = true) :=
  ⟨by decide, erase_correct 4 demo_store demo_vec [0, 1, 2, 3, 4] 1 3 (by decide) (by decide)
    (by decide) (by decide)⟩

/-- C5: for every `SMALL_SIZE`, every store and every list of values, pushing the values
in order onto a default-constructed container returns a well-formed container whose
`size()` is the number of values and whose element sequence is the list itself. -/
theorem push_back_sequence (S : Nat) (h : heap T) (vs : List T) :
    ∃ h1 v1, push_all S vs h (socow_vector.default S) = some (h1, v1) ∧
      size v1 = vs.length ∧ elems h1 v1 = some vs ∧ wf S h1 v1 = true := by
  obtain ⟨h1, v1, e, hr1, -⟩ := push_all_spec S vs h (socow_vector.default S) []
    (rep_default S h) (by simp [is_shared, socow_vector.default])
  have hs1 := rep_size S h1 v1 _ hr1
  simp only [List.nil_append] at hr1 hs1
  exact ⟨h1, v1, e, hs1, hr1.2, hr1.1⟩

/-- C6, the failing input: with `SMALL_SIZE = 4`, `a.reserve(5)` on an empty container,
a copy `b` of `a`, then `auto it = a.insert(std::as_const(a).begin(), 7); a.erase(it);`:
the position is taken through the const `begin()`, which leaves the buffer shared.  The
round trip does not return: `insert` faults on the write past the end of its replacement
buffer of capacity 0.  (With the position taken through the non-const `begin()` the buffer
is unshared by `data()` before `insert` is entered, and the round trip then returns the
empty sequence: the second component.) -/
theorem insert_erase_faults_on_empty_shared :
    ((reserve 4 [] (socow_vector.default 4 : socow_vector Nat) 5).bind fun s =>
      (copy_construct 4 s.1 s.2).bind fun c =>
      some (wf 4 c.1 s.2, elems c.1 s.2, is_shared c.1 s.2,
        ((insert 4 c.1 s.2 0 7).bind fun r => erase_at 4 r.1 r.2.1 r.2.2).isNone))
      = some (true, some [], some true, true) ∧
    ((reserve 4 [] (socow_vector.default 4 : socow_vector Nat) 5).bind fun s =>
      (copy_construct 4 s.1 s.2).bind fun c =>
      (data 4 c.1 s.2).bind fun d =>
      (insert 4 d.1 d.2 0 7).bind fun r =>
      (erase_at 4 r.1 r.2.1 r.2.2).bind fun e =>
      some (size e.2.1, elems e.1 e.2.1))
      = some (0, some []) := by
  refine ⟨by decide, by decide⟩

/-! # The capacity claims for reserve and shrink_to_fit -/

/-- C7, refuted as stated: `reserve(n)` can decrease `capacity()`.  With `SMALL_SIZE = 4`, a
container that received five pushes (capacity 8) and then `erase` of its last three elements
has size 2; `reserve(3)` takes the `make_small` branch and leaves capacity 4.  And a container
with five elements whose buffer (capacity 8) is shared with a copy is given a buffer of
capacity exactly 6 by `reserve(6)`. -/
theorem reserve_can_decrease_capacity :
    ((push_all 4 [0, 1, 2, 3, 4] [] (socow_vector.default 4 : socow_vector Nat)).bind fun s =>
      (erase 4 s.1 s.2 2 5).bind fun e =>
      (reserve 4 e.1 e.2.1 3).bind fun r =>
      some (wf 4 e.1 e.2.1, size e.2.1, capacity 4 e.1 e.2.1, capacity 4 r.1 r.2))
      = some (true, 2, some 8, some 4) ∧
    ((push_all 4 [0, 1, 2, 3, 4] [] (socow_vector.default 4 : socow_vector Nat)).bind fun s =>
      (copy_construct 4 s.1 s.2).bind fun b =>
      (reserve 4 b.1 s.2 6).bind fun r =>
      some (wf 4 b.1 s.2, size s.2, capacity 4 b.1 s.2, capacity 4 r.1 r.2))
      = some (true, 5, some 8, some 6) := by
  constructor <;> decide

/-- C8, refuted as stated: `shrink_to_fit()` can increase `capacity()`.  With
`SMALL_SIZE = 4`, a container with five elements whose buffer is shared with a copy and
that erases its first three elements receives a buffer of capacity 2; `shrink_to_fit()`
then makes it Inline, with capacity 4. -/
theorem shrink_to_fit_can_increase_capacity :
    ((push_all 4 [0, 1, 2, 3, 4] [] (socow_vector.default 4 : socow_vector Nat)).bind fun s =>
      (copy_construct 4 s.1 s.2).bind fun b =>
      (erase 4 b.1 s.2 0 3).bind fun e =>
      (shrink_to_fit 4 e.1 e.2.1).bind fun r =>
      some (wf 4 e.1 e.2.1, size e.2.1, capacity 4 e.1 e.2.1, capacity 4 r.1 r.2))
      = some (true, 2, some 2, some 4) := by
  decide

/-- C8, amended: for every well-formed container, `shrink_to_fit()` returns and
`capacity()` afterwards is at most `max(capacity() before, SMALL_SIZE)`; it is at most
`capacity()` before whenever that was at least `SMALL_SIZE` (an Inline container, or a
buffer of capacity `≥ SMALL_SIZE`). -/
theorem shrink_to_fit_capacity_upper_bound (S : Nat) (h : heap T) (v : socow_vector T)
    (hw : wf S h v = true) :
    ∃ h1 v1 c c1, capacity S h v = some c ∧ shrink_to_fit S h v = some (h1, v1) ∧
      capacity S h1 v1 = some c1 ∧ c1 ≤ max c S ∧ (S ≤ c → c1 ≤ c) := by
  obtain ⟨xs, hr⟩ := rep_of_wf S h v hw
  obtain ⟨h1, v1, c, c1, e1, e2, e3, -, -, -, -, f3, f4, -⟩ := shrink_to_fit_spec S h v xs hr
  exact ⟨h1, v1, c, c1, e1, e2, e3, f3, f4⟩

/-- Witness for `shrink_to_fit_capacity_upper_bound`: seven elements in a buffer of
capacity 8, shrunk to capacity 7. -/
theorem shrink_to_fit_capacity_upper_bound_witness :
    wf 2 [some ⟨8, 1, [some 1, some 2, some 3, some 4, some 5, some 6, some 7, none]⟩]
      (⟨7, false, some 0, [none, none]⟩ : socow_vector Nat) = true ∧
    ∃ h1 v1 c c1,
      capacity 2 [some ⟨8, 1, [some 1, some 2, some 3, some 4, some 5, some 6, some 7, none]⟩]
        (⟨7, false, some 0, [none, none]⟩ : socow_vector Nat) = some c ∧
      shrink_to_fit 2
        [some ⟨8, 1, [some 1, some 2, some 3, some 4, some 5, some 6, some 7, none]⟩]
        (⟨7, false, some 0, [none, none]⟩ : socow_vector Nat) = some (h1, v1) ∧
      capacity 2 h1 v1 = some c1 ∧ c1 ≤ max c 2 ∧ (2 ≤ c → c1 ≤ c) :=
  ⟨by decide, shrink_to_fit_capacity_upper_bound 2 _ _ (by decide)⟩

/-- C9: for every well-formed container (so `size() ≤ capacity()`), `shrink_to_fit()`
returns; afterwards the container is Inline when `size() ≤ SMALL_SIZE` and has
`capacity() == size()` when `size() > SMALL_SIZE`; `size()` and the element sequence are
unchanged. -/
theorem shrink_to_fit_postcondition (S : Nat) (h : heap T) (v : socow_vector T)
    (hw : wf S h v = true) :
    ∃ h1 v1, shrink_to_fit S h v = some (h1, v1) ∧
      (size v ≤ S → v1.is_small = true) ∧
      (S < size v → capacity S h1 v1 = some (size v)) ∧
      size v1 = size v ∧ elems h1 v1 = elems h v := by
  obtain ⟨xs, hr⟩ := rep_of_wf S h v hw
  have hs := rep_size S h v xs hr
  obtain ⟨h1, v1, c, c1, -, e2, e3, hr1, -, f1, f2, -, -, -⟩ := shrink_to_fit_spec S h v xs hr
  have hs1 := rep_size S h1 v1 xs hr1
  refine ⟨h1, v1, e2, ?_, ?_, ?_, ?_⟩
  · intro g; exact f1 (by simpa [size, hs] using g)
  · intro g
    have := f2 (by simpa [size, hs] using g)
    rw [e3, this, size, hs]
  · simp [size, hs, hs1]
  · rw [hr1.2, hr.2]

/-- Witness for `shrink_to_fit_postcondition`: two elements in a buffer of capacity 8 with
`SMALL_SIZE = 4`. -/
theorem shrink_to_fit_postcondition_witness :
    wf 4 [some ⟨8, 1, [some 10, some 20, none, none, none, none, none, none]⟩]
      (⟨2, false, some 0, [none, none, none, none]⟩ : socow_vector Nat) = true ∧
    ∃ h1 v1,
      shrink_to_fit 4 [some ⟨8, 1, [some 10, some 20, none, none, none, none, none, none]⟩]
        (⟨2, false, some 0, [none, none, none, none]⟩ : socow_vector Nat) = some (h1, v1) ∧
      (size (⟨2, false, some 0, [none, none, none, none]⟩ : socow_vector Nat) ≤ 4 →
        v1.is_small = true) ∧
      (4 < size (⟨2, false, some 0, [none, none, none, none]⟩ : socow_vector Nat) →
        capacity 4 h1 v1
          = some (size (⟨2, false, some 0, [none, none, none, none]⟩ : socow_vector Nat))) ∧
      size v1 = size (⟨2, false, some 0, [none, none, none, none]⟩ : socow_vector Nat) ∧
      elems h1 v1
        = elems [some ⟨8, 1, [some 10, some 20, none, none, none, none, none, none]⟩]
            (⟨2, false, some 0, [none, none, none, none]⟩ : socow_vector Nat) :=
  ⟨by decide, shrink_to_fit_postcondition 4 _ _ (by decide)⟩

/-! ## Data access and unshare -/

theorem unshare_to_shared (h : heap T) (xs : List T) (p c r k : Nat) (sd tl : Slots T)
    (hp : h[p]? = some (some ⟨c, r, xs.map some ++ tl⟩)) (hr : 2 ≤ r) :
    unshare_to h ⟨xs.length, false, some p, sd⟩ k
      = some (h.set p (some ⟨c, r - 1, xs.map some ++ tl⟩) ++ [some (fresh_buf k xs)],
          ⟨xs.length, false, some h.length, sd⟩) := by
  have hd := (deref_eq_some h p _).2 hp
  have hplt := deref_lt h p _ hd
  have hg := get_buf_initialized_eq h ⟨xs.length, false, some p, sd⟩ xs tl k
    (by simp [cdata, hd]) rfl
  have hp2 : (h ++ [some (fresh_buf k xs)])[p]? = some (some ⟨c, r, xs.map some ++ tl⟩) := by
    rw [List.getElem?_append_left hplt]; exact hp
  have hr1 : 1 < r := by omega
  simp [unshare_to, is_shared, hd, hr1, hg,
    release_ref_shared _ _ p sd _ hp2 hr, set_append_lt _ _ _ _ hplt]

theorem unshare_to_own (h : heap T) (v : socow_vector T) (k : Nat)
    (hs : is_shared h v = some false) : unshare_to h v k = some (h, v) := by
  simp [unshare_to, hs]

theorem rep_is_shared (S : Nat) (h : heap T) (v : socow_vector T) (xs : List T)
    (hr : Rep S h v xs) : ∃ b, is_shared h v = some b := by
  rcases v with ⟨m, sm, bf, sd⟩
  cases sm with
  | true => exact ⟨false, is_shared_small _ _ _ _⟩
  | false =>
    rw [rep_big_iff] at hr
    obtain ⟨hn, hl, p, c, r, tl, rfl, hp, hr1, hcap⟩ := hr
    exact ⟨_, is_shared_big _ _ _ _ _ hp⟩

/-- The non-const `data()` on a well-formed container: afterwards the container does not
share its storage, and value, mode and capacity are as before. -/
theorem data_spec (S : Nat) (h : heap T) (v : socow_vector T) (xs : List T)
    (hr : Rep S h v xs) :
    ∃ h1 v1, data S h v = some (h1, v1) ∧ Rep S h1 v1 xs ∧ Frame h h1 v ∧
      is_shared h1 v1 = some false ∧ capacity S h1 v1 = capacity S h v ∧
      v1.is_small = v.is_small ∧ (is_shared h v = some false → h1 = h ∧ v1 = v) := by
  rcases v with ⟨m, sm, bf, sd⟩
  cases sm with
  | true =>
    exact ⟨h, ⟨m, true, bf, sd⟩, data_small S h m bf sd, hr, frame_refl _ _,
      is_shared_small _ _ _ _, rfl, rfl, fun _ => ⟨rfl, rfl⟩⟩
  | false =>
    have hr0 := hr
    rw [rep_big_iff] at hr
    obtain ⟨hn, hl, p, c, r, tl, rfl, hp, hr1, hcap⟩ := hr
    subst hn
    have hxc : xs.length ≤ c := by rw [← hcap]; simp
    by_cases hu : r = 1
    · subst hu
      have ho := own_big h xs.length p c sd _ hp
      exact ⟨h, ⟨xs.length, false, some p, sd⟩, data_own S _ _ _ ho, hr0, frame_refl _ _,
        ho.1, rfl, rfl, fun _ => ⟨rfl, rfl⟩⟩
    · have hr2 : 2 ≤ r := by omega
      have hlen2 : (h.set p (some (⟨c, r - 1, xs.map some ++ tl⟩ : buffer T))).length
          = h.length := by simp
      have hq : (h.set p (some (⟨c, r - 1, xs.map some ++ tl⟩ : buffer T))
          ++ [some (fresh_buf c xs)])[h.length]? = some (some (fresh_buf c xs)) :=
        getElem?_append_length_eq _ _ _ hlen2
      refine ⟨h.set p (some ⟨c, r - 1, xs.map some ++ tl⟩) ++ [some (fresh_buf c xs)],
        ⟨xs.length, false, some h.length, sd⟩, data_big_shared S h xs p c r sd tl hp hr2,
        ?_, ?_, ?_, ?_, rfl, ?_⟩
      · rw [rep_big_iff]
        refine ⟨rfl, hl, h.length, c, 1, List.replicate (c - xs.length) none, rfl, ?_,
          le_refl _, ?_⟩
        · rw [hq]; simp [fresh_buf, List.take_of_length_le hxc]
        · simp; omega
      · have := frame_released h [some (fresh_buf c xs)] xs.length p sd _ hp
        simpa [released, hu] using this
      · rw [is_shared_big _ _ _ _ _ hq]; simp [fresh_buf]
      · rw [capacity_big _ _ _ _ _ _ hq, capacity_big _ _ _ _ _ _ hp]; simp [fresh_buf]
      · intro hsh
        rw [is_shared_big _ _ _ _ _ hp] at hsh
        simp at hsh
        omega

theorem capacity_frame (S : Nat) (h h1 : heap T) (v w : socow_vector T) (ys : List T)
    (hf : Frame h h1 v) (hc : counted h v w = true) (hw : Rep S h w ys) :
    capacity S h1 w = capacity S h w := by
  rcases w with ⟨n, sm, bf, sd⟩
  cases sm with
  | true => simp [capacity]
  | false =>
    rw [rep_big_iff] at hw
    obtain ⟨hn, hl, p, c, r, tl, hb, hp, hr, hcap⟩ := hw
    subst hb
    obtain ⟨f1, f2⟩ := hf p _ hp
    rw [capacity_big _ _ _ _ _ _ hp]
    by_cases ha : v.is_small = false ∧ v._buf = some p
    · have h2 : 2 ≤ r := by
        have hd := (deref_eq_some h p _).2 hp
        obtain ⟨ha1, ha2⟩ := ha
        simp [counted, ha1, ha2, hd] at hc
        exact hc
      rcases f1 ha h2 with e | e
      · rw [capacity_big _ _ _ _ _ _ e]
      · rw [capacity_big _ _ _ _ _ _ e]
    · rw [capacity_big _ _ _ _ _ _ (f2 ha)]

theorem push_all_mode (S : Nat) : ∀ (vs : List T) (h : heap T) (v : socow_vector T)
    (xs : List T), Rep S h v xs → is_shared h v = some false →
    ∃ h1 v1, push_all S vs h v = some (h1, v1) ∧ Rep S h1 v1 (xs ++ vs) ∧
      is_shared h1 v1 = some false ∧
      v1.is_small = (v.is_small && decide ((xs ++ vs).length ≤ S)) := by
  intro vs
  induction vs with
  | nil =>
    intro h v xs hr hs
    refine ⟨h, v, rfl, by simpa using hr, hs, ?_⟩
    rcases v with ⟨m, sm, bf, sd⟩
    cases sm with
    | false => simp
    | true =>
      rw [rep_small_iff] at hr
      simp [hr.2.1]
  | cons x vs ih =>
    intro h v xs hr hs
    obtain ⟨h1, v1, e, hr1, -, hs1, hm1⟩ := push_back_spec S h v xs x hr
      (by rintro ⟨-, h2, -⟩; rw [hs] at h2; cases h2)
    obtain ⟨h2, v2, e2, hr2, hs2, hm2⟩ := ih h1 v1 (xs ++ [x]) hr1 hs1
    refine ⟨h2, v2, by simp [push_all, e, e2], by simpa using hr2, hs2, ?_⟩
    rw [hm2, hm1]
    cases hsm : v.is_small with
    | false => simp
    | true =>
      simp only [Bool.true_and, List.length_append, List.length_cons, List.length_nil,
        Bool.and_eq_true, decide_eq_true_eq]
      by_cases hle : xs.length + (vs.length + 1) ≤ S
      · have h1 : xs.length < S := by omega
        have h2 : xs.length + (0 + 1) + vs.length ≤ S := by omega
        simp [h1, h2, hle]
      · have h2 : ¬ xs.length + (0 + 1) + vs.length ≤ S := by omega
        simp [h2, hle]

theorem rep_buffer_of (S : Nat) (h : heap T) (v : socow_vector T) (xs : List T)
    (hr : Rep S h v xs) (hm : v.is_small = false) :
    ∃ b, buffer_of h v = some b ∧ 1 ≤ b._ref_count ∧ xs.length ≤ b._capacity ∧
      is_shared h v = some (decide (b._ref_count > 1)) ∧ capacity S h v = some b._capacity := by
  rcases v with ⟨m, sm, bf, sd⟩
  cases sm with
  | true => cases hm
  | false =>
    rw [rep_big_iff] at hr
    obtain ⟨hn, hl, p, c, r, tl, rfl, hp, hr1, hcap⟩ := hr
    refine ⟨_, by simp [buffer_of, (deref_eq_some h p _).2 hp], hr1, ?_,
      is_shared_big _ _ _ _ _ hp, capacity_big _ _ _ _ _ _ hp⟩
    rw [← hcap]; simp

/-! # The claims on promotion, unshare and the empty erase -/

/-- C20: pushing the `N` values of a list, one by one, onto a default-constructed container
returns a container holding exactly these values.  If `N ≤ SMALL_SIZE` it is Inline and
`capacity()` is `SMALL_SIZE`; if `N > SMALL_SIZE` it is Shared and addresses a live buffer
with `_ref_count = 1` that has room for the `N` elements. -/
theorem promotion_point (S : Nat) (h : heap T) (vs : List T) :
    ∃ h1 v1, push_all S vs h (socow_vector.default S) = some (h1, v1) ∧
      size v1 = vs.length ∧ elems h1 v1 = some vs ∧
      (vs.length ≤ S → v1.is_small = true ∧ capacity S h1 v1 = some S) ∧
      (S < vs.length → v1.is_small = false ∧
        ∃ b, buffer_of h1 v1 = some b ∧ b._ref_count = 1 ∧ vs.length ≤ b._capacity) := by
  obtain ⟨h1, v1, e, hr1, hs1, hm1⟩ := push_all_mode S vs h (socow_vector.default S) []
    (rep_default S h) (by simp [is_shared, socow_vector.default])
  have hsz := rep_size S h1 v1 _ hr1
  simp only [List.nil_append] at hr1 hsz hm1
  refine ⟨h1, v1, e, hsz, hr1.2, ?_, ?_⟩
  · intro hle
    have hm : v1.is_small = true := by
      rw [hm1]; simp [socow_vector.default, hle]
    refine ⟨hm, ?_⟩
    simp [capacity, hm]
  · intro hlt
    have hm : v1.is_small = false := by
      rw [hm1]; simp [socow_vector.default]; omega
    obtain ⟨b, hb, h1r, hcap, hsh, -⟩ := rep_buffer_of S h1 v1 vs hr1 hm
    refine ⟨hm, b, hb, ?_, hcap⟩
    rw [hs1] at hsh
    simp at hsh
    omega

/-- The scenario of C20 with `SMALL_SIZE = 4`: after pushing 0, 1, 2, 3 the container is
Inline with size 4; after pushing 4 as well it is Shared with size 5, contents
`[0, 1, 2, 3, 4]` and a buffer of reference count 1. -/
theorem promotion_point_witness :
    ((push_all 4 [0, 1, 2, 3] [] (socow_vector.default 4 : socow_vector Nat)).map fun r =>
        (r.2.is_small, size r.2, elems r.1 r.2)) = some (true, 4, some [0, 1, 2, 3]) ∧
    ((push_all 4 [0, 1, 2, 3, 4] [] (socow_vector.default 4 : socow_vector Nat)).map fun r =>
        ((r.2.is_small, size r.2), elems r.1 r.2,
          (buffer_of r.1 r.2).map fun b => b._ref_count))
      = some ((false, 5), some [0, 1, 2, 3, 4], some 1) ∧
    ∃ h1 v1, push_all 4 [0, 1, 2, 3, 4] [] (socow_vector.default 4 : socow_vector Nat)
        = some (h1, v1) ∧
      size v1 = [0, 1, 2, 3, 4].length ∧ elems h1 v1 = some [0, 1, 2, 3, 4] ∧
      ([0, 1, 2, 3, 4].length ≤ 4 → v1.is_small = true ∧ capacity 4 h1 v1 = some 4) ∧
      (4 < [0, 1, 2, 3, 4].length → v1.is_small = false ∧
        ∃ b, buffer_of h1 v1 = some b ∧ b._ref_count = 1 ∧
          [0, 1, 2, 3, 4].length ≤ b._capacity) :=
  ⟨by decide, by decide, promotion_point 4 [] [0, 1, 2, 3, 4]⟩

/-- C18: the private `unshare(new_capacity)` on a well-formed container, for a target
capacity that holds its elements.  If the container is Inline or its buffer has
`_ref_count = 1`, nothing changes.  Otherwise the container ends up addressing a new
buffer, distinct from the old one, with `_ref_count = 1`, the requested capacity and the
same elements, while the old buffer stays live with its `_ref_count` lowered by one and
its capacity and contents untouched.  Mutable access (`data()`, hence `operator[]`,
`front`, `back`, `begin`, `end`) returns and leaves the container Inline or the only holder
of its buffer, with size, elements, mode and capacity unchanged. -/
theorem unshare_contract (S : Nat) (h : heap T) (v : socow_vector T) (k : Nat)
    (hw : wf S h v = true) (hk : size v ≤ k) :
    (is_shared h v = some false → unshare_to h v k = some (h, v)) ∧
    (is_shared h v = some true →
      ∃ b h1 v1 b1, buffer_of h v = some b ∧ unshare_to h v k = some (h1, v1) ∧
        buffer_of h1 v1 = some b1 ∧ b1._ref_count = 1 ∧ b1._capacity = k ∧
        v1._buf ≠ v._buf ∧ size v1 = size v ∧ elems h1 v1 = elems h v ∧
        wf S h1 v1 = true ∧
        deref h1 v._buf = some { b with _ref_count := b._ref_count - 1 }) ∧
    (∃ h1 v1, data S h v = some (h1, v1) ∧ is_shared h1 v1 = some false ∧
      size v1 = size v ∧ elems h1 v1 = elems h v ∧ v1.is_small = v.is_small ∧
      capacity S h1 v1 = capacity S h v ∧ wf S h1 v1 = true) := by
  obtain ⟨xs, hr⟩ := rep_of_wf S h v hw
  refine ⟨unshare_to_own h v k, ?_, ?_⟩
  · intro hsh
    rcases v with ⟨m, sm, bf, sd⟩
    cases sm with
    | true => rw [is_shared_small] at hsh; cases hsh
    | false =>
      have hr0 := hr
      rw [rep_big_iff] at hr
      obtain ⟨hn, hl, p, c, r, tl, rfl, hp, hr1, hcap⟩ := hr
      subst hn
      rw [is_shared_big _ _ _ _ _ hp] at hsh
      have hr2 : 2 ≤ r := by simpa using hsh
      have hd := (deref_eq_some h p _).2 hp
      have hplt := deref_lt h p _ hd
      have hlen2 : (h.set p (some (⟨c, r - 1, xs.map some ++ tl⟩ : buffer T))).length
          = h.length := by simp
      have hq : (h.set p (some (⟨c, r - 1, xs.map some ++ tl⟩ : buffer T))
          ++ [some (fresh_buf k xs)])[h.length]? = some (some (fresh_buf k xs)) :=
        getElem?_append_length_eq _ _ _ hlen2
      have hxk : xs.length ≤ k := hk
      have hrep : Rep S (h.set p (some (⟨c, r - 1, xs.map some ++ tl⟩ : buffer T))
          ++ [some (fresh_buf k xs)]) ⟨xs.length, false, some h.length, sd⟩ xs := by
        rw [rep_big_iff]
        refine ⟨rfl, hl, h.length, k, 1, List.replicate (k - xs.length) none, rfl, ?_,
          le_refl _, ?_⟩
        · rw [hq]; simp [fresh_buf, List.take_of_length_le hxk]
        · simp; omega
      refine ⟨⟨c, r, xs.map some ++ tl⟩,
        h.set p (some ⟨c, r - 1, xs.map some ++ tl⟩) ++ [some (fresh_buf k xs)],
        ⟨xs.length, false, some h.length, sd⟩, fresh_buf k xs, by simp [buffer_of, hd],
        unshare_to_shared h xs p c r k sd tl hp hr2, ?_, rfl, rfl, ?_, rfl, ?_, hrep.1, ?_⟩
      · simp [buffer_of, (deref_eq_some _ _ _).2 hq]
      · simp; omega
      · rw [hrep.2, hr0.2]
      · rw [deref_eq_some, List.getElem?_append_left (by simpa using hplt)]
        simp [List.getElem?_set, hplt]
  · obtain ⟨h1, v1, e, hr1, -, hs1, hc1, hm1, -⟩ := data_spec S h v xs hr
    refine ⟨h1, v1, e, hs1, ?_, ?_, hm1, hc1, hr1.1⟩
    · simp only [size]; rw [rep_size S h v xs hr, rep_size S h1 v1 xs hr1]
    · rw [hr1.2, hr.2]

/-- Witness for `unshare_contract`: five elements in a buffer with two holders, target
capacity 6. -/
theorem unshare_contract_witness :
    wf 4 demo_shared_store demo_vec = true ∧ size demo_vec ≤ 6 ∧
    (is_shared demo_shared_store demo_vec = some false →
      unshare_to demo_shared_store demo_vec 6 = some (demo_shared_store, demo_vec)) ∧
    (is_shared demo_shared_store demo_vec = some true →
      ∃ b h1 v1 b1, buffer_of demo_shared_store demo_vec = some b ∧
        unshare_to demo_shared_store demo_vec 6 = some (h1, v1) ∧
        buffer_of h1 v1 = some b1 ∧ b1._ref_count = 1 ∧ b1._capacity = 6 ∧
        v1._buf ≠ demo_vec._buf ∧ size v1 = size demo_vec ∧
        elems h1 v1 = elems demo_shared_store demo_vec ∧ wf 4 h1 v1 = true ∧
        deref h1 demo_vec._buf = some { b with _ref_count := b._ref_count - 1 }) ∧
    (∃ h1 v1, data 4 demo_shared_store demo_vec = some (h1, v1) ∧
      is_shared h1 v1 = some false ∧ size v1 = size demo_vec ∧
      elems h1 v1 = elems demo_shared_store demo_vec ∧ v1.is_small = demo_vec.is_small ∧
      capacity 4 h1 v1 = capacity 4 demo_shared_store demo_vec ∧ wf 4 h1 v1 = true) :=
  ⟨by decide, by decide, unshare_contract 4 demo_shared_store demo_vec 6 (by decide)
    (by decide)⟩

/-- C14: on a well-formed container, `erase(first, first)` with `first ≤ size()` returns
the index `first` and leaves size, elements, mode and capacity of the container as they
were.  Every other well-formed container of the store, including one that shares the
buffer, keeps its elements and its capacity.  (The return statement goes through the
non-const `begin()`, so a container that shares its buffer moves to a private copy of the
same capacity; none of the listed observations changes.) -/
theorem erase_empty_range_noop (S : Nat) (h : heap T) (v : socow_vector T) (first : Nat)
    (hw : wf S h v = true) (hf : first ≤ size v) :
    ∃ h1 v1, erase S h v first first = some (h1, v1, first) ∧ size v1 = size v ∧
      elems h1 v1 = elems h v ∧ v1.is_small = v.is_small ∧
      capacity S h1 v1 = capacity S h v ∧ wf S h1 v1 = true ∧
      ∀ w, wf S h w = true → counted h v w = true →
        wf S h1 w = true ∧ elems h1 w = elems h w ∧ capacity S h1 w = capacity S h w := by
  obtain ⟨xs, hr⟩ := rep_of_wf S h v hw
  obtain ⟨h1, v1, e, hr1, hfr, hs1, hc1, hm1, -⟩ := data_spec S h v xs hr
  refine ⟨h1, v1, ?_, ?_, ?_, hm1, hc1, hr1.1, ?_⟩
  · rw [erase_empty_range S h v first hf, e]; rfl
  · simp only [size]; rw [rep_size S h v xs hr, rep_size S h1 v1 xs hr1]
  · rw [hr1.2, hr.2]
  · intro w hww hcw
    obtain ⟨ys, hy⟩ := rep_of_wf S h w hww
    have hy1 := rep_frame S h h1 v w ys hfr hcw hy
    exact ⟨hy1.1, by rw [hy1.2, hy.2], capacity_frame S h h1 v w ys hfr hcw hy⟩

/-- Witness for `erase_empty_range_noop`: five elements in a buffer with two holders,
`erase` of the empty range at index 2. -/
theorem erase_empty_range_noop_witness :
    wf 4 demo_shared_store demo_vec = true ∧ 2 ≤ size demo_vec ∧
    ∃ h1 v1, erase 4 demo_shared_store demo_vec 2 2 = some (h1, v1, 2) ∧
      size v1 = size demo_vec ∧ elems h1 v1 = elems demo_shared_store demo_vec ∧
      v1.is_small = demo_vec.is_small ∧
      capacity 4 h1 v1 = capacity 4 demo_shared_store demo_vec ∧ wf 4 h1 v1 = true ∧
      ∀ w, wf 4 demo_shared_store w = true → counted demo_shared_store demo_vec w = true →
        wf 4 h1 w = true ∧ elems h1 w = elems demo_shared_store w ∧
          capacity 4 h1 w = capacity 4 demo_shared_store w :=
  ⟨by decide, by decide, erase_empty_range_noop 4 demo_shared_store demo_vec 2 (by decide)
    (by decide)⟩

/-! # The claims on clear and on the capacity invariant -/

/-- C13, the failing input: with `SMALL_SIZE = 4`, push 0, 1, 2, 3, 4 onto `a`, copy
`b = a`, then `a.clear()`.  Before the call `a` is well formed and shares its buffer.
`clear()` returns with size 0, but `a` is still in Shared mode and its buffer pointer is
null (neither Inline nor addressing a buffer): `capacity()` dereferences the null pointer
and a subsequent `push_back(7)` faults. -/
theorem clear_leaves_null_buffer :
    ((push_all 4 [0, 1, 2, 3, 4] [] (socow_vector.default 4 : socow_vector Nat)).bind fun a =>
      (copy_construct 4 a.1 a.2).bind fun b =>
      (clear 4 b.1 a.2).bind fun c =>
      some ((wf 4 b.1 a.2 && wf 4 b.1 b.2, is_shared b.1 a.2, size c.2),
        (c.2.is_small || c.2._buf.isSome, capacity 4 c.1 c.2,
          (push_back 4 c.1 c.2 7).isNone)))
      = some ((true, some true, 0), (false, none, true)) := by
  decide

/-- C16, the failing input: with `SMALL_SIZE = 4`, `a.reserve(5)` on an empty container,
`b = a`, then `a.push_back(7)`.  Before the call `a` has size 0 and capacity 5 and shares
its buffer, so `insert` takes the growing branch; `capacity()` is not 0, so the
replacement buffer gets capacity `size() * 2 = 0`, which has no room for the
`size() + 1 = 1` elements written into it, and `push_back` faults. -/
theorem replacement_buffer_without_room :
    ((reserve 4 [] (socow_vector.default 4 : socow_vector Nat) 5).bind fun s =>
      (copy_construct 4 s.1 s.2).bind fun c =>
      (capacity 4 c.1 s.2).bind fun cap =>
      (set_capacity 4 c.1 (socow_vector.default 4) (if cap == 0 then 1 else size s.2 * 2)).bind
        fun t =>
      some ((size s.2, cap, is_shared c.1 s.2),
        (capacity 4 t.1 t.2, decide (size s.2 + 1 ≤ size s.2 * 2),
          (push_back 4 c.1 s.2 7).isNone)))
      = some ((0, 5, some true), (some 0, false, true)) := by
  decide

/-! ## swap -/

theorem swap_small_shrink (xa xb ys : List T) (bf bf2 : Option Nat) (tl md qd : Slots T)
    (hxa : xa.length = ys.length) (hmd : md.length = xb.length) :
    swap_small ⟨(xa ++ xb).length, true, bf, (xa ++ xb).map some ++ tl⟩
        ⟨ys.length, true, bf2, ys.map some ++ (md ++ qd)⟩
      = some (⟨ys.length, true, bf, ys.map some ++ (List.replicate xb.length none ++ tl)⟩,
          ⟨(xa ++ xb).length, true, bf2, (xa ++ xb).map some ++ qd⟩) := by
  have hmin : min (xa ++ xb).length ys.length = ys.length := by simp [hxa]
  have hsw := swap_ranges_app xa ys [] [] (List.replicate xb.length none ++ tl)
    (xb.map some ++ qd) hxa rfl
  simp only [List.length_nil, List.nil_append] at hsw
  rw [hxa] at hsw
  cases xb with
  | nil =>
    have hmd0 : md = [] := List.length_eq_zero.1 (by simpa using hmd)
    subst hmd0
    have hlt : ¬ ys.length < (xa ++ []).length := by simp [hxa]
    have hgt : ¬ ys.length > (xa ++ []).length := by simp [hxa]
    simp only [swap_small, size, hlt, hgt, if_false, Option.some_bind, hmin]
    simp only [List.append_nil, List.map_nil, List.nil_append, List.length_nil,
      List.replicate_zero] at hsw ⊢
    rw [hsw]
    rfl
  | cons x xb =>
    have hlt : ys.length < (xa ++ x :: xb).length := by simp [hxa]
    have hu := uninit_copy_app (x :: xb) (xa.map some) tl (ys.map some) md qd hmd
    have hd := destroy_n_app (x :: xb) (xa.map some) tl
    simp only [List.length_map, List.append_assoc] at hu hd
    rw [hxa] at hu hd
    have hlen : (xa ++ x :: xb).length - ys.length = (x :: xb).length := by simp [hxa]
    simp only [swap_small, size, hlt, if_true, hlen, List.map_append, List.append_assoc, hu,
      hd, Option.some_bind, hmin]
    rw [hsw]
    rfl

theorem swap_small_grow (xs ya yb : List T) (bf bf2 : Option Nat) (tm tr tl2 : Slots T)
    (hya : ya.length = xs.length) (htm : tm.length = yb.length) (hyb : yb ≠ []) :
    swap_small ⟨xs.length, true, bf, xs.map some ++ (tm ++ tr)⟩
        ⟨(ya ++ yb).length, true, bf2, (ya ++ yb).map some ++ tl2⟩
      = some (⟨(ya ++ yb).length, true, bf, (ya ++ yb).map some ++ tr⟩,
          ⟨xs.length, true, bf2, xs.map some ++ (List.replicate yb.length none ++ tl2)⟩) := by
  have hpos : 0 < yb.length := List.length_pos.2 hyb
  have hmin : min xs.length (ya ++ yb).length = xs.length := by simp [hya]
  have hlt : ¬ (ya ++ yb).length < xs.length := by simp [hya]
  have hgt : (ya ++ yb).length > xs.length := by simp [hya]; omega
  have hsw := swap_ranges_app xs ya [] [] (yb.map some ++ tr)
    (List.replicate yb.length none ++ tl2) hya.symm rfl
  simp only [List.length_nil, List.nil_append] at hsw
  have hu := uninit_copy_app yb (ya.map some) tl2 (xs.map some) tm tr htm
  have hd := destroy_n_app yb (ya.map some) tl2
  simp only [List.length_map, List.append_assoc] at hu hd
  rw [hya] at hu hd
  have hlen : (ya ++ yb).length - xs.length = yb.length := by simp [hya]
  simp only [swap_small, size, hlt, hgt, if_true, if_false, hlen, List.map_append,
    List.append_assoc, hu, hd, Option.some_bind, hmin]
  rw [hsw]
  rfl

theorem assign_big_big_shared (S : Nat) (h : heap T) (n p : Nat) (sd : Slots T)
    (k q : Nat) (sd2 : Slots T) (bp bq : buffer T)
    (hp : h[p]? = some (some bp)) (hr : 2 ≤ bp._ref_count)
    (hq : h[q]? = some (some bq)) (hne : p ≠ q) :
    assign S h ⟨n, false, some p, sd⟩ ⟨k, false, some q, sd2⟩ false
      = some ((h.set p (some { bp with _ref_count := bp._ref_count - 1 })).set q
            (some { bq with _ref_count := bq._ref_count + 1 }),
          ⟨k, false, some q, sd⟩) := by
  have hq2 : (h.set p (some { bp with _ref_count := bp._ref_count - 1 }))[q]?
      = some (some bq) := by
    simp [List.getElem?_set, hne, hq]
  simp [assign, release_ref_shared h n p sd bp hp hr, add_ref_eq _ _ _ _ _ _ hq2, size]

theorem assign_big_big_alias (S : Nat) (h : heap T) (n p : Nat) (sd : Slots T)
    (k : Nat) (sd2 : Slots T) (b : buffer T)
    (hp : h[p]? = some (some b)) (hr : 2 ≤ b._ref_count) :
    assign S h ⟨n, false, some p, sd⟩ ⟨k, false, some p, sd2⟩ false
      = some (h, ⟨k, false, some p, sd⟩) := by
  rcases b with ⟨c, r, d⟩
  dsimp only at hr
  have hplt : p < h.length := by
    rcases List.getElem?_eq_some.1 hp with ⟨hi, _⟩; exact hi
  have hq2 : (h.set p (some (⟨c, r - 1, d⟩ : buffer T)))[p]? = some (some ⟨c, r - 1, d⟩) := by
    simp [List.getElem?_set, hplt]
  have hrr : r - 1 + 1 = r := by omega
  simp [assign, release_ref_shared h n p sd _ hp hr, add_ref_eq _ _ _ _ _ _ hq2, size,
    List.set_set, hrr, set_self h p _ hp]

theorem copy_construct_big (S : Nat) (h : heap T) (k q : Nat) (sd2 : Slots T) (bq : buffer T)
    (hq : h[q]? = some (some bq)) :
    copy_construct S h ⟨k, false, some q, sd2⟩
      = some (h.set q (some { bq with _ref_count := bq._ref_count + 1 }),
          ⟨k, false, some q, clobbered S⟩) :=
  assign_small_big S h [] none (clobbered S) k q sd2 bq hq

theorem set_set_self {α : Type} (l : List α) (i : Nat) (a b : α) (h : l[i]? = some a) :
    (l.set i b).set i a = l := by
  rw [List.set_set, set_self l i a h]

theorem getElem?_set_same {α : Type} (l : List α) (i : Nat) (a b : α) (h : l[i]? = some a) :
    (l.set i b)[i]? = some b := by
  have hi : i < l.length := by
    rcases List.getElem?_eq_some.1 h with ⟨hi, _⟩; exact hi
  simp [List.getElem?_set, hi]

theorem getElem?_set_other {α : Type} (l : List α) (i j : Nat) (b : α) (hne : i ≠ j) :
    (l.set i b)[j]? = l[j]? := by
  simp [List.getElem?_set, hne]

/-- The last branch of `swap` with an Inline receiver and a Shared argument: the store is
as before and the two objects have exchanged their contents. -/
theorem swap_big_small (S : Nat) (h : heap T) (xs ys : List T) (bf : Option Nat)
    (tl sd2 tl2 : Slots T) (q c r : Nat)
    (hq : h[q]? = some (some ⟨c, r, ys.map some ++ tl2⟩)) (hr : 1 ≤ r)
    (hx : xs.length ≤ S) (hsd2 : sd2.length = S) :
    swap_big S h ⟨xs.length, true, bf, xs.map some ++ tl⟩ ⟨ys.length, false, some q, sd2⟩
      = some (h, ⟨ys.length, false, some q, clobbered S⟩,
          ⟨xs.length, true, none, xs.map some ++ sd2.drop xs.length⟩) := by
  have e1 := copy_construct_big S h ys.length q sd2 _ hq
  have hq1 := getElem?_set_same h q _ (some (⟨c, r + 1, ys.map some ++ tl2⟩ : buffer T)) hq
  have e2 := assign_big_small S _ ys xs q c (r + 1) sd2 tl2 tl bf hq1 (by omega) hx hsd2
  rw [released_succ _ _ _ hr, set_set_self h q _ _ hq] at e2
  have e3 := assign_small_big S h xs bf tl ys.length q (clobbered S) _ hq
  have e4 := destroy_big_shared S _ ys.length q (clobbered S)
    ⟨c, r + 1, ys.map some ++ tl2⟩ hq1 (by dsimp only; omega)
  dsimp only at e1 e3 e4
  rw [Nat.add_sub_cancel, set_set_self h q _ _ hq] at e4
  simp only [swap_big, e1, Option.some_bind, e2, e3, e4]

/-- The last branch of `swap` for two Shared objects with different buffers. -/
theorem swap_big_big (S : Nat) (h : heap T) (n k p q : Nat) (sd sd2 : Slots T)
    (bp bq : buffer T) (hp : h[p]? = some (some bp)) (hq : h[q]? = some (some bq))
    (hrp : 1 ≤ bp._ref_count) (hrq : 1 ≤ bq._ref_count) (hne : p ≠ q) :
    swap_big S h ⟨n, false, some p, sd⟩ ⟨k, false, some q, sd2⟩
      = some (h, ⟨k, false, some q, sd⟩, ⟨n, false, some p, sd2⟩) := by
  rcases bp with ⟨cp, rp, dp⟩
  rcases bq with ⟨cq, rq, dq⟩
  dsimp only at hrp hrq
  have e1 := copy_construct_big S h k q sd2 _ hq
  have hq1 := getElem?_set_same h q _ (some (⟨cq, rq + 1, dq⟩ : buffer T)) hq
  have hp1 : (h.set q (some (⟨cq, rq + 1, dq⟩ : buffer T)))[p]? = some (some ⟨cp, rp, dp⟩) := by
    rw [getElem?_set_other _ _ _ _ (Ne.symm hne)]; exact hp
  have e2 := assign_big_big_shared S _ k q sd2 n p sd ⟨cq, rq + 1, dq⟩ ⟨cp, rp, dp⟩ hq1
    (by dsimp only; omega) hp1 (Ne.symm hne)
  dsimp only at e1 e2
  rw [Nat.add_sub_cancel, set_set_self h q _ _ hq] at e2
  have hp2 := getElem?_set_same h p _ (some (⟨cp, rp + 1, dp⟩ : buffer T)) hp
  have hq2 : (h.set p (some (⟨cp, rp + 1, dp⟩ : buffer T)))[q]? = some (some ⟨cq, rq, dq⟩) := by
    rw [getElem?_set_other _ _ _ _ hne]; exact hq
  have e3 := assign_big_big_shared S _ n p sd k q (clobbered S) ⟨cp, rp + 1, dp⟩
    ⟨cq, rq, dq⟩ hp2 (by dsimp only; omega) hq2 hne
  dsimp only at e3
  rw [Nat.add_sub_cancel, set_set_self h p _ _ hp] at e3
  have e4 := destroy_big_shared S _ k q (clobbered S) ⟨cq, rq + 1, dq⟩ hq1
    (by dsimp only; omega)
  dsimp only at e4
  rw [Nat.add_sub_cancel, set_set_self h q _ _ hq] at e4
  simp only [swap_big, e1, Option.some_bind, e2, e3, e4]

/-- The last branch of `swap` for two Shared objects that address the same buffer. -/
theorem swap_big_alias (S : Nat) (h : heap T) (n k p : Nat) (sd sd2 : Slots T)
    (b : buffer T) (hp : h[p]? = some (some b)) (hr : 1 ≤ b._ref_count) :
    swap_big S h ⟨n, false, some p, sd⟩ ⟨k, false, some p, sd2⟩
      = some (h, ⟨k, false, some p, sd⟩, ⟨n, false, some p, sd2⟩) := by
  rcases b with ⟨c, r, d⟩
  dsimp only at hr
  have e1 := copy_construct_big S h k p sd2 _ hp
  have hp1 := getElem?_set_same h p _ (some (⟨c, r + 1, d⟩ : buffer T)) hp
  have e2 := assign_big_big_alias S _ k p sd2 n sd ⟨c, r + 1, d⟩ hp1 (by dsimp only; omega)
  have e3 := assign_big_big_alias S _ n p sd k (clobbered S) ⟨c, r + 1, d⟩ hp1
    (by dsimp only; omega)
  have e4 := destroy_big_shared S _ k p (clobbered S) ⟨c, r + 1, d⟩ hp1
    (by dsimp only; omega)
  dsimp only at e1 e4
  rw [Nat.add_sub_cancel, set_set_self h p _ _ hp] at e4
  simp only [swap_big, e1, Option.some_bind, e2, e3, e4]

theorem swap_small_spec (S : Nat) (h : heap T) (xs ys : List T) (bf bf2 : Option Nat)
    (tl tl2 : Slots T) (hl : (xs.map some ++ tl).length = S)
    (hl2 : (ys.map some ++ tl2).length = S) :
    ∃ a1 b1, swap_small ⟨xs.length, true, bf, xs.map some ++ tl⟩
        ⟨ys.length, true, bf2, ys.map some ++ tl2⟩ = some (a1, b1) ∧
      Rep S h a1 ys ∧ Rep S h b1 xs ∧ a1.is_small = true ∧ b1.is_small = true := by
  simp only [List.length_append, List.length_map] at hl hl2
  by_cases hle : ys.length ≤ xs.length
  · have hxa : (xs.take ys.length).length = ys.length := by simp [hle]
    have hmd : (tl2.take (xs.drop ys.length).length).length = (xs.drop ys.length).length := by
      simp; omega
    have hh := swap_small_shrink (xs.take ys.length) (xs.drop ys.length) ys bf bf2 tl
      (tl2.take (xs.drop ys.length).length) (tl2.drop (xs.drop ys.length).length) hxa hmd
    rw [List.take_append_drop, List.take_append_drop] at hh
    refine ⟨_, _, hh, ?_, ?_, rfl, rfl⟩
    · exact rep_small_mk S h bf ys _ (by omega) (by simp; omega)
    · exact rep_small_mk S h bf2 xs _ (by omega) (by simp; omega)
  · have hya : (ys.take xs.length).length = xs.length := by simp; omega
    have htm : (tl.take (ys.drop xs.length).length).length = (ys.drop xs.length).length := by
      simp; omega
    have hyb : ys.drop xs.length ≠ [] := by
      intro h0
      have := congrArg List.length h0
      simp at this
      omega
    have hh := swap_small_grow xs (ys.take xs.length) (ys.drop xs.length) bf bf2
      (tl.take (ys.drop xs.length).length) (tl.drop (ys.drop xs.length).length) tl2 hya htm hyb
    rw [List.take_append_drop, List.take_append_drop] at hh
    refine ⟨_, _, hh, ?_, ?_, rfl, rfl⟩
    · exact rep_small_mk S h bf ys _ (by omega) (by simp; omega)
    · exact rep_small_mk S h bf2 xs _ (by omega) (by simp; omega)

/-- `swap` of two distinct well-formed containers: the store is as before, the two objects
have exchanged element sequences and modes. -/
theorem swap_spec (S : Nat) (h : heap T) (a b : socow_vector T) (xs ys : List T)
    (hx : Rep S h a xs) (hy : Rep S h b ys) :
    ∃ a1 b1, swap S h a b false = some (h, a1, b1) ∧ Rep S h a1 ys ∧ Rep S h b1 xs ∧
      a1.is_small = b.is_small ∧ b1.is_small = a.is_small := by
  rcases a with ⟨n, sm, bf, sd⟩
  rcases b with ⟨k, sm2, bf2, sd2⟩
  cases sm with
  | true =>
    rw [rep_small_iff] at hx
    obtain ⟨rfl, hxS, hl, tl, rfl⟩ := hx
    cases sm2 with
    | true =>
      rw [rep_small_iff] at hy
      obtain ⟨rfl, hyS, hl2, tl2, rfl⟩ := hy
      obtain ⟨a1, b1, e, ha, hb, hma, hmb⟩ := swap_small_spec S h xs ys bf bf2 tl tl2 hl hl2
      exact ⟨a1, b1, by simp [swap, e], ha, hb, hma, hmb⟩
    | false =>
      rw [rep_big_iff] at hy
      obtain ⟨rfl, hl2, q, c, r, tl2, rfl, hq, hr, hcap⟩ := hy
      have hlx : xs.length + tl.length = S := by simpa using hl
      refine ⟨⟨ys.length, false, some q, clobbered S⟩,
        ⟨xs.length, true, none, xs.map some ++ sd2.drop xs.length⟩,
        by simp [swap, swap_big_small S h xs ys bf tl sd2 tl2 q c r hq hr hxS hl2],
        ?_, ?_, rfl, rfl⟩
      · rw [rep_big_iff]
        exact ⟨rfl, by simp [clobbered], q, c, r, tl2, rfl, hq, hr, hcap⟩
      · rw [rep_small_iff]
        exact ⟨rfl, hxS, by simp; omega, _, rfl⟩
  | false =>
    rw [rep_big_iff] at hx
    obtain ⟨rfl, hl, p, c, r, tl, rfl, hp, hr, hcap⟩ := hx
    cases sm2 with
    | true =>
      rw [rep_small_iff] at hy
      obtain ⟨rfl, hyS, hl2, tl2, rfl⟩ := hy
      refine ⟨⟨ys.length, true, none, ys.map some ++ sd.drop ys.length⟩,
        ⟨xs.length, false, some p, clobbered S⟩,
        by simp [swap, swap_big_small S h ys xs bf2 tl2 sd tl p c r hp hr hyS hl],
        ?_, ?_, rfl, rfl⟩
      · rw [rep_small_iff]
        exact ⟨rfl, hyS, by simp; omega, _, rfl⟩
      · rw [rep_big_iff]
        exact ⟨rfl, by simp [clobbered], p, c, r, tl, rfl, hp, hr, hcap⟩
    | false =>
      rw [rep_big_iff] at hy
      obtain ⟨rfl, hl2, q, c2, r2, tl2, rfl, hq, hr2, hcap2⟩ := hy
      by_cases hpq : p = q
      · subst hpq
        refine ⟨⟨ys.length, false, some p, sd⟩, ⟨xs.length, false, some p, sd2⟩,
          by simp [swap, swap_big_alias S h xs.length ys.length p sd sd2 _ hp hr],
          ?_, ?_, rfl, rfl⟩
        · rw [rep_big_iff]
          exact ⟨rfl, hl, p, c2, r2, tl2, rfl, hq, hr2, hcap2⟩
        · rw [rep_big_iff]
          exact ⟨rfl, hl2, p, c, r, tl, rfl, hp, hr, hcap⟩
      · refine ⟨⟨ys.length, false, some q, sd⟩, ⟨xs.length, false, some p, sd2⟩,
          by simp [swap,
            swap_big_big S h xs.length ys.length p q sd sd2 _ _ hp hq hr hr2 hpq],
          ?_, ?_, rfl, rfl⟩
        · rw [rep_big_iff]
          exact ⟨rfl, hl, q, c2, r2, tl2, rfl, hq, hr2, hcap2⟩
        · rw [rep_big_iff]
          exact ⟨rfl, hl2, p, c, r, tl, rfl, hp, hr, hcap⟩

/-! # The claim on swap -/

/-- C12: for two distinct well-formed containers `a` and `b` in any combination of modes
(both Inline with either one shorter or both of equal size, one Inline and one Shared in
either order, both Shared with different buffers or the same buffer), `a.swap(b)` returns;
afterwards `a` has the former size, element sequence and mode of `b`, and `b` has the
former size, element sequence and mode of `a`; both are well formed and the store of
buffers is as before.  `a.swap(a)` changes nothing. -/
theorem swap_exchanges_contents (S : Nat) (h : heap T) (a b : socow_vector T)
    (ha : wf S h a = true) (hb : wf S h b = true) :
    (∃ a1 b1, swap S h a b false = some (h, a1, b1) ∧
      size a1 = size b ∧ elems h a1 = elems h b ∧ a1.is_small = b.is_small ∧
      size b1 = size a ∧ elems h b1 = elems h a ∧ b1.is_small = a.is_small ∧
      wf S h a1 = true ∧ wf S h b1 = true) ∧
    swap S h a a true = some (h, a, a) := by
  obtain ⟨xs, hx⟩ := rep_of_wf S h a ha
  obtain ⟨ys, hy⟩ := rep_of_wf S h b hb
  obtain ⟨a1, b1, e, ha1, hb1, hma, hmb⟩ := swap_spec S h a b xs ys hx hy
  refine ⟨⟨a1, b1, e, ?_, ?_, hma, ?_, ?_, hmb, ha1.1, hb1.1⟩, by simp [swap]⟩
  · simp only [size]; rw [rep_size S h a1 ys ha1, rep_size S h b ys hy]
  · rw [ha1.2, hy.2]
  · simp only [size]; rw [rep_size S h b1 xs hb1, rep_size S h a xs hx]
  · rw [hb1.2, hx.2]

/-- Witness for `swap_exchanges_contents`: an Inline container holding `[7, 8]` and a
Shared container holding five elements. -/
theorem swap_exchanges_contents_witness :
    wf 4 demo_store (⟨2, true, none, [some 7, some 8, none, none]⟩ : socow_vector Nat) = true ∧
    wf 4 demo_store demo_vec = true ∧
    (∃ a1 b1,
      swap 4 demo_store (⟨2, true, none, [some 7, some 8, none, none]⟩ : socow_vector Nat)
        demo_vec false = some (demo_store, a1, b1) ∧
      size a1 = size demo_vec ∧ elems demo_store a1 = elems demo_store demo_vec ∧
      a1.is_small = demo_vec.is_small ∧
      size b1 = size (⟨2, true, none, [some 7, some 8, none, none]⟩ : socow_vector Nat) ∧
      elems demo_store b1
        = elems demo_store (⟨2, true, none, [some 7, some 8, none, none]⟩ : socow_vector Nat) ∧
      b1.is_small = (⟨2, true, none, [some 7, some 8, none, none]⟩ : socow_vector Nat).is_small ∧
      wf 4 demo_store a1 = true ∧ wf 4 demo_store b1 = true) ∧
    swap 4 demo_store (⟨2, true, none, [some 7, some 8, none, none]⟩ : socow_vector Nat)
        (⟨2, true, none, [some 7, some 8, none, none]⟩ : socow_vector Nat) true
      = some (demo_store, (⟨2, true, none, [some 7, some 8, none, none]⟩ : socow_vector Nat),
          (⟨2, true, none, [some 7, some 8, none, none]⟩ : socow_vector Nat)) :=
  ⟨by decide, by decide, swap_exchanges_contents 4 demo_store _ demo_vec (by decide)
    (by decide)⟩

/-! ## The mode after an operation -/

theorem assign_mode (S : Nat) (h : heap T) (t o : socow_vector T) (same : Bool)
    (h1 : heap T) (t1 : socow_vector T) (e : assign S h t o same = some (h1, t1)) :
    t1.is_small = o.is_small := by
  unfold assign at e
  split at e
  · cases e; rfl
  · split at e
    · rename_i hb
      simp only [Bool.and_eq_true] at hb
      simp only [Option.map_eq_some'] at e
      obtain ⟨t2, e2, e3⟩ := e
      cases e3
      unfold assign_small at e2
      simp only [Option.bind_eq_some] at e2
      obtain ⟨_, _, _, _, _, _, _, _, _, _, e4⟩ := e2
      cases e4
      simp [hb.1, hb.2]
    · simp only [Option.bind_eq_some] at e
      obtain ⟨s, _, e2⟩ := e
      cases e2
      rfl

theorem reserve_mode (S : Nat) (h : heap T) (v : socow_vector T) (xs : List T) (n : Nat)
    (hr : Rep S h v xs) (hm : v.is_small = false) (h1 : heap T) (v1 : socow_vector T)
    (e : reserve S h v n = some (h1, v1)) :
    v1.is_small = true ↔ (xs.length < n ∧ n ≤ S) := by
  rcases v with ⟨m, sm, bf, sd⟩
  cases sm with
  | true => cases hm
  | false =>
    rw [rep_big_iff] at hr
    obtain ⟨rfl, hl, p, c, r, tl, rfl, hp, hr1, hcap⟩ := hr
    have hd := (deref_eq_some h p _).2 hp
    by_cases h0 : n ≤ xs.length
    · simp only [reserve, size, h0, if_true] at e
      cases e
      simp; omega
    · by_cases h2 : n ≤ S
      · have hxS : xs.length ≤ S := by omega
        simp only [reserve, size, h0, if_false, h2, if_true,
          make_small_eq S h xs p c r sd tl hp hr1 hxS hl] at e
        cases e
        simp; omega
      · simp only [reserve, size, h0, if_false, h2, hd, Option.some_bind,
          capacity_big S h _ p sd _ hp, set_capacity_big S h xs p c r sd tl n hp hr1] at e
        split_ifs at e <;> (cases e; simp; omega)

theorem shrink_to_fit_mode (S : Nat) (h : heap T) (v : socow_vector T) (xs : List T)
    (hr : Rep S h v xs) (hm : v.is_small = false) (h1 : heap T) (v1 : socow_vector T)
    (e : shrink_to_fit S h v = some (h1, v1)) :
    v1.is_small = true ↔ xs.length ≤ S := by
  rcases v with ⟨m, sm, bf, sd⟩
  cases sm with
  | true => cases hm
  | false =>
    rw [rep_big_iff] at hr
    obtain ⟨rfl, hl, p, c, r, tl, rfl, hp, hr1, hcap⟩ := hr
    by_cases h2 : xs.length ≤ S
    · simp only [shrink_to_fit, size, h2, if_true, if_false,
        make_small_eq S h xs p c r sd tl hp hr1 h2 hl] at e
      cases e
      simp [h2]
    · simp only [shrink_to_fit, size, h2, if_false, Option.some_bind,
        capacity_big S h _ p sd _ hp, set_capacity_big S h xs p c r sd tl _ hp hr1] at e
      split_ifs at e <;> (cases e; simp [h2])

theorem run_overflow (S : Nat) (h : heap T) (v : socow_vector T) (xs : List T)
    (op : Mutation T) (hr : Rep S h v xs) (hv : op.valid xs.length = true)
    (hg : op.grows = true) (hb : overflows S h v = true) : op.run S h v = none := by
  have hb2 := (overflows_iff S h v xs hr).1 hb
  have hnil : xs = [] := List.length_eq_zero.1 hb2.1
  subst hnil
  have hs := rep_size S h v [] hr
  obtain ⟨_, _, c, _, hc, _⟩ := reserve_spec S h v [] 0 hr
  have hc0 : c ≠ 0 := by
    intro h0; apply hb2.2.2; rw [hc, h0]
  cases op with
  | push_back x =>
    have e := insert_overflow S h v x hr hb2.2.1 c hc hc0
    simp [Mutation.run, push_back, size, hs, e]
  | insert i x =>
    have hi : i = 0 := by simpa [Mutation.valid] using hv
    subst hi
    have e := insert_overflow S h v x hr hb2.2.1 c hc hc0
    simp [Mutation.run, e]
  | erase f l => cases hg
  | pop_back => cases hg
  | clear => cases hg
  | reserve n => cases hg
  | shrink_to_fit => cases hg
  | write i x => cases hg

/-! # The claim on demotion -/

/-- C19, refuted as stated: with `SMALL_SIZE = 4`, push 0, 1, 2, 3, 4, then
`erase(begin() + 2, end())` and `reserve(3)`.  Before `reserve` the container is well
formed, Shared and holds two elements; `reserve(3)` takes the `make_small` branch and
leaves it Inline with the same two elements. -/
theorem reserve_demotes_shared :
    ((push_all 4 [0, 1, 2, 3, 4] [] (socow_vector.default 4 : socow_vector Nat)).bind fun a =>
      (erase 4 a.1 a.2 2 5).bind fun e =>
      (reserve 4 e.1 e.2.1 3).bind fun r =>
      some ((e.2.1.is_small, size e.2.1, wf 4 e.1 e.2.1),
        (r.2.is_small, size r.2, elems r.1 r.2)))
      = some ((false, 2, true), (true, 2, some [0, 1])) := by
  decide

/-- C19, amended: let `v` be a well-formed container in Shared mode and `op` a mutating
operation with valid arguments.  Whenever `op` returns, the container is Inline afterwards
exactly if `op` is `shrink_to_fit()` with `size() ≤ SMALL_SIZE`, or `op` is `reserve(n)`
with `size() < n ≤ SMALL_SIZE`; so `insert`, `push_back`, `erase`, `pop_back`, `clear` and
element writes never demote, and a demotion implies `size() ≤ SMALL_SIZE`.  A copy
assignment from `w` leaves `v` in the mode of `w`, and `v.swap(w)` with a well-formed `w`
returns and leaves `v` in the former mode of `w`. -/
theorem demotion_only_on_request (S : Nat) (h : heap T) (v : socow_vector T)
    (op : Mutation T) (hw : wf S h v = true) (hm : v.is_small = false)
    (hv : op.valid (size v) = true) :
    (∀ h1 v1, op.run S h v = some (h1, v1) →
      (v1.is_small = true ↔
        ((op = Mutation.shrink_to_fit ∧ size v ≤ S) ∨
          ∃ n, op = Mutation.reserve n ∧ size v < n ∧ n ≤ S))) ∧
    (∀ w h1 v1, assign S h v w false = some (h1, v1) → v1.is_small = w.is_small) ∧
    (∀ w, wf S h w = true →
      ∃ v1 w1, swap S h v w false = some (h, v1, w1) ∧ v1.is_small = w.is_small) := by
  obtain ⟨xs, hr⟩ := rep_of_wf S h v hw
  have hs : size v = xs.length := rep_size S h v xs hr
  rw [hs] at hv
  refine ⟨?_, fun w h1 v1 e => assign_mode S h v w false h1 v1 e, ?_⟩
  · intro h1 v1 e
    have key : ∀ (h2 : heap T) (v2 : socow_vector T), op.run S h v = some (h2, v2) →
        v2.is_small = false → op ≠ Mutation.shrink_to_fit → (∀ n, op ≠ Mutation.reserve n) →
        (v1.is_small = true ↔
          ((op = Mutation.shrink_to_fit ∧ size v ≤ S) ∨
            ∃ n, op = Mutation.reserve n ∧ size v < n ∧ n ≤ S)) := by
      intro h2 v2 e2 hm2 hn1 hn2
      rw [e] at e2
      cases e2
      constructor
      · intro ht; rw [ht] at hm2; cases hm2
      · rintro (⟨h3, -⟩ | ⟨n, h3, -⟩)
        · exact absurd h3 hn1
        · exact absurd h3 (hn2 n)
    have hov := overflows_iff S h v xs hr
    cases op with
    | push_back x =>
      by_cases hb : overflows S h v = true
      · rw [run_overflow S h v xs _ hr hv rfl hb] at e
        cases e
      · obtain ⟨h2, v2, e2, -, -, -, hm2⟩ := push_back_spec S h v xs x hr
          (fun hh => hb (hov.2 hh))
        exact key h2 v2 e2 (by rw [hm2, hm]; rfl) (by simp) (by simp)
    | insert i x =>
      have hi : i ≤ xs.length := by simpa [Mutation.valid] using hv
      by_cases hb : overflows S h v = true
      · rw [run_overflow S h v xs _ hr hv rfl hb] at e
        cases e
      · obtain ⟨h2, v2, e2, -, -, -, hm2⟩ := insert_spec S h v xs i x hr hi
          (fun hh => hb (hov.2 hh))
        exact key h2 v2 (by simp [Mutation.run, e2]) (by rw [hm2, hm]; rfl) (by simp)
          (by simp)
    | erase f l =>
      have hfl : f ≤ l ∧ l ≤ xs.length := by simpa [Mutation.valid] using hv
      obtain ⟨h2, v2, e2, -, -, -, hm2⟩ := erase_spec S h v xs f l hr hfl.1 hfl.2
      exact key h2 v2 (by simp [Mutation.run, e2]) (by rw [hm2, hm]) (by simp) (by simp)
    | pop_back =>
      have hne : xs ≠ [] := by
        intro h0; subst h0; simp [Mutation.valid] at hv
      obtain ⟨h2, v2, e2, -, -, -, hm2⟩ := pop_back_spec S h v xs hr hne
      exact key h2 v2 e2 (by rw [hm2, hm]) (by simp) (by simp)
    | clear =>
      obtain ⟨h2, v2, e2, -, -, hm2, -⟩ := clear_spec S h v xs hr
      exact key h2 v2 e2 (by rw [hm2, hm]) (by simp) (by simp)
    | reserve n =>
      have := reserve_mode S h v xs n hr hm h1 v1 e
      rw [this, hs]
      simp
    | shrink_to_fit =>
      have := shrink_to_fit_mode S h v xs hr hm h1 v1 e
      rw [this, hs]
      simp
    | write i x =>
      have hi : i < xs.length := by simpa [Mutation.valid] using hv
      obtain ⟨h2, v2, e2, -, -, -, hm2⟩ := write_index_spec S h v xs i x hr hi
      exact key h2 v2 e2 (by rw [hm2, hm]) (by simp) (by simp)
  · intro w hww
    obtain ⟨ys, hy⟩ := rep_of_wf S h w hww
    obtain ⟨a1, b1, e, -, -, hma, -⟩ := swap_spec S h v w xs ys hr hy
    exact ⟨a1, b1, e, hma⟩

/-- Witness for `demotion_only_on_request`: two elements in a buffer of capacity 8 with
`SMALL_SIZE = 4`, and the request `reserve(3)`. -/
theorem demotion_only_on_request_witness :
    wf 4 demo_store (⟨2, false, some 0, [none, none, none, none]⟩ : socow_vector Nat) = true ∧
    (∀ h1 v1, (Mutation.reserve 3 : Mutation Nat).run 4 demo_store
        (⟨2, false, some 0, [none, none, none, none]⟩ : socow_vector Nat) = some (h1, v1) →
      (v1.is_small = true ↔
        (((Mutation.reserve 3 : Mutation Nat) = Mutation.shrink_to_fit ∧
            size (⟨2, false, some 0, [none, none, none, none]⟩ : socow_vector Nat) ≤ 4) ∨
          ∃ n, (Mutation.reserve 3 : Mutation Nat) = Mutation.reserve n ∧
            size (⟨2, false, some 0, [none, none, none, none]⟩ : socow_vector Nat) < n ∧
            n ≤ 4))) ∧
    (∀ w h1 v1, assign 4 demo_store
        (⟨2, false, some 0, [none, none, none, none]⟩ : socow_vector Nat) w false
          = some (h1, v1) → v1.is_small = w.is_small) ∧
    (∀ w, wf 4 demo_store w = true →
      ∃ v1 w1, swap 4 demo_store
        (⟨2, false, some 0, [none, none, none, none]⟩ : socow_vector Nat) w false
          = some (demo_store, v1, w1) ∧ v1.is_small = w.is_small) :=
  ⟨by decide, demotion_only_on_request 4 demo_store _ (Mutation.reserve 3) (by decide) rfl
    (by decide)⟩

/-! ## The growing branch of insert under failure injection -/

theorem effect_refl (h : heap T) (a : Option Nat) : Effect h h a a :=
  ⟨id, fun _ => ⟨rfl, fun b hb _ => ⟨b._ref_count, by rw [hb]⟩⟩⟩

theorem effect_trans (h h1 h2 : heap T) (a a1 a2 : Option Nat)
    (e1 : Effect h h1 a a1) (e2 : Effect h1 h2 a1 a2) : Effect h h2 a a2 := by
  refine ⟨fun hl => e2.1 (e1.1 hl), fun q => ?_⟩
  obtain ⟨b1, k1⟩ := e1.2 q
  obtain ⟨b2, k2⟩ := e2.2 q
  refine ⟨by omega, fun b hb hlt => ?_⟩
  obtain ⟨r, hr⟩ := k1 b hb hlt
  have hrefs : refs h q = b._ref_count := by simp [refs, hb]
  have hrefs1 : refs h1 q = r := by simp [refs, hr]
  obtain ⟨r2, hr2⟩ := k2 _ hr (by dsimp only; omega)
  exact ⟨r2, hr2⟩

theorem effect_data (h : heap T) (p : Nat) (b : buffer T) (d : Slots T)
    (hp : h[p]? = some (some b)) (hr : b._ref_count = 1) :
    Effect h (h.set p (some { b with _data := d })) (some p) (some p) := by
  have hplt : p < h.length := by
    rcases List.getElem?_eq_some.1 hp with ⟨hi, _⟩; exact hi
  refine ⟨fun hl q b1 hq => ?_, fun q => ⟨?_, fun b1 hb hlt => ?_⟩⟩
  · by_cases hqp : p = q
    · subst hqp
      simp [List.getElem?_set, hplt] at hq
      subst hq
      exact hl p b hp
    · rw [List.getElem?_set_ne hqp] at hq
      exact hl q b1 hq
  · by_cases hqp : p = q
    · subst hqp
      simp [refs, List.getElem?_set, hplt, hp]
    · simp [refs, List.getElem?_set_ne hqp]
  · by_cases hqp : p = q
    · subst hqp
      rw [hp] at hb
      cases hb
      simp [ind, hr] at hlt
    · exact ⟨b1._ref_count, by rw [List.getElem?_set_ne hqp, hb]⟩

theorem effect_release (h : heap T) (p : Nat) (b : buffer T)
    (hp : h[p]? = some (some b)) (hr : 1 ≤ b._ref_count) :
    Effect h (h.set p (released b)) (some p) none := by
  have hplt : p < h.length := by
    rcases List.getElem?_eq_some.1 hp with ⟨hi, _⟩; exact hi
  refine ⟨fun hl q b1 hq => ?_, fun q => ⟨?_, fun b1 hb hlt => ?_⟩⟩
  · by_cases hqp : p = q
    · subst hqp
      simp only [List.getElem?_set, hplt, if_true, Option.some.injEq, released] at hq
      split at hq
      · cases hq
      · cases hq
        dsimp only
        omega
    · rw [List.getElem?_set_ne hqp] at hq
      exact hl q b1 hq
  · by_cases hqp : p = q
    · subst hqp
      by_cases h1 : b._ref_count = 1
      · simp [refs, List.getElem?_set, hplt, hp, released, h1, ind]
      · simp [refs, List.getElem?_set, hplt, hp, released, h1, ind]
        omega
    · have : ¬ (some p = some q) := by simpa using hqp
      simp [refs, List.getElem?_set_ne hqp, ind, this]
  · by_cases hqp : p = q
    · subst hqp
      rw [hp] at hb
      cases hb
      have h1 : b._ref_count ≠ 1 := by
        simp [ind] at hlt; omega
      exact ⟨b._ref_count - 1, by simp [List.getElem?_set, hplt, released, h1]⟩
    · exact ⟨b1._ref_count, by rw [List.getElem?_set_ne hqp, hb]⟩

theorem effect_fresh (h : heap T) (b : buffer T) (hr : b._ref_count = 1) :
    Effect h (h ++ [some b]) none (some h.length) := by
  refine ⟨fun hl q b1 hq => ?_, fun q => ⟨?_, fun b1 hb hlt => ?_⟩⟩
  · by_cases hlt : q < h.length
    · rw [List.getElem?_append_left hlt] at hq
      exact hl q b1 hq
    · by_cases heq : q = h.length
      · subst heq
        rw [getElem?_append_length] at hq
        cases hq
        omega
      · have : (h ++ [some b]).length ≤ q := by simp; omega
        rw [List.getElem?_eq_none this] at hq
        cases hq
  · by_cases hlt : q < h.length
    · have hne : ¬ (some h.length = some q) := by simp; omega
      simp [refs, List.getElem?_append_left hlt, ind, hne]
    · by_cases heq : q = h.length
      · subst heq
        simp [refs, getElem?_append_length, ind, hr, List.getElem?_eq_none]
      · have h1 : (h ++ [some b]).length ≤ q := by simp; omega
        have h2 : h.length ≤ q := by omega
        have hne : ¬ (some h.length = some q) := by simp; omega
        simp [refs, List.getElem?_eq_none h1, List.getElem?_eq_none h2, ind, hne]
  · exact ⟨b1._ref_count, by rw [getElem?_append_some h _ q _ hb]⟩

theorem effect_add_ref (h : heap T) (q : Nat) (b : buffer T) (hq : h[q]? = some (some b)) :
    Effect h (h.set q (some { b with _ref_count := b._ref_count + 1 })) none (some q) := by
  have hqlt : q < h.length := by
    rcases List.getElem?_eq_some.1 hq with ⟨hi, _⟩; exact hi
  refine ⟨fun hl x b1 hx => ?_, fun x => ⟨?_, fun b1 hb hlt => ?_⟩⟩
  · by_cases hqx : q = x
    · subst hqx
      simp [List.getElem?_set, hqlt] at hx
      subst hx
      dsimp only
      omega
    · rw [List.getElem?_set_ne hqx] at hx
      exact hl x b1 hx
  · by_cases hqx : q = x
    · subst hqx
      simp [refs, List.getElem?_set, hqlt, hq, ind]
    · have : ¬ (some q = some x) := by simpa using hqx
      simp [refs, List.getElem?_set_ne hqx, ind, this]
  · by_cases hqx : q = x
    · subst hqx
      rw [hq] at hb
      cases hb
      exact ⟨b._ref_count + 1, by simp [List.getElem?_set, hqlt]⟩
    · exact ⟨b1._ref_count, by rw [List.getElem?_set_ne hqx, hb]⟩

theorem effect_move (h : heap T) (p : Nat) (b bn : buffer T)
    (hp : h[p]? = some (some b)) (hr : 1 ≤ b._ref_count) (hn : bn._ref_count = 1) :
    Effect h (h.set p (released b) ++ [some bn]) (some p) (some h.length) := by
  have e2 := effect_fresh (h.set p (released b)) bn hn
  rw [List.length_set] at e2
  exact effect_trans _ _ _ _ _ _ (effect_release h p b hp hr) e2

theorem effect_adopt (h : heap T) (p q : Nat) (bp bq : buffer T)
    (hp : h[p]? = some (some bp)) (hr : 1 ≤ bp._ref_count)
    (hq : h[q]? = some (some bq)) (hne : p ≠ q) :
    Effect h ((h.set p (released bp)).set q (some { bq with _ref_count := bq._ref_count + 1 }))
      (some p) (some q) := by
  have hq2 : (h.set p (released bp))[q]? = some (some bq) := by
    rw [List.getElem?_set_ne hne]; exact hq
  exact effect_trans _ _ _ _ _ _ (effect_release h p bp hp hr) (effect_add_ref _ q bq hq2)

theorem holders_append (vs : List (Option (socow_vector T))) (e : Option (socow_vector T))
    (q : Nat) : holders (vs ++ [e]) q = holders vs q + holds e q := by
  simp [holders]

theorem holders_set (q : Nat) (e1 : Option (socow_vector T)) :
    ∀ (vs : List (Option (socow_vector T))) (i : Nat) (e : Option (socow_vector T)),
    vs[i]? = some e → holders (vs.set i e1) q + holds e q = holders vs q + holds e1 q := by
  intro vs
  induction vs with
  | nil => intro i e h; simp at h
  | cons a vs ih =>
    intro i e h
    cases i with
    | zero =>
      simp at h
      subst h
      simp [holders]
      omega
    | succ i =>
      simp at h
      have := ih i e h
      simp only [holders, List.set_cons_succ, List.map_cons, List.sum_cons] at this ⊢
      omega

theorem holds_le_holders (q : Nat) : ∀ (vs : List (Option (socow_vector T))) (j : Nat)
    (e : Option (socow_vector T)), vs[j]? = some e → holds e q ≤ holders vs q := by
  intro vs
  induction vs with
  | nil => intro j e h; simp at h
  | cons a vs ih =>
    intro j e h
    cases j with
    | zero =>
      simp at h
      subst h
      simp [holders]
    | succ j =>
      simp at h
      have := ih j e h
      simp only [holders, List.map_cons, List.sum_cons] at this ⊢
      omega

theorem holders_two (q : Nat) (vs : List (Option (socow_vector T))) (i j : Nat)
    (e e2 : Option (socow_vector T)) (hi : vs[i]? = some e) (hj : vs[j]? = some e2)
    (hne : i ≠ j) : holds e q + holds e2 q ≤ holders vs q := by
  have h1 := holders_set q none vs i e hi
  have h2 : (vs.set i none)[j]? = some e2 := by
    rw [List.getElem?_set_ne hne]; exact hj
  have h3 := holds_le_holders q (vs.set i none) j e2 h2
  have hz : holds (none : Option (socow_vector T)) q = 0 := rfl
  rw [hz] at h1
  omega

theorem rep_keep (S : Nat) (h h1 : heap T) (w : socow_vector T) (ys : List T)
    (hy : Rep S h w ys)
    (hk : ∀ q b, addr w = some q → h[q]? = some (some b) →
      ∃ r, 1 ≤ r ∧ h1[q]? = some (some { b with _ref_count := r })) :
    Rep S h1 w ys := by
  rcases w with ⟨n, sm, bf, sd⟩
  cases sm with
  | true =>
    rw [rep_small_iff] at hy ⊢
    exact hy
  | false =>
    rw [rep_big_iff] at hy ⊢
    obtain ⟨hn, hl, p, c, r, tl, rfl, hp, hr, hcap⟩ := hy
    obtain ⟨r1, hr1, hp1⟩ := hk p _ (by simp [addr]) hp
    exact ⟨hn, hl, p, c, r1, tl, rfl, hp1, hr1, hcap⟩

theorem addr_of_rep_big (S : Nat) (h : heap T) (w : socow_vector T) (ys : List T) (q : Nat)
    (hy : Rep S h w ys) (ha : addr w = some q) : ∃ b, h[q]? = some (some b) := by
  rcases w with ⟨n, sm, bf, sd⟩
  cases sm with
  | true => simp [addr] at ha
  | false =>
    rw [rep_big_iff] at hy
    obtain ⟨-, -, p, c, r, tl, rfl, hp, -, -⟩ := hy
    simp [addr] at ha
    subst ha
    exact ⟨_, hp⟩

/-- A container other than the one an operation acts on stays well formed (or in the null
state). -/
theorem other_kept (S : Nat) (h h1 : heap T) (vs : List (Option (socow_vector T)))
    (a a1 : Option Nat) (w : socow_vector T)
    (hc : Consistent S ⟨h, vs⟩) (he : Effect h h1 a a1)
    (hw : Valid S h w)
    (hcount : ∀ q, ind a q + holds (some w) q ≤ holders vs q) :
    Valid S h1 w := by
  rcases hw with ⟨ys, hy⟩ | hn
  · left
    refine ⟨ys, rep_keep S h h1 w ys hy ?_⟩
    intro q b ha hb
    have hrefs : refs h q = b._ref_count := by simp [refs, hb]
    have hcq := hcount q
    have hI2 := hc.2.2 q
    dsimp only at hI2
    have hh : holds (some w) q = 1 := by simp [holds, ind, ha]
    obtain ⟨r, hr⟩ := (he.2 q).2 b hb (by omega)
    have hl1 := he.1 hc.2.1 q _ hr
    exact ⟨r, hl1, hr⟩
  · exact Or.inr hn

theorem consistent_set (S : Nat) (h h1 : heap T) (vs : List (Option (socow_vector T)))
    (i : Nat) (v : socow_vector T) (a1 : Option Nat) (e1 : Option (socow_vector T))
    (hc : Consistent S ⟨h, vs⟩) (hi : vs[i]? = some (some v))
    (he : Effect h h1 (addr v) a1) (ha : ∀ q, holds e1 q = ind a1 q)
    (hv : ∀ v1, e1 = some v1 → Valid S h1 v1) :
    Consistent S ⟨h1, vs.set i e1⟩ := by
  have hilt : i < vs.length := by
    rcases List.getElem?_eq_some.1 hi with ⟨hi, _⟩; exact hi
  refine ⟨?_, he.1 hc.2.1, ?_⟩
  · intro j w hj
    dsimp only at hj ⊢
    by_cases hij : i = j
    · subst hij
      simp [List.getElem?_set, hilt] at hj
      exact hv w hj
    · rw [List.getElem?_set_ne hij] at hj
      refine other_kept S h h1 vs (addr v) a1 w hc he (hc.1 j w hj) ?_
      intro q
      have := holders_two q vs i j _ _ hi hj hij
      simpa [holds] using this
  · intro q
    dsimp only
    have h1s := holders_set q e1 vs i _ hi
    have h2 := (he.2 q).1
    have h3 := hc.2.2 q
    dsimp only at h3
    have hv0 : holds (some v) q = ind (addr v) q := rfl
    rw [ha q, hv0] at h1s
    omega

theorem consistent_append (S : Nat) (h h1 : heap T) (vs : List (Option (socow_vector T)))
    (c : socow_vector T) (hc : Consistent S ⟨h, vs⟩)
    (he : Effect h h1 none (addr c))
    (hv : Valid S h1 c) :
    Consistent S ⟨h1, vs ++ [some c]⟩ := by
  refine ⟨?_, he.1 hc.2.1, ?_⟩
  · intro j w hj
    dsimp only at hj ⊢
    by_cases hjl : j < vs.length
    · rw [List.getElem?_append_left hjl] at hj
      refine other_kept S h h1 vs none (addr c) w hc he (hc.1 j w hj) ?_
      intro q
      have := holds_le_holders q vs j _ hj
      simpa [ind] using this
    · by_cases heq : j = vs.length
      · subst heq
        rw [getElem?_append_length] at hj
        cases hj
        exact hv
      · have : (vs ++ [some c]).length ≤ j := by simp; omega
        rw [List.getElem?_eq_none this] at hj
        cases hj
  · intro q
    dsimp only
    rw [holders_append]
    have h2 := (he.2 q).1
    have h3 := hc.2.2 q
    dsimp only at h3
    have hv0 : holds (some c) q = ind (addr c) q := rfl
    have hn : ind none q = 0 := by simp [ind]
    rw [hn] at h2
    rw [hv0]
    omega

/-! ## The effect of each operation on the reference counts -/

theorem released_shared (b : buffer T) (hr : b._ref_count ≠ 1) :
    released b = some { b with _ref_count := b._ref_count - 1 } := by
  simp [released, hr]

theorem insert_effect (S : Nat) (h : heap T) (v : socow_vector T) (xs : List T) (idx : Nat)
    (x : T) (hr : Rep S h v xs) (hi : idx ≤ xs.length)
    (hok : ¬ (xs.length = 0 ∧ is_shared h v = some true ∧ capacity S h v ≠ some 0)) :
    ∃ h1 v1, insert S h v idx x = some (h1, v1, idx) ∧ Effect h h1 (addr v) (addr v1) ∧
      ∃ ys, Rep S h1 v1 ys := by
  obtain ⟨h1, v1, e, hr1, -⟩ := insert_spec S h v xs idx x hr hi hok
  refine ⟨h1, v1, e, ?_, _, hr1⟩
  rcases v with ⟨m, sm, bf, sd⟩
  cases sm with
  | true =>
    rw [rep_small_iff] at hr
    obtain ⟨hn, hS, hl, tl, rfl⟩ := hr
    subst hn
    cases tl with
    | nil =>
      have hS2 : xs.length = S := by simpa using hl
      rw [insert_growth_small S h xs bf [] idx _ x hS2 rfl hi] at e
      cases e
      exact effect_fresh h _ rfl
    | cons a tl =>
      rw [insert_small_inplace S h xs bf a tl idx x hl hi] at e
      cases e
      exact effect_refl h _
  | false =>
    rw [rep_big_iff] at hr
    obtain ⟨hn, hl, p, c, r, tl, rfl, hp, hrc, hcap⟩ := hr
    subst hn
    have hxc : xs.length ≤ c := by rw [← hcap]; simp
    by_cases hin : r = 1 ∧ xs.length ≠ c
    · obtain ⟨rfl, hne⟩ := hin
      cases tl with
      | nil => exact absurd (by simpa using hcap) hne
      | cons a tl =>
        rw [insert_big_inplace S h xs p c sd a tl idx x hp hcap hi] at e
        cases e
        exact effect_data h p _ _ hp rfl
    · have hcond : xs.length = c ∨ 2 ≤ r := by
        by_cases h1 : r = 1
        · left; by_contra hne; exact hin ⟨h1, hne⟩
        · right; omega
      have hroom : xs.length + 1 ≤ (if c = 0 then 1 else xs.length * 2) := by
        split
        · omega
        · rename_i hc0
          by_cases hx0 : xs.length = 0
          · exfalso
            apply hok
            refine ⟨hx0, ?_, ?_⟩
            · rw [is_shared_big _ _ _ _ _ hp]
              have : 1 < r := by omega
              simp [this]
            · rw [capacity_big _ _ _ _ _ _ hp]
              simpa using hc0
          · omega
      rw [insert_growth_big S h xs p c r sd tl idx _ x hp hrc hcond rfl hroom hi] at e
      cases e
      exact effect_move h p _ _ hp hrc rfl

theorem effect_move_shared (h : heap T) (p c r : Nat) (d : Slots T) (bn : buffer T)
    (hp : h[p]? = some (some ⟨c, r, d⟩)) (hr : 2 ≤ r) (hn : bn._ref_count = 1) :
    Effect h (h.set p (some ⟨c, r - 1, d⟩) ++ [some bn]) (some p) (some h.length) := by
  have := effect_move h p _ bn hp (by dsimp only; omega) hn
  rw [released_shared _ (by dsimp only; omega)] at this
  exact this

theorem data_effect (S : Nat) (h : heap T) (v : socow_vector T) (xs : List T)
    (hr : Rep S h v xs) :
    ∃ h1 v1, data S h v = some (h1, v1) ∧ Effect h h1 (addr v) (addr v1) ∧
      ∃ ys, Rep S h1 v1 ys := by
  obtain ⟨h1, v1, e, hr1, -⟩ := data_spec S h v xs hr
  refine ⟨h1, v1, e, ?_, _, hr1⟩
  rcases v with ⟨m, sm, bf, sd⟩
  cases sm with
  | true =>
    rw [data_small] at e
    cases e
    exact effect_refl h _
  | false =>
    rw [rep_big_iff] at hr
    obtain ⟨hn, hl, p, c, r, tl, rfl, hp, hrc, hcap⟩ := hr
    subst hn
    by_cases hu : r = 1
    · subst hu
      rw [data_own S _ _ _ (own_big h xs.length p c sd _ hp)] at e
      cases e
      exact effect_refl h _
    · have hr2 : 2 ≤ r := by omega
      rw [data_big_shared S h xs p c r sd tl hp hr2] at e
      cases e
      exact effect_move_shared h p c r _ _ hp hr2 rfl

theorem erase_effect (S : Nat) (h : heap T) (v : socow_vector T) (xs : List T)
    (idx start : Nat) (hr : Rep S h v xs) (hi : idx ≤ start) (hs : start ≤ xs.length) :
    ∃ h1 v1, erase S h v idx start = some (h1, v1, idx) ∧ Effect h h1 (addr v) (addr v1) ∧
      ∃ ys, Rep S h1 v1 ys := by
  obtain ⟨h1, v1, e, hr1, -⟩ := erase_spec S h v xs idx start hr hi hs
  refine ⟨h1, v1, e, ?_, _, hr1⟩
  by_cases he : idx = start
  · subst he
    obtain ⟨h2, v2, e2, hf2, -⟩ := data_effect S h v xs hr
    rw [erase_empty_range S h v idx (by simpa [size, rep_size S h v xs hr] using hs), e2] at e
    cases e
    exact hf2
  · have hlt : idx < start := by omega
    rcases v with ⟨m, sm, bf, sd⟩
    cases sm with
    | true =>
      rw [rep_small_iff] at hr
      obtain ⟨hn, hS, hl, tl, rfl⟩ := hr
      subst hn
      rw [erase_small_inplace S h xs bf tl idx start hlt hs] at e
      cases e
      exact effect_refl h _
    | false =>
      rw [rep_big_iff] at hr
      obtain ⟨hn, hl, p, c, r, tl, rfl, hp, hrc, hcap⟩ := hr
      subst hn
      by_cases hu : r = 1
      · subst hu
        rw [erase_big_inplace S h xs p c sd tl idx start hp hlt hs] at e
        cases e
        exact effect_data h p _ _ hp rfl
      · have hr2 : 2 ≤ r := by omega
        rw [erase_shared S h xs p c r sd tl idx start hp hr2 hlt hs] at e
        cases e
        exact effect_move_shared h p c r _ _ hp hr2 rfl

theorem write_index_effect (S : Nat) (h : heap T) (v : socow_vector T) (xs : List T)
    (i : Nat) (x : T) (hr : Rep S h v xs) (hi : i < xs.length) :
    ∃ h1 v1, write_index S h v i x = some (h1, v1) ∧ Effect h h1 (addr v) (addr v1) ∧
      ∃ ys, Rep S h1 v1 ys := by
  obtain ⟨h1, v1, e, hr1, -, hs1, hm1⟩ := write_index_spec S h v xs i x hr hi
  refine ⟨h1, v1, e, ?_, _, hr1⟩
  rcases v with ⟨m, sm, bf, sd⟩
  cases sm with
  | true =>
    rw [rep_small_iff] at hr
    obtain ⟨hn, hS, hl, tl, rfl⟩ := hr
    subst hn
    have ho := own_small h xs.length bf (xs.map some ++ tl)
    simp only [write_index, with_data_own S h _ _ _ ho, set_live xs tl i x hi,
      Option.some_bind, set_data, if_true] at e
    cases e
    exact effect_refl h _
  | false =>
    rw [rep_big_iff] at hr
    obtain ⟨hn, hl, p, c, r, tl, rfl, hp, hrc, hcap⟩ := hr
    subst hn
    have hxc : xs.length ≤ c := by rw [← hcap]; simp
    by_cases hu : r = 1
    · subst hu
      have ho := own_big h xs.length p c sd _ hp
      simp only [write_index, with_data_own S h _ _ _ ho, set_live xs tl i x hi,
        Option.some_bind, set_data, Bool.false_eq_true, if_false,
        (deref_eq_some h p _).2 hp] at e
      cases e
      exact effect_data h p _ _ hp rfl
    · have hr2 : 2 ≤ r := by omega
      have hlen2 : (h.set p (some (⟨c, r - 1, xs.map some ++ tl⟩ : buffer T))).length
          = h.length := by simp
      have hfb : fresh_buf c xs = ⟨c, 1, xs.map some ++ List.replicate (c - xs.length) none⟩ := by
        simp [fresh_buf, List.take_of_length_le hxc]
      have hq : (h.set p (some (⟨c, r - 1, xs.map some ++ tl⟩ : buffer T))
          ++ [some (⟨c, 1, xs.map some ++ List.replicate (c - xs.length) none⟩ : buffer T)])[h.length]?
          = some (some ⟨c, 1, xs.map some ++ List.replicate (c - xs.length) none⟩) :=
        getElem?_append_length_eq _ _ _ hlen2
      simp only [write_index, with_data, data_big_shared S h xs p c r sd tl hp hr2, hfb,
        Option.some_bind, cdata, Bool.false_eq_true, if_false, (deref_eq_some _ _ _).2 hq,
        Option.map_some', set_live xs _ i x hi, set_data,
        set_append_length_eq _ _ _ _ hlen2] at e
      cases e
      exact effect_move_shared h p c r _ _ hp hr2 rfl

theorem clear_effect (S : Nat) (h : heap T) (v : socow_vector T) (xs : List T)
    (hr : Rep S h v xs) :
    ∃ h1 v1, clear S h v = some (h1, v1) ∧ Effect h h1 (addr v) (addr v1) ∧
      Valid S h1 v1 := by
  obtain ⟨h1, v1, e, -, -, -, hrep⟩ := clear_spec S h v xs hr
  refine ⟨h1, v1, e, ?_⟩
  rcases v with ⟨m, sm, bf, sd⟩
  cases sm with
  | true =>
    have hr0 := hrep (is_shared_small _ _ _ _)
    rw [rep_small_iff] at hr
    obtain ⟨hn, hS, hl, tl, rfl⟩ := hr
    subst hn
    simp only [clear, is_shared_small, Option.some_bind, Bool.false_eq_true, if_false,
      destructive_clear_small] at e
    cases e
    exact ⟨effect_refl h _, Or.inl ⟨_, hr0⟩⟩
  | false =>
    rw [rep_big_iff] at hr
    obtain ⟨hn, hl, p, c, r, tl, rfl, hp, hrc, hcap⟩ := hr
    subst hn
    by_cases hu : r = 1
    · subst hu
      have hr0 := hrep (by rw [is_shared_big _ _ _ _ _ hp]; simp)
      simp [clear, is_shared_big h _ p sd _ hp, destructive_clear_big S h xs p c sd tl hp] at e
      obtain ⟨e1, e2⟩ := e
      subst e1 e2
      exact ⟨effect_data h p _ _ hp rfl, Or.inl ⟨_, hr0⟩⟩
    · have hr2 : 2 ≤ r := by omega
      have h1r : 1 < r := by omega
      simp [clear, is_shared_big h _ p sd _ hp, h1r,
        release_ref_shared h xs.length p sd _ hp hr2] at e
      obtain ⟨e1, e2⟩ := e
      subst e1 e2
      refine ⟨?_, Or.inr ⟨⟨rfl, rfl⟩, hl⟩⟩
      have := effect_release h p _ hp hrc
      rw [released_shared _ (by dsimp only; omega)] at this
      exact this

theorem reserve_effect (S : Nat) (h : heap T) (v : socow_vector T) (xs : List T) (n : Nat)
    (hr : Rep S h v xs) :
    ∃ h1 v1, reserve S h v n = some (h1, v1) ∧ Effect h h1 (addr v) (addr v1) ∧
      ∃ ys, Rep S h1 v1 ys := by
  obtain ⟨h1, v1, _, _, -, e, -, hr1, -⟩ := reserve_spec S h v xs n hr
  refine ⟨h1, v1, e, ?_, _, hr1⟩
  rcases v with ⟨m, sm, bf, sd⟩
  cases sm with
  | true =>
    rw [rep_small_iff] at hr
    obtain ⟨hm, hS, hl, tl, rfl⟩ := hr
    subst hm
    by_cases h1 : n ≤ xs.length
    · simp [reserve, size, h1] at e
      obtain ⟨e1, e2⟩ := e
      subst e1 e2
      exact effect_refl h _
    · by_cases h2 : n ≤ S
      · simp [reserve, size, h1, h2] at e
        obtain ⟨e1, e2⟩ := e
        subst e1 e2
        exact effect_refl h _
      · simp [reserve, size, h1, h2, set_capacity_small] at e
        obtain ⟨e1, e2⟩ := e
        subst e1 e2
        exact effect_fresh h _ rfl
  | false =>
    rw [rep_big_iff] at hr
    obtain ⟨hm, hl, p, c, r, tl, rfl, hp, hrc, hcap⟩ := hr
    subst hm
    have hd := (deref_eq_some h p _).2 hp
    by_cases h1 : n ≤ xs.length
    · simp [reserve, size, h1] at e
      obtain ⟨e1, e2⟩ := e
      subst e1 e2
      exact effect_refl h _
    · by_cases h2 : n ≤ S
      · have hxS : xs.length ≤ S := by omega
        simp [reserve, size, h1, h2, make_small_eq S h xs p c r sd tl hp hrc hxS hl] at e
        obtain ⟨e1, e2⟩ := e
        subst e1 e2
        exact effect_release h p _ hp hrc
      · by_cases h3 : r = 1 ∧ n < c
        · simp [reserve, size, h1, h2, hd, capacity, h3] at e
          obtain ⟨e1, e2⟩ := e
          subst e1 e2
          exact effect_refl h _
        · simp [reserve, size, h1, h2, hd, capacity, h3,
            set_capacity_big S h xs p c r sd tl n hp hrc] at e
          obtain ⟨e1, e2⟩ := e
          subst e1 e2
          exact effect_move h p _ _ hp hrc rfl

theorem shrink_to_fit_effect (S : Nat) (h : heap T) (v : socow_vector T) (xs : List T)
    (hr : Rep S h v xs) :
    ∃ h1 v1, shrink_to_fit S h v = some (h1, v1) ∧ Effect h h1 (addr v) (addr v1) ∧
      ∃ ys, Rep S h1 v1 ys := by
  obtain ⟨h1, v1, _, _, -, e, -, hr1, -⟩ := shrink_to_fit_spec S h v xs hr
  refine ⟨h1, v1, e, ?_, _, hr1⟩
  rcases v with ⟨m, sm, bf, sd⟩
  cases sm with
  | true =>
    simp [shrink_to_fit] at e
    obtain ⟨e1, e2⟩ := e
    subst e1 e2
    exact effect_refl h _
  | false =>
    rw [rep_big_iff] at hr
    obtain ⟨hm, hl, p, c, r, tl, rfl, hp, hrc, hcap⟩ := hr
    subst hm
    have hd := (deref_eq_some h p _).2 hp
    by_cases h1 : xs.length ≤ S
    · simp [shrink_to_fit, size, h1, make_small_eq S h xs p c r sd tl hp hrc h1 hl] at e
      obtain ⟨e1, e2⟩ := e
      subst e1 e2
      exact effect_release h p _ hp hrc
    · by_cases h2 : xs.length < c
      · simp [shrink_to_fit, size, h1, hd, capacity, h2,
          set_capacity_big S h xs p c r sd tl xs.length hp hrc] at e
        obtain ⟨e1, e2⟩ := e
        subst e1 e2
        exact effect_move h p _ _ hp hrc rfl
      · simp [shrink_to_fit, size, h1, hd, capacity, h2] at e
        obtain ⟨e1, e2⟩ := e
        subst e1 e2
        exact effect_refl h _

/-- Every mutating operation with valid arguments on a well-formed container: when it
returns, the reference counts have followed the container, and the container is well
formed or in the null state. -/
theorem mutation_effect (S : Nat) (h : heap T) (v : socow_vector T) (xs : List T)
    (op : Mutation T) (hr : Rep S h v xs) (hv : op.valid xs.length = true)
    (h1 : heap T) (v1 : socow_vector T) (e : op.run S h v = some (h1, v1)) :
    Effect h h1 (addr v) (addr v1) ∧ Valid S h1 v1 := by
  have hov := overflows_iff S h v xs hr
  have hs := rep_size S h v xs hr
  have key : ∀ (h2 : heap T) (v2 : socow_vector T), op.run S h v = some (h2, v2) →
      Effect h h2 (addr v) (addr v2) → Valid S h2 v2 →
      Effect h h1 (addr v) (addr v1) ∧ Valid S h1 v1 := by
    intro h2 v2 e2 he hrn
    rw [e] at e2
    cases e2
    exact ⟨he, hrn⟩
  cases op with
  | push_back x =>
    by_cases hb : overflows S h v = true
    · rw [run_overflow S h v xs _ hr hv rfl hb] at e
      cases e
    · obtain ⟨h2, v2, e2, he, hrn⟩ := insert_effect S h v xs xs.length x hr (le_refl _)
        (fun hh => hb (hov.2 hh))
      exact key h2 v2 (by simp [Mutation.run, push_back, size, hs, e2]) he (Or.inl hrn)
  | insert i x =>
    have hi : i ≤ xs.length := by simpa [Mutation.valid] using hv
    by_cases hb : overflows S h v = true
    · rw [run_overflow S h v xs _ hr hv rfl hb] at e
      cases e
    · obtain ⟨h2, v2, e2, he, hrn⟩ := insert_effect S h v xs i x hr hi
        (fun hh => hb (hov.2 hh))
      exact key h2 v2 (by simp [Mutation.run, e2]) he (Or.inl hrn)
  | erase f l =>
    have hfl : f ≤ l ∧ l ≤ xs.length := by simpa [Mutation.valid] using hv
    obtain ⟨h2, v2, e2, he, hrn⟩ := erase_effect S h v xs f l hr hfl.1 hfl.2
    exact key h2 v2 (by simp [Mutation.run, e2]) he (Or.inl hrn)
  | pop_back =>
    have hne : xs ≠ [] := by
      intro h0; subst h0; simp [Mutation.valid] at hv
    have hpos : 0 < xs.length := List.length_pos.2 hne
    obtain ⟨h2, v2, e2, he, hrn⟩ := erase_effect S h v xs (xs.length - 1)
      (xs.length - 1 + 1) hr (by omega) (by omega)
    exact key h2 v2 (by simp [Mutation.run, pop_back, erase_at, size, hs, e2, hne]) he
      (Or.inl hrn)
  | clear =>
    obtain ⟨h2, v2, e2, he, hrn⟩ := clear_effect S h v xs hr
    exact key h2 v2 e2 he hrn
  | reserve n =>
    obtain ⟨h2, v2, e2, he, hrn⟩ := reserve_effect S h v xs n hr
    exact key h2 v2 e2 he (Or.inl hrn)
  | shrink_to_fit =>
    obtain ⟨h2, v2, e2, he, hrn⟩ := shrink_to_fit_effect S h v xs hr
    exact key h2 v2 e2 he (Or.inl hrn)
  | write i x =>
    have hi : i < xs.length := by simpa [Mutation.valid] using hv
    obtain ⟨h2, v2, e2, he, hrn⟩ := write_index_effect S h v xs i x hr hi
    exact key h2 v2 e2 he (Or.inl hrn)

theorem assign_effect (S : Nat) (h : heap T) (t o : socow_vector T) (xs ys : List T)
    (hx : Rep S h t xs) (hy : Rep S h o ys) (hc : counted h t o = true) :
    ∃ h1 t1, assign S h t o false = some (h1, t1) ∧ Effect h h1 (addr t) (addr t1) ∧
      ∃ zs, Rep S h1 t1 zs := by
  obtain ⟨h1, t1, e, hr1, -⟩ := assign_spec S h t o xs ys hx hy hc
  refine ⟨h1, t1, e, ?_, _, hr1⟩
  rcases t with ⟨n, sm, bf, sd⟩
  rcases o with ⟨k, sm2, bf2, sd2⟩
  cases sm with
  | true =>
    rw [rep_small_iff] at hx
    obtain ⟨rfl, hxS, hl, tl, rfl⟩ := hx
    cases sm2 with
    | true =>
      rw [rep_small_iff] at hy
      obtain ⟨rfl, hyS, hl2, tl2, rfl⟩ := hy
      obtain ⟨tl3, e3, -⟩ := assign_small_small S xs ys bf bf2 tl tl2 hl hl2
      simp [assign, e3] at e
      obtain ⟨e1, e2⟩ := e
      subst e1 e2
      exact effect_refl h _
    | false =>
      rw [rep_big_iff] at hy
      obtain ⟨rfl, hl2, q, c, r, tl2, rfl, hq, hrq, hcap⟩ := hy
      rw [assign_small_big S h xs bf tl ys.length q sd2 _ hq] at e
      cases e
      exact effect_add_ref h q _ hq
  | false =>
    rw [rep_big_iff] at hx
    obtain ⟨rfl, hl, p, c, r, tl, rfl, hp, hrp, hcap⟩ := hx
    cases sm2 with
    | true =>
      rw [rep_small_iff] at hy
      obtain ⟨rfl, hyS, hl2, tl2, rfl⟩ := hy
      rw [assign_big_small S h xs ys p c r sd tl tl2 bf2 hp hrp hyS hl] at e
      cases e
      exact effect_release h p _ hp hrp
    | false =>
      rw [rep_big_iff] at hy
      obtain ⟨rfl, hl2, q, c2, r2, tl2, rfl, hq, hrq, hcap2⟩ := hy
      by_cases hpq : p = q
      · subst hpq
        have h2 : 2 ≤ r := by
          have hd := (deref_eq_some h p _).2 hp
          simp [counted, hd] at hc
          exact hc
        rw [assign_big_big_same S h xs p c r sd tl ys.length sd2 hp h2] at e
        cases e
        exact effect_refl h _
      · rw [assign_big_big S h xs p c r sd tl ys.length q sd2 _ hp hrp hq hpq] at e
        cases e
        exact effect_adopt h p q _ _ hp hrp hq hpq

theorem copy_effect (S : Nat) (h : heap T) (o : socow_vector T) (ys : List T)
    (hy : Rep S h o ys) :
    ∃ h1 c, copy_construct S h o = some (h1, c) ∧ Effect h h1 none (addr c) ∧
      ∃ zs, Rep S h1 c zs :=
  assign_effect S h (socow_vector.default S) o [] ys (rep_default S h) hy
    (by simp [counted, socow_vector.default])

theorem destroy_effect (S : Nat) (h : heap T) (v : socow_vector T) (xs : List T)
    (hr : Rep S h v xs) :
    ∃ h1, destroy S h v = some h1 ∧ Effect h h1 (addr v) none := by
  rcases v with ⟨m, sm, bf, sd⟩
  cases sm with
  | true =>
    rw [rep_small_iff] at hr
    obtain ⟨rfl, hS, hl, tl, rfl⟩ := hr
    exact ⟨h, destroy_small S h xs bf tl, effect_refl h _⟩
  | false =>
    rw [rep_big_iff] at hr
    obtain ⟨rfl, hl, p, c, r, tl, rfl, hp, hrc, hcap⟩ := hr
    exact ⟨_, destroy_big S h xs p c r sd tl hp hrc, effect_release h p _ hp hrc⟩

theorem swap_addr (S : Nat) (h : heap T) (a b : socow_vector T) (xs ys : List T)
    (hx : Rep S h a xs) (hy : Rep S h b ys) :
    ∃ a1 b1, swap S h a b false = some (h, a1, b1) ∧ addr a1 = addr b ∧ addr b1 = addr a ∧
      Rep S h a1 ys ∧ Rep S h b1 xs := by
  obtain ⟨a1, b1, e, ha1, hb1, hma, hmb⟩ := swap_spec S h a b xs ys hx hy
  refine ⟨a1, b1, e, ?_, ?_, ha1, hb1⟩
  · rcases a with ⟨n, sm, bf, sd⟩
    rcases b with ⟨k, sm2, bf2, sd2⟩
    cases sm2 with
    | true => simp [addr, hma]
    | false =>
      rw [rep_big_iff] at hy
      obtain ⟨rfl, hl2, q, c2, r2, tl2, rfl, hq, hrq, hcap2⟩ := hy
      cases sm with
      | true =>
        rw [rep_small_iff] at hx
        obtain ⟨rfl, hxS, hl, tl, rfl⟩ := hx
        simp [swap, swap_big_small S h xs ys bf tl sd2 tl2 q c2 r2 hq hrq hxS hl2] at e
        obtain ⟨e1, e2⟩ := e
        subst e1 e2
        rfl
      | false =>
        rw [rep_big_iff] at hx
        obtain ⟨rfl, hl, p, c, r, tl, rfl, hp, hrp, hcap⟩ := hx
        by_cases hpq : p = q
        · subst hpq
          simp [swap, swap_big_alias S h xs.length ys.length p sd sd2 _ hp hrp] at e
          obtain ⟨e1, e2⟩ := e
          subst e1 e2
          rfl
        · simp [swap, swap_big_big S h xs.length ys.length p q sd sd2 _ _ hp hq hrp hrq hpq]
            at e
          obtain ⟨e1, e2⟩ := e
          subst e1 e2
          rfl
  · rcases a with ⟨n, sm, bf, sd⟩
    rcases b with ⟨k, sm2, bf2, sd2⟩
    cases sm with
    | true => simp [addr, hmb]
    | false =>
      rw [rep_big_iff] at hx
      obtain ⟨rfl, hl, p, c, r, tl, rfl, hp, hrp, hcap⟩ := hx
      cases sm2 with
      | true =>
        rw [rep_small_iff] at hy
        obtain ⟨rfl, hyS, hl2, tl2, rfl⟩ := hy
        simp [swap, swap_big_small S h ys xs bf2 tl2 sd tl p c r hp hrp hyS hl] at e
        obtain ⟨e1, e2⟩ := e
        subst e1 e2
        rfl
      | false =>
        rw [rep_big_iff] at hy
        obtain ⟨rfl, hl2, q, c2, r2, tl2, rfl, hq, hrq, hcap2⟩ := hy
        by_cases hpq : p = q
        · subst hpq
          simp [swap, swap_big_alias S h xs.length ys.length p sd sd2 _ hp hrp] at e
          obtain ⟨e1, e2⟩ := e
          subst e1 e2
          rfl
        · simp [swap, swap_big_big S h xs.length ys.length p q sd sd2 _ _ hp hq hrp hrq hpq]
            at e
          obtain ⟨e1, e2⟩ := e
          subst e1 e2
          rfl

/-! ## Operations on a container in the null state -/

theorem null_eq (v : socow_vector T) (hn : null_state v) :
    v = ⟨v._size, false, none, v.static_data⟩ := by
  rcases v with ⟨n, sm, bf, sd⟩
  obtain ⟨h1, h2⟩ := hn
  dsimp only at h1 h2
  subst h1 h2
  rfl

theorem null_data (S : Nat) (h : heap T) (v : socow_vector T) (hn : null_state v) :
    data S h v = none := by
  rw [null_eq v hn]
  simp [data, unshare, capacity, deref]

theorem null_destroy (S : Nat) (h : heap T) (v : socow_vector T) (hn : null_state v) :
    destroy S h v = some h := by
  rw [null_eq v hn]
  simp [destroy, release_ref]

theorem null_run_mk (S : Nat) (h : heap T) (n : Nat) (sd : Slots T) (op : Mutation T)
    (h1 : heap T) (v1 : socow_vector T)
    (e : op.run S h ⟨n, false, none, sd⟩ = some (h1, v1)) :
    h1 = h ∧ v1 = ⟨n, false, none, sd⟩ := by
  have hd : data S h (⟨n, false, none, sd⟩ : socow_vector T) = none := by
    simp [data, unshare, capacity, deref]
  have hs : is_shared h (⟨n, false, none, sd⟩ : socow_vector T) = none := by
    simp [is_shared, deref]
  cases op with
  | push_back x => simp [Mutation.run, push_back, insert, capacity, deref] at e
  | insert i x => simp [Mutation.run, insert, capacity, deref] at e
  | erase f l =>
    simp only [Mutation.run, erase, hd, hs, Option.none_bind] at e
    split_ifs at e <;> simp at e
  | pop_back =>
    simp only [Mutation.run, pop_back, erase_at, erase, hd, hs, Option.none_bind] at e
    split_ifs at e <;> simp at e
  | clear => simp [Mutation.run, clear, hs] at e
  | reserve k =>
    simp only [Mutation.run, reserve, make_small, cdata, deref, Bool.false_eq_true, if_false,
      Option.map_none', Option.none_bind] at e
    split_ifs at e
    simp at e
    exact ⟨e.1.symm, e.2.symm⟩
  | shrink_to_fit =>
    simp only [Mutation.run, shrink_to_fit, make_small, cdata, capacity, deref,
      Bool.false_eq_true, if_false, Option.map_none', Option.none_bind] at e
    split_ifs at e
  | write i x => simp [Mutation.run, write_index, with_data, hd] at e

theorem null_run (S : Nat) (h : heap T) (v : socow_vector T) (op : Mutation T)
    (hn : null_state v) (h1 : heap T) (v1 : socow_vector T)
    (e : op.run S h v = some (h1, v1)) : h1 = h ∧ v1 = v := by
  rw [null_eq v hn] at e ⊢
  exact null_run_mk S h _ _ op h1 v1 e

theorem assign_null_other (S : Nat) (h : heap T) (t o : socow_vector T) (hn : null_state o) :
    assign S h t o false = none := by
  rw [null_eq o hn]
  rcases t with ⟨n, sm, bf, sd⟩
  cases sm with
  | true =>
    simp only [assign, Bool.false_eq_true, if_false, Bool.and_false, Bool.not_false,
      Bool.and_self, if_true, add_ref]
    cases destructive_clear S h ⟨n, true, bf, sd⟩ <;> rfl
  | false =>
    simp only [assign, Bool.false_eq_true, if_false, Bool.and_false, Bool.not_false,
      Bool.and_self, Bool.false_and, add_ref]
    cases release_ref h ⟨n, false, bf, sd⟩ <;> rfl

theorem null_copy (S : Nat) (h : heap T) (o : socow_vector T) (hn : null_state o) :
    copy_construct S h o = none :=
  assign_null_other S h _ o hn

theorem assign_null_small (S : Nat) (h : heap T) (t o : socow_vector T) (hn : null_state t)
    (ho : o.is_small = true) : assign S h t o false = none := by
  rw [null_eq t hn]
  rcases o with ⟨k, sm2, bf2, sd2⟩
  dsimp only at ho
  subst ho
  simp [assign, cdata, copy_to_small]

theorem assign_null_big (S : Nat) (h : heap T) (t o : socow_vector T) (ys : List T)
    (hn : null_state t) (hy : Rep S h o ys) (ho : o.is_small = false)
    (hsd : t.static_data.length = S) :
    ∃ h1 t1, assign S h t o false = some (h1, t1) ∧ Effect h h1 (addr t) (addr t1) ∧
      Rep S h1 t1 ys := by
  rw [null_eq t hn]
  rcases o with ⟨k, sm2, bf2, sd2⟩
  dsimp only at ho
  subst ho
  rw [rep_big_iff] at hy
  obtain ⟨rfl, hl2, q, c, r, tl, rfl, hq, hrq, hcap⟩ := hy
  have hqlt : q < h.length := by
    rcases List.getElem?_eq_some.1 hq with ⟨hi, _⟩; exact hi
  refine ⟨h.set q (some ⟨c, r + 1, ys.map some ++ tl⟩),
    ⟨ys.length, false, some q, t.static_data⟩, ?_, effect_add_ref h q _ hq, ?_⟩
  · simp [assign, release_ref, add_ref_eq _ _ _ _ _ _ hq, size]
  · rw [rep_big_iff]
    exact ⟨rfl, hsd, q, c, r + 1, tl, rfl, by simp [List.getElem?_set, hqlt], by omega, hcap⟩

theorem swap_null_right (S : Nat) (h : heap T) (a b : socow_vector T) (hn : null_state b) :
    swap S h a b false = none := by
  have hc := null_copy S h b hn
  rw [null_eq b hn] at hc ⊢
  simp [swap, swap_big, hc]

theorem swap_null_left (S : Nat) (h : heap T) (a b : socow_vector T) (hn : null_state a) :
    swap S h a b false = none := by
  have hc := null_copy S h a hn
  have ha : ∀ g, assign S g b a false = none := fun g => assign_null_other S g b a hn
  rw [null_eq a hn] at hc ha ⊢
  rcases b with ⟨k, sm2, bf2, sd2⟩
  cases sm2 with
  | true => simp [swap, swap_big, hc]
  | false =>
    simp only [swap, Bool.false_eq_true, if_false, swap_big, ha]
    cases copy_construct S h ⟨k, false, bf2, sd2⟩ <;> rfl

/-! ## The invariant of a world is preserved -/

theorem get_eq_some (w : world T) (i : Nat) (v : socow_vector T)
    (hg : w.get i = some v) : w.vecs[i]? = some (some v) := by
  unfold world.get at hg
  split at hg
  · cases hg; assumption
  · cases hg

theorem counted_of_consistent (S : Nat) (h : heap T) (vs : List (Option (socow_vector T)))
    (i j : Nat) (t o : socow_vector T) (xs : List T) (hc : Consistent S ⟨h, vs⟩)
    (hi : vs[i]? = some (some t)) (hj : vs[j]? = some (some o)) (hne : i ≠ j)
    (hx : Rep S h t xs) : counted h t o = true := by
  rcases t with ⟨n, sm, bf, sd⟩
  rcases o with ⟨k, sm2, bf2, sd2⟩
  cases sm with
  | true => simp [counted]
  | false =>
    cases sm2 with
    | true => simp [counted]
    | false =>
      rw [rep_big_iff] at hx
      obtain ⟨-, -, p, c, r, tl, rfl, hp, hrp, -⟩ := hx
      by_cases hb : bf2 = some p
      · subst hb
        have h2 := holders_two p vs i j _ _ hi hj hne
        have h3 := hc.2.2 p
        dsimp only at h3
        have h4 : refs h p = r := by simp [refs, hp]
        simp only [holds, addr, ind, Bool.false_eq_true, if_false, if_true] at h2
        have hd := (deref_eq_some h p _).2 hp
        simp [counted, hd]
        omega
      · have : ¬ (some p = bf2) := fun hh => hb hh.symm
        simp [counted, this]

theorem valid_size (S : Nat) (h : heap T) (v : socow_vector T) (xs : List T)
    (hr : Rep S h v xs) : size v = xs.length := rep_size S h v xs hr

theorem exec_create (S : Nat) (w : world T) (hc : Consistent S w) :
    Consistent S ⟨w.store, w.vecs ++ [some (socow_vector.default S)]⟩ :=
  consistent_append S w.store w.store w.vecs _ hc (effect_refl _ _)
    (Or.inl ⟨[], rep_default S w.store⟩)

theorem exec_copy (S : Nat) (w : world T) (j : Nat) (o : socow_vector T) (h1 : heap T)
    (c : socow_vector T) (hc : Consistent S w) (hj : w.vecs[j]? = some (some o))
    (e : copy_construct S w.store o = some (h1, c)) :
    Consistent S ⟨h1, w.vecs ++ [some c]⟩ := by
  rcases hc.1 j o hj with ⟨ys, hy⟩ | ⟨hn, -⟩
  · obtain ⟨h2, c2, e2, he, zs, hz⟩ := copy_effect S w.store o ys hy
    rw [e] at e2
    cases e2
    exact consistent_append S w.store h1 w.vecs c hc he (Or.inl ⟨zs, hz⟩)
  · rw [null_copy S w.store o hn] at e
    cases e

theorem exec_mutate (S : Nat) (w : world T) (i : Nat) (v : socow_vector T) (op : Mutation T)
    (h1 : heap T) (v1 : socow_vector T) (hc : Consistent S w)
    (hi : w.vecs[i]? = some (some v)) (hv : op.valid (size v) = true)
    (e : op.run S w.store v = some (h1, v1)) :
    Consistent S ⟨h1, w.vecs.set i (some v1)⟩ := by
  rcases hc.1 i v hi with ⟨xs, hx⟩ | ⟨hn, hsd⟩
  · rw [valid_size S _ v xs hx] at hv
    obtain ⟨he, hval⟩ := mutation_effect S w.store v xs op hx hv h1 v1 e
    exact consistent_set S w.store h1 w.vecs i v (addr v1) (some v1) hc hi he (fun _ => rfl)
      (fun v2 h2 => by cases h2; exact hval)
  · obtain ⟨e1, e2⟩ := null_run S w.store v op hn h1 v1 e
    subst e1 e2
    exact consistent_set S w.store w.store w.vecs i v1 (addr v1) (some v1) hc hi
      (effect_refl _ _) (fun _ => rfl) (fun v2 h2 => by cases h2; exact Or.inr ⟨hn, hsd⟩)

theorem exec_access (S : Nat) (w : world T) (i : Nat) (v : socow_vector T)
    (h1 : heap T) (v1 : socow_vector T) (hc : Consistent S w)
    (hi : w.vecs[i]? = some (some v)) (e : data S w.store v = some (h1, v1)) :
    Consistent S ⟨h1, w.vecs.set i (some v1)⟩ := by
  rcases hc.1 i v hi with ⟨xs, hx⟩ | ⟨hn, -⟩
  · obtain ⟨h2, v2, e2, he, zs, hz⟩ := data_effect S w.store v xs hx
    rw [e] at e2
    cases e2
    exact consistent_set S w.store h1 w.vecs i v (addr v1) (some v1) hc hi he (fun _ => rfl)
      (fun v2 h2 => by cases h2; exact Or.inl ⟨zs, hz⟩)
  · rw [null_data S w.store v hn] at e
    cases e

theorem exec_destroy (S : Nat) (w : world T) (i : Nat) (v : socow_vector T)
    (h1 : heap T) (hc : Consistent S w)
    (hi : w.vecs[i]? = some (some v)) (e : destroy S w.store v = some h1) :
    Consistent S ⟨h1, w.vecs.set i none⟩ := by
  have hz : ∀ q, holds (none : Option (socow_vector T)) q = ind none q := by
    intro q; simp [holds, ind]
  rcases hc.1 i v hi with ⟨xs, hx⟩ | ⟨hn, -⟩
  · obtain ⟨h2, e2, he⟩ := destroy_effect S w.store v xs hx
    rw [e] at e2
    cases e2
    exact consistent_set S w.store h1 w.vecs i v none none hc hi he hz
      (fun v2 h2 => by cases h2)
  · rw [null_destroy S w.store v hn] at e
    cases e
    have ha : addr v = none := by rw [null_eq v hn]; rfl
    have he : Effect w.store w.store (addr v) none := by rw [ha]; exact effect_refl _ _
    exact consistent_set S w.store w.store w.vecs i v none none hc hi he hz
      (fun v2 h2 => by cases h2)

theorem exec_assign (S : Nat) (w : world T) (i j : Nat) (t o : socow_vector T)
    (h1 : heap T) (t1 : socow_vector T) (hc : Consistent S w)
    (hi : w.vecs[i]? = some (some t)) (hj : w.vecs[j]? = some (some o))
    (e : assign S w.store t o (i == j) = some (h1, t1)) :
    Consistent S ⟨h1, w.vecs.set i (some t1)⟩ := by
  by_cases hij : i = j
  · subst hij
    rw [hi] at hj
    cases hj
    simp [assign] at e
    obtain ⟨e1, e2⟩ := e
    subst e1 e2
    exact consistent_set S w.store w.store w.vecs i t _ (some _) hc hi (effect_refl _ _)
      (fun _ => rfl) (fun v2 h2 => by cases h2; exact hc.1 i t hi)
  · have hb : (i == j) = false := by simpa using hij
    rw [hb] at e
    rcases hc.1 j o hj with ⟨ys, hy⟩ | ⟨hn, -⟩
    · rcases hc.1 i t hi with ⟨xs, hx⟩ | ⟨hn, hsd⟩
      · have hcnt := counted_of_consistent S w.store w.vecs i j t o xs hc hi hj hij hx
        obtain ⟨h2, t2, e2, he, zs, hz⟩ := assign_effect S w.store t o xs ys hx hy hcnt
        rw [e] at e2
        cases e2
        exact consistent_set S w.store h1 w.vecs i t (addr t1) (some t1) hc hi he
          (fun _ => rfl) (fun v2 h2 => by cases h2; exact Or.inl ⟨zs, hz⟩)
      · cases hsm : o.is_small with
        | true =>
          rw [assign_null_small S w.store t o hn hsm] at e
          cases e
        | false =>
          obtain ⟨h2, t2, e2, he, hz⟩ := assign_null_big S w.store t o ys hn hy hsm hsd
          rw [e] at e2
          cases e2
          exact consistent_set S w.store h1 w.vecs i t (addr t1) (some t1) hc hi he
            (fun _ => rfl) (fun v2 h2 => by cases h2; exact Or.inl ⟨ys, hz⟩)
    · rw [assign_null_other S w.store t o hn] at e
      cases e

theorem exec_swap (S : Nat) (w : world T) (i j : Nat) (a b : socow_vector T)
    (h1 : heap T) (a1 b1 : socow_vector T) (hc : Consistent S w)
    (hi : w.vecs[i]? = some (some a)) (hj : w.vecs[j]? = some (some b))
    (e : swap S w.store a b (i == j) = some (h1, a1, b1)) :
    Consistent S ⟨h1, (w.vecs.set i (some a1)).set j (some b1)⟩ := by
  have hilt : i < w.vecs.length := by
    rcases List.getElem?_eq_some.1 hi with ⟨hi, _⟩; exact hi
  by_cases hij : i = j
  · subst hij
    rw [hi] at hj
    cases hj
    simp [swap] at e
    obtain ⟨e1, e2, e3⟩ := e
    subst e1 e2 e3
    have c1 := consistent_set S w.store w.store w.vecs i a _ (some a) hc hi (effect_refl _ _)
      (fun _ => rfl) (fun v2 h2 => by cases h2; exact hc.1 i a hi)
    have hi2 : (w.vecs.set i (some a))[i]? = some (some a) := by
      simp [List.getElem?_set, hilt]
    exact consistent_set S w.store w.store _ i a _ (some a) c1 hi2 (effect_refl _ _)
      (fun _ => rfl) (fun v2 h2 => by cases h2; exact hc.1 i a hi)
  · have hb : (i == j) = false := by simpa using hij
    rw [hb] at e
    rcases hc.1 i a hi with ⟨xs, hx⟩ | ⟨hn, -⟩
    · rcases hc.1 j b hj with ⟨ys, hy⟩ | ⟨hn, -⟩
      · obtain ⟨a2, b2, e2, had, hbd, hra, hrb⟩ := swap_addr S w.store a b xs ys hx hy
        rw [e] at e2
        cases e2
        have hj2 : (w.vecs.set i (some a1))[j]? = some (some b) := by
          rw [List.getElem?_set_ne hij]; exact hj
        have hjlt : j < (w.vecs.set i (some a1)).length := by
          rcases List.getElem?_eq_some.1 hj2 with ⟨hh, _⟩; exact hh
        refine ⟨?_, hc.2.1, ?_⟩
        · intro k u hk
          dsimp only at hk ⊢
          by_cases hkj : j = k
          · subst hkj
            simp [List.getElem?_set, hjlt] at hk
            obtain ⟨-, rfl⟩ := hk
            exact Or.inl ⟨xs, hrb⟩
          · rw [List.getElem?_set_ne hkj] at hk
            by_cases hki : i = k
            · subst hki
              simp [List.getElem?_set, hilt] at hk
              subst hk
              exact Or.inl ⟨ys, hra⟩
            · rw [List.getElem?_set_ne hki] at hk
              exact hc.1 k u hk
        · intro q
          show refs w.store q = holders ((w.vecs.set i (some a1)).set j (some b1)) q
          have s1 := holders_set q (some a1) w.vecs i _ hi
          have s2 := holders_set q (some b1) (w.vecs.set i (some a1)) j _ hj2
          have h3 := hc.2.2 q
          have k1 : holds (some a1) q = holds (some b) q := by simp [holds, had]
          have k2 : holds (some b1) q = holds (some a) q := by simp [holds, hbd]
          omega
      · rw [swap_null_right S w.store a b hn] at e
        cases e
    · rw [swap_null_left S w.store a b hn] at e
      cases e

/-- Every public operation preserves the invariant of a world. -/
theorem exec_consistent (S : Nat) (w w1 : world T) (c : Command T)
    (hc : Consistent S w) (e : exec S w c = some w1) : Consistent S w1 := by
  cases c with
  | create =>
    simp only [exec, Option.some.injEq] at e
    subst e
    exact exec_create S w hc
  | copy j =>
    simp only [exec, Option.bind_eq_some, Option.map_eq_some'] at e
    obtain ⟨o, hg, r, e2, rfl⟩ := e
    exact exec_copy S w j o r.1 r.2 hc (get_eq_some w j o hg) e2
  | assign i j =>
    simp only [exec, Option.bind_eq_some, Option.map_eq_some'] at e
    obtain ⟨t, hg, o, hg2, r, e2, rfl⟩ := e
    exact exec_assign S w i j t o r.1 r.2 hc (get_eq_some w i t hg) (get_eq_some w j o hg2) e2
  | mutate i op =>
    simp only [exec, Option.bind_eq_some] at e
    obtain ⟨v, hg, e2⟩ := e
    split_ifs at e2 with hv
    simp only [Option.map_eq_some'] at e2
    obtain ⟨r, e3, rfl⟩ := e2
    exact exec_mutate S w i v op r.1 r.2 hc (get_eq_some w i v hg) hv e3
  | swap i j =>
    simp only [exec, Option.bind_eq_some, Option.map_eq_some'] at e
    obtain ⟨a, hg, b, hg2, r, e2, rfl⟩ := e
    exact exec_swap S w i j a b r.1 r.2.1 r.2.2 hc (get_eq_some w i a hg)
      (get_eq_some w j b hg2) e2
  | access i =>
    simp only [exec, Option.bind_eq_some, Option.map_eq_some'] at e
    obtain ⟨v, hg, r, e2, rfl⟩ := e
    exact exec_access S w i v r.1 r.2 hc (get_eq_some w i v hg) e2
  | destroy i =>
    simp only [exec, Option.bind_eq_some, Option.map_eq_some'] at e
    obtain ⟨v, hg, r, e2, rfl⟩ := e
    exact exec_destroy S w i v r hc (get_eq_some w i v hg) e2

theorem run_consistent (S : Nat) : ∀ (cs : List (Command T)) (w w1 : world T),
    Consistent S w → run S cs w = some w1 → Consistent S w1 := by
  intro cs
  induction cs with
  | nil =>
    intro w w1 hc e
    simp only [run, Option.some.injEq] at e
    subst e
    exact hc
  | cons c cs ih =>
    intro w w1 hc e
    simp only [run, Option.bind_eq_some] at e
    obtain ⟨w2, e2, e3⟩ := e
    exact ih w2 w1 (exec_consistent S w w2 c hc e2) e3

theorem consistent_empty (S : Nat) : Consistent S (⟨[], []⟩ : world T) := by
  refine ⟨?_, ?_, ?_⟩
  · intro i v hi
    simp at hi
  · intro q b hq
    simp at hq
  · intro q
    simp [refs, holders]

/-! # The claim on the reference counts -/

/-- C17: in every world reached from the empty world by public operations (default and
copy construction, copy assignment, `insert`, `push_back`, `erase`, `pop_back`, `clear`,
`reserve`, `shrink_to_fit`, element writes, `swap`, non-const element access and
destruction, each with the temporaries it creates and destroys), every live buffer has a
reference count of at least 1 that equals the number of live containers in Shared mode
addressing it, and an address without a live buffer (freed or never allocated) is
addressed by no live container in Shared mode: a buffer is live exactly as long as it has
a holder. -/
theorem ref_count_invariant (S : Nat) (cs : List (Command T)) (w : world T)
    (hrun : run S cs ⟨[], []⟩ = some w) :
    ∀ q : Nat,
      (∀ b : buffer T, w.store[q]? = some (some b) →
        1 ≤ b._ref_count ∧ b._ref_count = holders w.vecs q) ∧
      ((∀ b : buffer T, w.store[q]? ≠ some (some b)) → holders w.vecs q = 0) := by
  have hc := run_consistent S cs ⟨[], []⟩ w (consistent_empty S) hrun
  intro q
  have h3 := hc.2.2 q
  constructor
  · intro b hb
    refine ⟨hc.2.1 q b hb, ?_⟩
    rw [← h3]
    simp [refs, hb]
  · intro hn
    rw [← h3]
    unfold refs
    split
    · rename_i b hb
      exact absurd hb (hn b)
    · rfl

/-- Witness for `ref_count_invariant`: the run `demo_commands` with `SMALL_SIZE = 4`, which
shares, unshares, assigns, clears a shared buffer and frees a buffer. -/
theorem ref_count_invariant_witness :
    run 4 demo_commands ⟨[], []⟩ = some demo_world ∧
    ∀ q : Nat,
      (∀ b : buffer Nat, demo_world.store[q]? = some (some b) →
        1 ≤ b._ref_count ∧ b._ref_count = holders demo_world.vecs q) ∧
      ((∀ b : buffer Nat, demo_world.store[q]? ≠ some (some b)) →
        holders demo_world.vecs q = 0) :=
  ⟨by decide, ref_count_invariant 4 demo_commands demo_world (by decide)⟩

/-! # The claims on reserve on a machine with a bounded size_t -/

/-- On a 64-bit machine a request fits exactly when `sizeof(buffer) + sizeof(T) * capacity`
does not exceed `SIZE_MAX`. -/
theorem fits_lp64 (s n : Nat) (hs : 0 < s) :
    fits (lp64 s : Machine T) n = true ↔ 16 + s * n < 2 ^ 64 := by
  have hdiv : s * n / s = n := Nat.mul_div_cancel_left n hs
  constructor
  · intro hf
    by_contra hge
    have hge2 : 2 ^ 64 ≤ 16 + s * n := Nat.le_of_not_lt hge
    have hlt : (16 + s * n) % 2 ^ 64 < 16 + s * n :=
      lt_of_lt_of_le (Nat.mod_lt _ (by norm_num)) hge2
    simp only [fits, block_slots, alloc_bytes, lp64, beq_iff_eq] at hf
    split_ifs at hf with h16
    · simp only [Option.some.injEq] at hf
      have h1 := Nat.div_mul_le_self ((16 + s * n) % 2 ^ 64 - 16) s
      rw [hf] at h1
      have h2 : n * s = s * n := Nat.mul_comm n s
      omega
  · intro hlt
    have hm : (16 + s * n) % 2 ^ 64 = 16 + s * n := Nat.mod_eq_of_lt hlt
    simp only [fits, block_slots, alloc_bytes, lp64, hm, beq_iff_eq]
    simp [hdiv]

/-- When the allocation size does not wrap, `reserve(n)` with `n > size()` returns with
`capacity() ≥ n`, and `reserve(n)` with `n ≤ size()` changes nothing. -/
theorem reserve_capacity_guarantee_fits [m : Machine T] (S : Nat) (h : heap T)
    (v : socow_vector T) (n : Nat) (hw : wf S h v = true)
    (hfit : size v < n → S < n → fits m n = true) :
    (size v < n →
      ∃ h1 v1 c1, reserve S h v n = some (h1, v1) ∧ capacity S h1 v1 = some c1 ∧ n ≤ c1) ∧
    (n ≤ size v →
      ∃ h1 v1, reserve S h v n = some (h1, v1) ∧ h1 = h ∧ v1 = v ∧
        v1.is_small = v.is_small ∧ capacity S h1 v1 = capacity S h v ∧
        size v1 = size v ∧ elems h1 v1 = elems h v) := by
  obtain ⟨xs, hr⟩ := rep_of_wf S h v hw
  have hs := rep_size S h v xs hr
  obtain ⟨h1, v1, c, c1, -, e2, e3, -, -, f1, f2, -, -, -, -⟩ :=
    reserve_spec_fits S h v xs n hr (by simpa [size, hs] using hfit)
  constructor
  · intro g
    exact ⟨h1, v1, c1, e2, e3, f2 (by simpa [size, hs] using g)⟩
  · intro g
    obtain ⟨rfl, rfl⟩ := f1 (by simpa [size, hs] using g)
    exact ⟨h1, v1, e2, rfl, rfl, rfl, rfl, rfl, rfl⟩

/-- When the allocation size does not wrap, `reserve(n)` returns and leaves `size()` and the
element sequence as they were, on every branch. -/
theorem reserve_preserves_contents_fits [m : Machine T] (S : Nat) (h : heap T)
    (v : socow_vector T) (n : Nat) (hw : wf S h v = true)
    (hfit : size v < n → S < n → fits m n = true) :
    ∃ h1 v1, reserve S h v n = some (h1, v1) ∧ size v1 = size v ∧
      elems h1 v1 = elems h v ∧ wf S h1 v1 = true := by
  obtain ⟨xs, hr⟩ := rep_of_wf S h v hw
  have hs := rep_size S h v xs hr
  obtain ⟨h1, v1, c, c1, -, e, -, hr1, -⟩ :=
    reserve_spec_fits S h v xs n hr (by simpa [size, hs] using hfit)
  refine ⟨h1, v1, e, ?_, ?_, hr1.1⟩
  · simp only [size]; rw [rep_size S h v xs hr, rep_size S h1 v1 xs hr1]
  · rw [hr1.2, hr.2]

/-- C7, amended: on every machine, for every well-formed container and every `n` for which
the allocation size `sizeof(buffer) + sizeof(T) * n` is computed without wrapping whenever
`reserve` has to allocate (`n > size()` and `n > SMALL_SIZE`), `reserve(n)` returns and
`capacity()` afterwards is at least `min(capacity() before, max(n, SMALL_SIZE))`; it is at
least `capacity()` before whenever the container is Inline, or `n ≤ size()`, or
`n ≥ capacity()`, or the buffer is uniquely owned and `n > SMALL_SIZE`.  The allocation
itself is taken to succeed, as everywhere in this development. -/
theorem reserve_capacity_lower_bound [m : Machine T] (S : Nat) (h : heap T)
    (v : socow_vector T) (n : Nat) (hw : wf S h v = true)
    (hfit : size v < n → S < n → fits m n = true) :
    ∃ h1 v1 c c1, capacity S h v = some c ∧ reserve S h v n = some (h1, v1) ∧
      capacity S h1 v1 = some c1 ∧ min c (max n S) ≤ c1 ∧
      ((v.is_small = true ∨ n ≤ size v ∨ c ≤ n ∨ (is_shared h v = some false ∧ S < n)) →
        c ≤ c1) := by
  obtain ⟨xs, hr⟩ := rep_of_wf S h v hw
  have hs := rep_size S h v xs hr
  obtain ⟨h1, v1, c, c1, e1, e2, e3, -, -, f1, -, f3, f4, f5, -⟩ :=
    reserve_spec_fits S h v xs n hr (by simpa [size, hs] using hfit)
  refine ⟨h1, v1, c, c1, e1, e2, e3, f3, ?_⟩
  rintro (g | g | g | ⟨g1, g2⟩)
  · exact f5 g
  · obtain ⟨rfl, rfl⟩ := f1 (by simpa [size, hs] using g)
    rw [e1] at e3
    have : c = c1 := by simpa using e3
    omega
  · have : min c (max n S) = c := by
      apply min_eq_left
      exact le_trans g (le_max_left _ _)
    omega
  · exact f4 g1 g2

/-- Witness for `reserve_capacity_lower_bound`: a 64-bit machine with 4-byte elements, five
elements in a uniquely owned buffer of capacity 8 with `SMALL_SIZE = 4`, `reserve(12)`. -/
theorem reserve_capacity_lower_bound_witness :
    wf 4 demo_store demo_vec = true ∧
    (size demo_vec < 12 → 4 < 12 → fits (lp64 4 : Machine Nat) 12 = true) ∧
    ∃ h1 v1 c c1, capacity 4 demo_store demo_vec = some c ∧
      @reserve Nat (lp64 4) 4 demo_store demo_vec 12 = some (h1, v1) ∧
      capacity 4 h1 v1 = some c1 ∧ min c (max 12 4) ≤ c1 ∧
      ((demo_vec.is_small = true ∨ 12 ≤ size demo_vec ∨ c ≤ 12 ∨
        (is_shared demo_store demo_vec = some false ∧ 4 < 12)) → c ≤ c1) :=
  ⟨by decide, fun _ _ => by decide,
    @reserve_capacity_lower_bound Nat (lp64 4) 4 demo_store demo_vec 12 (by decide)
      (fun _ _ => by decide)⟩

/-- C10, the failing input: a 64-bit machine, `T = int` (4 bytes), `SMALL_SIZE = 4`, an
Inline container holding `[5, 6, 7]`, then `reserve(2^62)`.  The allocation size
`16 + 4 * 2^62` wraps to 16 bytes: the block holds the header and no element, and the copy
of the three elements writes past it, a fault.  On an empty container the same call
returns with `capacity() = 2^62` over a block without any slot, and the next `push_back`
faults. -/
theorem reserve_wraps_allocation_size :
    (alloc_bytes (lp64 4 : Machine Nat) (2 ^ 62), block_slots (lp64 4 : Machine Nat) 16,
      fits (lp64 4 : Machine Nat) (2 ^ 62)) = (16, some 0, false) ∧
    (wf 4 [] (⟨3, true, none, [some 5, some 6, some 7, none]⟩ : socow_vector Nat),
      decide (size (⟨3, true, none, [some 5, some 6, some 7, none]⟩ : socow_vector Nat)
        < 2 ^ 62),
      (@reserve Nat (lp64 4) 4 []
        (⟨3, true, none, [some 5, some 6, some 7, none]⟩ : socow_vector Nat) (2 ^ 62)).isNone)
      = (true, true, true) ∧
    ((@reserve Nat (lp64 4) 4 [] (socow_vector.default 4) (2 ^ 62)).bind fun r =>
      some (capacity 4 r.1 r.2, (buffer_of r.1 r.2).map fun b => b._data.length,
        (@push_back Nat (lp64 4) 4 r.1 r.2 7).isNone))
      = some (some (2 ^ 62), some 0, true) := by
  refine ⟨by decide, by decide, by decide⟩

/-- C11, the failing input: a 64-bit machine, `T = int` (4 bytes), `SMALL_SIZE = 4`, a
container holding `[0, 1, 2, 3, 4]` in a buffer of capacity 8, uniquely owned or shared
with a copy, then `reserve(2^62)`.  The container is well formed; the replacement block
has 16 bytes, and copying the five elements into it is a fault, so `reserve` has no
defined result and the elements are not preserved. -/
theorem reserve_overflows_wrapped_buffer :
    (wf 4 demo_store demo_vec, elems demo_store demo_vec,
      (@reserve Nat (lp64 4) 4 demo_store demo_vec (2 ^ 62)).isNone)
      = (true, some [0, 1, 2, 3, 4], true) ∧
    (wf 4 demo_shared_store demo_vec, elems demo_shared_store demo_vec,
      (@reserve Nat (lp64 4) 4 demo_shared_store demo_vec (2 ^ 62)).isNone)
      = (true, some [0, 1, 2, 3, 4], true) := by
  refine ⟨by decide, by decide⟩

end SocowVector
